import Mathlib

/-!
Abelian sandpile model: grid store, stabilization pass, bitmap encoder and driver

A shallow embedding of `src/main.cpp` (class `SandpileModel`) and proofs about it.

Modelling conventions.
* `uint64_t` grain counts are natural numbers; every `+=` and `-=` on a cell is
  reduced modulo `2^64` exactly as the machine does.
* `uint64_t** grid` and `temp_grid` are lists of rows; an access outside the
  allocated rows or cells is undefined behaviour in the source and yields
  `none` here.
* `size_t width, height`, the `int64_t` box corners and the `uint64_t`
  iteration counter are unbounded numbers: they change by one per expansion
  or per pass and start from 16-bit coordinates resp. zero, so their
  wrap-around is out of reach.
* The two nested `for` loops of `iterate` re-read `width` and `height` and have
  their cursors changed by the body, so they are modelled with fuel; the fuel
  that `iterate` supplies is proved sufficient.
* The file written by `write_bmp` is the list of its bytes (numbers below 256);
  the `uint32_t` sizes of `write_bmp` are reduced modulo `2^32`, and a write
  outside the pixel buffer yields `none`. Opening the file is not modelled.
* The loop of `main` runs on the variables `changed` and `iteration`, with fuel
  `max_iter + 1`, which is proved sufficient; a save is recorded by the number in
  the file name.
-/

namespace Sandpile

/-! ## The embedding of the source -/

/-- Number of values of a `uint64_t`: `2^64`. -/
def U64 : Nat := 18446744073709551616

/-- Largest `int64_t`, `std::numeric_limits<int64_t>::max()`. -/
def INT64_MAX : Int := 9223372036854775807

/-- Smallest `int64_t`, `std::numeric_limits<int64_t>::min()`. -/
def INT64_MIN : Int := -9223372036854775808

/-- A two-dimensional array `uint64_t**`: a list of rows. -/
abbrev Grid := List (List Nat)

/-- The `struct CellData` of the source: `int16_t x, y; uint64_t grains`. -/
structure CellData where
  x : Int
  y : Int
  grains : Nat
deriving DecidableEq

/-- The private fields of `class SandpileModel`. -/
structure SandpileModel where
  iteration : Nat
  grid : Grid
  temp_grid : Grid
  min_x : Int
  max_x : Int
  min_y : Int
  max_y : Int
  width : Nat
  height : Nat
deriving DecidableEq

/-- The constructor `SandpileModel()`: null arrays, everything zero. -/
def construct : SandpileModel :=
  { iteration := 0, grid := [], temp_grid := [],
    min_x := 0, max_x := 0, min_y := 0, max_y := 0, width := 0, height := 0 }

/-- A freshly `memset` row of `n` cells. -/
def zeros (n : Nat) : List Nat := List.replicate n 0

/-- The call `std::memcpy(dst + off, src, n * sizeof(uint64_t))` on rows. -/
def memcpy (dst : List Nat) (off : Nat) (src : List Nat) (n : Nat) : List Nat :=
  dst.take off ++ src.take n ++ dst.drop (off + n)

/-- Reading `g[y][x]`; `none` outside the allocation. -/
def readCell (g : Grid) (y x : Nat) : Option Nat :=
  match g[y]? with
  | none => none
  | some row => row[x]?

/-- The assignment `g[y][x] = v`; `none` outside the allocation. -/
def writeCell (g : Grid) (y x : Nat) (v : Nat) : Option Grid :=
  match g[y]? with
  | none => none
  | some row => if x < row.length then some (g.set y (row.set x v)) else none

/-- The statement `g[y][x] += v` on `uint64_t` cells. -/
def addCell (g : Grid) (y x : Nat) (v : Nat) : Option Grid :=
  match readCell g y x with
  | none => none
  | some old => writeCell g y x ((old + v) % U64)

/-- The statement `g[y][x] -= v` on `uint64_t` cells (wraps below zero). -/
def subCell (g : Grid) (y x : Nat) (v : Nat) : Option Grid :=
  match readCell g y x with
  | none => none
  | some old => writeCell g y x ((old + U64 - v % U64) % U64)

/-- The method `allocate_grids`: `height` zeroed rows of `width` cells, twice. -/
def allocate_grids (m : SandpileModel) : SandpileModel :=
  { m with grid := List.replicate m.height (zeros m.width),
           temp_grid := List.replicate m.height (zeros m.width) }

/-- The method `expand_grid_up`: a zeroed row in front of the `height` old rows. -/
def expand_grid_up (m : SandpileModel) : SandpileModel :=
  { m with grid := zeros m.width :: m.grid.take m.height,
           temp_grid := zeros m.width :: m.temp_grid.take m.height,
           height := m.height + 1,
           min_y := m.min_y - 1 }

/-- The method `expand_grid_down`: a zeroed row behind the `height` old rows. -/
def expand_grid_down (m : SandpileModel) : SandpileModel :=
  { m with grid := m.grid.take m.height ++ [zeros m.width],
           temp_grid := m.temp_grid.take m.height ++ [zeros m.width],
           height := m.height + 1,
           max_y := m.max_y + 1 }

/-- The method `expand_grid_left`: every row becomes a zeroed row of
`width + 1` cells with the old `width` cells copied to offset `1`. -/
def expand_grid_left (m : SandpileModel) : SandpileModel :=
  { m with grid := (m.grid.take m.height).map
                     (fun row => memcpy (zeros (m.width + 1)) 1 row m.width),
           temp_grid := (m.temp_grid.take m.height).map
                     (fun row => memcpy (zeros (m.width + 1)) 1 row m.width),
           width := m.width + 1,
           min_x := m.min_x - 1 }

/-- The method `expand_grid_right`: every row becomes a zeroed row of
`width + 1` cells with the old `width` cells copied to offset `0`. -/
def expand_grid_right (m : SandpileModel) : SandpileModel :=
  { m with grid := (m.grid.take m.height).map
                     (fun row => memcpy (zeros (m.width + 1)) 0 row m.width),
           temp_grid := (m.temp_grid.take m.height).map
                     (fun row => memcpy (zeros (m.width + 1)) 0 row m.width),
           width := m.width + 1,
           max_x := m.max_x + 1 }

/-- One round of the first loop of `initialize`: the four bound updates. -/
def updateBounds (m : SandpileModel) (cell : CellData) : SandpileModel :=
  let m1 := if cell.x < m.min_x then { m with min_x := cell.x } else m
  let m2 := if cell.x > m1.max_x then { m1 with max_x := cell.x } else m1
  let m3 := if cell.y < m2.min_y then { m2 with min_y := cell.y } else m2
  if cell.y > m3.max_y then { m3 with max_y := cell.y } else m3

/-- One round of the second loop of `initialize`:
`grid[cell.y - min_y][cell.x - min_x] = cell.grains`. -/
def placeCell (m : SandpileModel) (cell : CellData) : Option SandpileModel :=
  let x := cell.x - m.min_x
  let y := cell.y - m.min_y
  if 0 ≤ x ∧ 0 ≤ y then
    match writeCell m.grid y.toNat x.toNat cell.grains with
    | none => none
    | some g => some { m with grid := g }
  else none

/-- The second loop of `initialize`. -/
def placeCells : List CellData → SandpileModel → Option SandpileModel
  | [], m => some m
  | cell :: rest, m =>
    match placeCell m cell with
    | none => none
    | some m1 => placeCells rest m1

/-- Conversion of an `int64_t` value to `size_t`. -/
def toSizeT (i : Int) : Nat := (i % 18446744073709551616).toNat

/-- The method `initialize(cells)` (named `initializeModel`, the source name
being reserved): bounding box of the cells, allocation, then one write per cell. -/
def initializeModel (m : SandpileModel) (cells : List CellData) : Option SandpileModel :=
  let m0 := { m with min_x := INT64_MAX, min_y := INT64_MAX,
                     max_x := INT64_MIN, max_y := INT64_MIN }
  let m1 := cells.foldl updateBounds m0
  let m2 := { m1 with width := toSizeT (m1.max_x - m1.min_x + 1),
                      height := toSizeT (m1.max_y - m1.min_y + 1) }
  placeCells cells (allocate_grids m2)

/-- The first loop of `iterate`: row `y` of the live array is copied over
row `y` of the snapshot array, for the `height` rows. -/
def snapshot (m : SandpileModel) : SandpileModel :=
  let copied := List.zipWith (fun t g => memcpy t 0 g m.width)
    (m.temp_grid.take m.height) (m.grid.take m.height)
  { m with temp_grid := copied ++ m.temp_grid.drop m.height }

/-- The upward branch of a topple: `grid[y-1][x] += overflow`, or
`expand_grid_up(); grid[0][x] += overflow; y++`. Returns the model and `y`. -/
def spillUp (m : SandpileModel) (y x overflow : Nat) : Option (SandpileModel × Nat) :=
  if y > 0 then
    match addCell m.grid (y - 1) x overflow with
    | none => none
    | some g => some ({ m with grid := g }, y)
  else
    let m1 := expand_grid_up m
    match addCell m1.grid 0 x overflow with
    | none => none
    | some g => some ({ m1 with grid := g }, y + 1)

/-- The downward branch: `grid[y+1][x] += overflow`, or
`expand_grid_down(); grid[height-1][x] += overflow`. -/
def spillDown (m : SandpileModel) (y x overflow : Nat) : Option SandpileModel :=
  if y < m.height - 1 then
    match addCell m.grid (y + 1) x overflow with
    | none => none
    | some g => some { m with grid := g }
  else
    let m1 := expand_grid_down m
    match addCell m1.grid (m1.height - 1) x overflow with
    | none => none
    | some g => some { m1 with grid := g }

/-- The leftward branch: `grid[y][x-1] += overflow`, or
`expand_grid_left(); grid[y][0] += overflow; x++`. Returns the model and `x`. -/
def spillLeft (m : SandpileModel) (y x overflow : Nat) : Option (SandpileModel × Nat) :=
  if x > 0 then
    match addCell m.grid y (x - 1) overflow with
    | none => none
    | some g => some ({ m with grid := g }, x)
  else
    let m1 := expand_grid_left m
    match addCell m1.grid y 0 overflow with
    | none => none
    | some g => some ({ m1 with grid := g }, x + 1)

/-- The rightward branch: `grid[y][x+1] += overflow`, or
`expand_grid_right(); grid[y][width-1] += overflow`. -/
def spillRight (m : SandpileModel) (y x overflow : Nat) : Option SandpileModel :=
  if x < m.width - 1 then
    match addCell m.grid y (x + 1) overflow with
    | none => none
    | some g => some { m with grid := g }
  else
    let m1 := expand_grid_right m
    match addCell m1.grid y (m1.width - 1) overflow with
    | none => none
    | some g => some { m1 with grid := g }

/-- The `if (grains >= 4)` block of `iterate` for a firing cell. -/
def topple (m : SandpileModel) (y x grains : Nat) : Option (SandpileModel × Nat × Nat) :=
  let overflow := grains / 4
  match subCell m.grid y x (overflow * 4) with
  | none => none
  | some g =>
    match spillUp { m with grid := g } y x overflow with
    | none => none
    | some (m1, y1) =>
      match spillDown m1 y1 x overflow with
      | none => none
      | some m2 =>
        match spillLeft m2 y1 x overflow with
        | none => none
        | some (m3, x1) =>
          match spillRight m3 y1 x1 overflow with
          | none => none
          | some m4 => some (m4, y1, x1)

/-- The body of the inner loop of `iterate` at cursor `(y, x)`: returns the
model, the (possibly shifted) cursor and the `changed` flag. -/
def visit (m : SandpileModel) (y x : Nat) (changed : Bool) :
    Option (SandpileModel × Nat × Nat × Bool) :=
  match readCell m.temp_grid y x with
  | none => none
  | some grains =>
    if grains ≥ 4 then
      match topple m y x grains with
      | none => none
      | some (m1, y1, x1) => some (m1, y1, x1, true)
    else some (m, y, x, changed)

/-- The inner loop `for (x; x < width; ++x)` from cursor `x`; returns the
model, the row cursor `y` and `changed` when the loop condition fails. -/
def scanRow : Nat → SandpileModel → Nat → Nat → Bool → Option (SandpileModel × Nat × Bool)
  | 0, _, _, _, _ => none
  | fuel + 1, m, y, x, changed =>
    if x < m.width then
      match visit m y x changed with
      | none => none
      | some (m1, y1, x1, c1) => scanRow fuel m1 y1 (x1 + 1) c1
    else some (m, y, changed)

/-- The outer loop `for (y; y < height; ++y)` from cursor `y`; every row scan
gets `rowFuel`. -/
def scanRows (rowFuel : Nat) : Nat → SandpileModel → Nat → Bool → Option (SandpileModel × Bool)
  | 0, _, _, _ => none
  | fuel + 1, m, y, changed =>
    if y < m.height then
      match scanRow rowFuel m y 0 changed with
      | none => none
      | some (m1, y1, c1) => scanRows rowFuel fuel m1 (y1 + 1) c1
    else some (m, changed)

/-- The method `iterate()` with explicit loop fuel: snapshot, scan, count. -/
def iterateFuel (fuel : Nat) (m : SandpileModel) : Option (Bool × SandpileModel) :=
  match scanRows fuel fuel (snapshot m) 0 false with
  | none => none
  | some (m1, changed) => some (changed, { m1 with iteration := m1.iteration + 1 })

/-- The method `iterate()`: returns `changed` and the new state. The loops
run at most `width + 3` resp. `height + 3` times. -/
def iterate (m : SandpileModel) : Option (Bool × SandpileModel) :=
  iterateFuel (m.width + m.height + 3) m

/-! ## The bitmap encoder -/

/-- Number of values of a `uint32_t`: `2^32`. -/
def U32 : Nat := 4294967296

/-- The constant `row_size` of `write_bmp`:
`((width * bits_per_pixel + 31) / 32) * 4`, stored in a `uint32_t`. -/
def row_size (m : SandpileModel) : Nat := ((m.width * 4 + 31) / 32 * 4) % U32

/-- The constant `pixel_array_size` of `write_bmp`: `row_size * height`, stored
in a `uint32_t`. -/
def pixel_array_size (m : SandpileModel) : Nat := (row_size m * m.height) % U32

/-- The constant `pixel_data_offset` of `write_bmp`: `14 + 40 + 16 * 4`. -/
def pixel_data_offset : Nat := (14 + 40 + 16 * 4) % U32

/-- The constant `file_size` of `write_bmp`. -/
def file_size (m : SandpileModel) : Nat := (pixel_data_offset + pixel_array_size m) % U32

/-- The `if` chain of `write_bmp` that maps a grain count to a colour index. -/
def colorIndex (grains : Nat) : Nat :=
  if grains = 0 then 0
  else if grains = 1 then 1
  else if grains = 2 then 2
  else if grains = 3 then 3
  else 4

/-- The statement `row[i] |= v` on a `uint8_t` buffer; `none` outside the buffer. -/
def orByte (data : List Nat) (i v : Nat) : Option (List Nat) :=
  match data[i]? with
  | none => none
  | some old => some (data.set i ((old ||| v) % 256))

/-- The body of the inner loop of `write_bmp` for the cell `(y, x)`: the state is
the pixel buffer and `bit_index`. -/
def pixelStep (m : SandpileModel) (y : Nat) (st : List Nat × Nat) (x : Nat) :
    Option (List Nat × Nat) :=
  match readCell m.grid y x with
  | none => none
  | some grains =>
    let color_index := colorIndex grains
    let row := (m.height - 1 - y) * row_size m
    let v := if st.2 % 2 = 0 then color_index <<< 4 else color_index &&& 15
    match orByte st.1 (row + st.2 / 2) v with
    | none => none
    | some data => some (data, st.2 + 1)

/-- The body of the outer loop of `write_bmp` for the row `y`: `bit_index` starts
at 0 and the cells `x = 0 .. width - 1` are packed in turn. -/
def packRow (m : SandpileModel) (data : List Nat) (y : Nat) : Option (List Nat) :=
  match (List.range m.width).foldlM (pixelStep m y) (data, 0) with
  | none => none
  | some st => some st.1

/-- The pixel buffer of `write_bmp`: `pixel_array_size` zero bytes, then the rows
`y = 0 .. height - 1` packed in turn. -/
def pixelData (m : SandpileModel) : Option (List Nat) :=
  (List.range m.height).foldlM (packRow m) (List.replicate (pixel_array_size m) 0)

/-- A 16-bit value stored through a `uint16_t*`, least significant byte first
(the source relies on a little-endian target). -/
def le16 (n : Nat) : List Nat := [n % 256, n / 256 % 256]

/-- A 32-bit value stored through a `uint32_t*` or `int32_t*`, least significant
byte first (the source relies on a little-endian target). -/
def le32 (n : Nat) : List Nat :=
  [n % 256, n / 256 % 256, n / 65536 % 256, n / 16777216 % 256]

/-- The array `file_header[14]` of `write_bmp` after its two stores. -/
def file_header (m : SandpileModel) : List Nat :=
  [66, 77] ++ le32 (file_size m) ++ [0, 0] ++ [0, 0] ++ le32 pixel_data_offset

/-- The array `dib_header[40]` of `write_bmp` after its eleven stores. -/
def dib_header (m : SandpileModel) : List Nat :=
  le32 40 ++ le32 (m.width % U32) ++ le32 (m.height % U32) ++ le16 1 ++ le16 4 ++ le32 0
    ++ le32 (pixel_array_size m) ++ le32 0 ++ le32 0 ++ le32 16 ++ le32 0

/-- The array `color_table[64]` of `write_bmp`: five initialised entries, the
remaining 44 bytes cleared by `memset`. -/
def color_table : List Nat :=
  [255, 255, 255, 0,
   0, 255, 0, 0,
   255, 0, 255, 0,
   0, 255, 255, 0,
   0, 0, 0, 0] ++ List.replicate (64 - 20) 0

/-- The bytes `write_bmp` sends to the file, in order: file header, info header,
colour table, pixel buffer. `none` when a buffer access leaves its buffer. -/
def write_bmp (m : SandpileModel) : Option (List Nat) :=
  match pixelData m with
  | none => none
  | some pixel_data => some (file_header m ++ dib_header m ++ color_table ++ pixel_data)

/-- The `len` bytes at offset `off` of a byte stream. -/
def field (bytes : List Nat) (off len : Nat) : List Nat := (bytes.drop off).take len

/-- The 4-bit pixel number `j` of the stored row that starts at byte `start`:
high nibble of its byte for even `j`, low nibble for odd `j`. -/
def nibble (px : List Nat) (start j : Nat) : Nat :=
  if j % 2 = 0 then px.getD (start + j / 2) 0 / 16 else px.getD (start + j / 2) 0 % 16

/-- The pixel buffer fits a `uint32_t` size: `row_size * height < 2^32`. -/
def PixelsFit (m : SandpileModel) : Prop :=
  (m.width * 4 + 31) / 32 * 4 * m.height < U32

/-- The sizes of the bitmap fit its 32-bit fields: signed width and height, and
an unsigned file size. -/
def FitsIn32 (m : SandpileModel) : Prop :=
  m.width < 2147483648 ∧ m.height < 2147483648 ∧
    14 + 40 + 64 + (m.width * 4 + 31) / 32 * 4 * m.height < U32

instance (m : SandpileModel) : Decidable (PixelsFit m) := by
  unfold PixelsFit; infer_instance

instance (m : SandpileModel) : Decidable (FitsIn32 m) := by
  unfold FitsIn32; infer_instance

/-! ## The driver loop of `main` -/

/-- The variables of the loop of `main`: the model, the flag `changed`, the
variable `iteration`; and, as a record of the run, the results of the calls of
`iterate()` and the numbers `k` of the files `state_<k>.bmp` written, in order. -/
structure Driver where
  model : SandpileModel
  changed : Bool
  iteration : Nat
  calls : List Bool
  saved : List Nat
deriving DecidableEq

/-- The loop `while (changed && iteration < max_iter)` of `main`. -/
def mainLoop (max_iter freq : Nat) : Nat → Driver → Option Driver
  | 0, _ => none
  | fuel + 1, d =>
    if d.changed = true ∧ d.iteration < max_iter then
      match iterate d.model with
      | none => none
      | some (changed, model) =>
        let iteration := model.iteration
        let saved := if freq ≠ 0 ∧ iteration % freq = 0 then d.saved ++ [iteration] else d.saved
        mainLoop max_iter freq fuel
          { model := model, changed := changed, iteration := iteration,
            calls := d.calls ++ [changed], saved := saved }
    else some d

/-- The function `main` from the initialized model on: the loop, which runs at
most `max_iter` times, then the save after the loop. -/
def mainFrom (max_iter freq : Nat) (model : SandpileModel) : Option Driver :=
  match mainLoop max_iter freq (max_iter + 1)
      { model := model, changed := true, iteration := 0, calls := [], saved := [] } with
  | none => none
  | some d =>
    if freq = 0 ∨ d.iteration % freq ≠ 0 then
      some { d with saved := d.saved ++ [d.iteration] }
    else some d

/-- The function `main` on the input lines `cells` with the arguments
`max_iter` and `freq`. -/
def main (max_iter freq : Nat) (cells : List CellData) : Option Driver :=
  match initializeModel construct cells with
  | none => none
  | some model => mainFrom max_iter freq model

/-! ## The pass with every array access checked -/

/-- The access `grid[y][x] += v`, refused when the row index is not below the
current `height` or the column index not below the current `width`. -/
def addChecked (m : SandpileModel) (y x v : Nat) : Option SandpileModel :=
  if y < m.height ∧ x < m.width then
    match addCell m.grid y x v with
    | none => none
    | some g => some { m with grid := g }
  else none

/-- The access `grid[y][x] -= v`, refused when an index is out of range and,
with `strict`, also when `v` exceeds the cell, that is when the subtraction
would wrap below zero. -/
def subChecked (strict : Bool) (m : SandpileModel) (y x v : Nat) : Option SandpileModel :=
  if y < m.height ∧ x < m.width then
    match readCell m.grid y x with
    | none => none
    | some old =>
      if strict = true ∧ old < v then none
      else
        match subCell m.grid y x v with
        | none => none
        | some g => some { m with grid := g }
  else none

/-- The upward branch of a topple with its access checked. -/
def spillUpChecked (m : SandpileModel) (y x overflow : Nat) : Option (SandpileModel × Nat) :=
  if y > 0 then
    match addChecked m (y - 1) x overflow with
    | none => none
    | some m1 => some (m1, y)
  else
    match addChecked (expand_grid_up m) 0 x overflow with
    | none => none
    | some m1 => some (m1, y + 1)

/-- The downward branch of a topple with its access checked. -/
def spillDownChecked (m : SandpileModel) (y x overflow : Nat) : Option SandpileModel :=
  if y < m.height - 1 then addChecked m (y + 1) x overflow
  else addChecked (expand_grid_down m) ((expand_grid_down m).height - 1) x overflow

/-- The leftward branch of a topple with its access checked. -/
def spillLeftChecked (m : SandpileModel) (y x overflow : Nat) : Option (SandpileModel × Nat) :=
  if x > 0 then
    match addChecked m y (x - 1) overflow with
    | none => none
    | some m1 => some (m1, x)
  else
    match addChecked (expand_grid_left m) y 0 overflow with
    | none => none
    | some m1 => some (m1, x + 1)

/-- The rightward branch of a topple with its access checked. -/
def spillRightChecked (m : SandpileModel) (y x overflow : Nat) : Option SandpileModel :=
  if x < m.width - 1 then addChecked m y (x + 1) overflow
  else addChecked (expand_grid_right m) y ((expand_grid_right m).width - 1) overflow

/-- The `if (grains >= 4)` block of `iterate` with every access checked. -/
def toppleChecked (strict : Bool) (m : SandpileModel) (y x grains : Nat) :
    Option (SandpileModel × Nat × Nat) :=
  let overflow := grains / 4
  match subChecked strict m y x (overflow * 4) with
  | none => none
  | some m0 =>
    match spillUpChecked m0 y x overflow with
    | none => none
    | some (m1, y1) =>
      match spillDownChecked m1 y1 x overflow with
      | none => none
      | some m2 =>
        match spillLeftChecked m2 y1 x overflow with
        | none => none
        | some (m3, x1) =>
          match spillRightChecked m3 y1 x1 overflow with
          | none => none
          | some m4 => some (m4, y1, x1)

/-- The body of the inner loop with every access checked: the read
`temp_grid[y][x]`, then the accesses of the topple. -/
def visitChecked (strict : Bool) (m : SandpileModel) (y x : Nat) (changed : Bool) :
    Option (SandpileModel × Nat × Nat × Bool) :=
  if y < m.height ∧ x < m.width then
    match readCell m.temp_grid y x with
    | none => none
    | some grains =>
      if grains ≥ 4 then
        match toppleChecked strict m y x grains with
        | none => none
        | some (m1, y1, x1) => some (m1, y1, x1, true)
      else some (m, y, x, changed)
  else none

/-- The inner loop of `iterate` with every access checked. -/
def scanRowChecked (strict : Bool) :
    Nat → SandpileModel → Nat → Nat → Bool → Option (SandpileModel × Nat × Bool)
  | 0, _, _, _, _ => none
  | fuel + 1, m, y, x, changed =>
    if x < m.width then
      match visitChecked strict m y x changed with
      | none => none
      | some (m1, y1, x1, c1) => scanRowChecked strict fuel m1 y1 (x1 + 1) c1
    else some (m, y, changed)

/-- The outer loop of `iterate` with every access checked. -/
def scanRowsChecked (strict : Bool) (rowFuel : Nat) :
    Nat → SandpileModel → Nat → Bool → Option (SandpileModel × Bool)
  | 0, _, _, _ => none
  | fuel + 1, m, y, changed =>
    if y < m.height then
      match scanRowChecked strict rowFuel m y 0 changed with
      | none => none
      | some (m1, y1, c1) => scanRowsChecked strict rowFuel fuel m1 (y1 + 1) c1
    else some (m, changed)

/-- The method `iterate()` with every access `grid[..][..]` and
`temp_grid[..][..]` checked against the current `height` and `width` and, with
`strict`, the subtraction checked against wrapping: it fails where `iterate`
would leave the arrays or wrap. -/
def iterateChecked (strict : Bool) (m : SandpileModel) : Option (Bool × SandpileModel) :=
  match scanRowsChecked strict (m.width + m.height + 3) (m.width + m.height + 3)
      (snapshot m) 0 false with
  | none => none
  | some (m1, changed) => some (changed, { m1 with iteration := m1.iteration + 1 })

/-! ## Specification vocabulary -/

/-- An array of `h` rows of `w` cells each. -/
def Shaped (g : Grid) (h w : Nat) : Prop :=
  g.length = h ∧ ∀ row ∈ g, row.length = w

/-- Every cell holds a `uint64_t` value. -/
def Typed (g : Grid) : Prop :=
  ∀ row ∈ g, ∀ v ∈ row, v < U64

/-- A well-formed grid: at least one row and one column, the live and the
snapshot array both `height` rows of `width` cells, live cells of type
`uint64_t`. -/
def WellFormed (m : SandpileModel) : Prop :=
  1 ≤ m.height ∧ 1 ≤ m.width ∧ Shaped m.grid m.height m.width ∧
    Shaped m.temp_grid m.height m.width ∧ Typed m.grid

instance (g : Grid) (h w : Nat) : Decidable (Shaped g h w) := by
  unfold Shaped; infer_instance

instance (g : Grid) : Decidable (Typed g) := by
  unfold Typed; infer_instance

instance (m : SandpileModel) : Decidable (WellFormed m) := by
  unfold WellFormed; infer_instance

/-- The value an array with origin `(ox, oy)` holds at the logical lattice
coordinate `(cx, cy)`: array index `(cx - ox, cy - oy)`, and `0` outside. -/
def cellAt (g : Grid) (ox oy cx cy : Int) : Nat :=
  if ox ≤ cx ∧ oy ≤ cy then (readCell g (cy - oy).toNat (cx - ox).toNat).getD 0 else 0

/-- The live array read at a logical coordinate. -/
def SandpileModel.live (m : SandpileModel) (cx cy : Int) : Nat :=
  cellAt m.grid m.min_x m.min_y cx cy

/-- The snapshot array read at a logical coordinate. -/
def SandpileModel.snap (m : SandpileModel) (cx cy : Int) : Nat :=
  cellAt m.temp_grid m.min_x m.min_y cx cy

/-- Total number of grains in an array. -/
def sumGrid (g : Grid) : Nat := (g.map List.sum).sum

/-- The logical coordinate `(cx, cy)` lies in the box covered by the array. -/
def SandpileModel.covers (m : SandpileModel) (cx cy : Int) : Prop :=
  m.min_x ≤ cx ∧ cx < m.min_x + m.width ∧ m.min_y ≤ cy ∧ cy < m.min_y + m.height

/-! ## Vocabulary of the proofs -/

/-- The state `m1` comes from `m` by changing the live array to `L` (read at
logical coordinates) and growing the box by `dl`, `dr`, `du`, `dd` columns or
rows on the left, right, upper and lower side; the snapshot is unchanged. -/
structure Moved (m m1 : SandpileModel) (L : Int → Int → Nat) (dl dr du dd : Nat) : Prop where
  wf : WellFormed m1
  snap : ∀ cx cy, m1.snap cx cy = m.snap cx cy
  live : ∀ cx cy, m1.live cx cy = L cx cy
  min_x : m1.min_x = m.min_x - dl
  min_y : m1.min_y = m.min_y - du
  max_x : m1.max_x = m.max_x + dr
  max_y : m1.max_y = m.max_y + dd
  width : m1.width = m.width + dl + dr
  height : m1.height = m.height + du + dd
  iteration : m1.iteration = m.iteration

/-- The live array `L` with `o` added (modulo `2^64`) at the coordinate `(tx, ty)`. -/
def bump (L : Int → Int → Nat) (tx ty : Int) (o : Nat) (cx cy : Int) : Nat :=
  if cx = tx ∧ cy = ty then (L cx cy + o) % U64 else L cx cy

/-- The live array `L` with `o` subtracted (modulo `2^64`) at `(tx, ty)`. -/
def drain (L : Int → Int → Nat) (tx ty : Int) (o : Nat) (cx cy : Int) : Nat :=
  if cx = tx ∧ cy = ty then (L cx cy + U64 - o % U64) % U64 else L cx cy

/-- The live array after the cell at `(X, Y)` has toppled with overflow `o`:
`4 * o` taken from the cell, `o` given to each of its four neighbours, in the
order of the source (up, down, left, right). -/
def fired (L : Int → Int → Nat) (X Y : Int) (o : Nat) : Int → Int → Nat :=
  bump (bump (bump (bump (drain L X Y (o * 4)) X (Y - 1) o) X (Y + 1) o) (X - 1) Y o) (X + 1) Y o

/-- Row-major order of logical coordinates: `(nx, ny)` comes before the
cursor `(X, Y)`. -/
def before (X Y nx ny : Int) : Bool := decide (ny < Y ∨ (ny = Y ∧ nx < X))

/-- The rows above row `Y`. -/
def beforeRow (Y : Int) (_nx ny : Int) : Bool := decide (ny < Y)

/-- What a cell keeps of its own pre-pass grains once it has been visited. -/
def base (L0 : Int → Int → Nat) (vis : Int → Int → Bool) (cx cy : Int) : Nat :=
  if vis cx cy then L0 cx cy % 4 else L0 cx cy

/-- What a cell has sent to each neighbour once it has been visited. -/
def contrib (L0 : Int → Int → Nat) (vis : Int → Int → Bool) (nx ny : Int) : Nat :=
  if vis nx ny then L0 nx ny / 4 else 0

/-- The live value at `(cx, cy)` when exactly the cells in `vis` have been
visited, `L0` being the array before the pass. -/
def midValue (L0 : Int → Int → Nat) (vis : Int → Int → Bool) (cx cy : Int) : Nat :=
  (base L0 vis cx cy + contrib L0 vis cx (cy - 1) + contrib L0 vis cx (cy + 1)
    + contrib L0 vis (cx - 1) cy + contrib L0 vis (cx + 1) cy) % U64

/-- Some visited cell that held at least 4 grains before the pass satisfies `P`. -/
def FiredIn (L0 : Int → Int → Nat) (vis : Int → Int → Bool) (P : Int → Int → Prop) : Prop :=
  ∃ nx ny, vis nx ny = true ∧ 4 ≤ L0 nx ny ∧ P nx ny

/-- A side of the box has moved outwards by `d`: by one if `F` holds, else not at all. -/
def Grown (d : Int) (F : Prop) : Prop := (d = 0 ∧ ¬ F) ∨ (d = 1 ∧ F)

/-- The loop invariant of the scan of `iterate`: `m0` is the state at the start
of the scan, `m` the current state, `vis` the set of cells visited so far and
`ch` the `changed` flag. -/
structure Core (m0 m : SandpileModel) (vis : Int → Int → Bool) (ch : Bool) : Prop where
  wf : WellFormed m
  snap : ∀ cx cy, m.snap cx cy = m0.live cx cy
  live : ∀ cx cy, m.live cx cy = midValue m0.live vis cx cy
  top : Grown (m0.min_y - m.min_y) (FiredIn m0.live vis (fun _ ny => ny = m0.min_y))
  bottom : Grown (m.min_y + m.height - (m0.min_y + m0.height))
    (FiredIn m0.live vis (fun _ ny => ny = m0.min_y + m0.height - 1))
  left : Grown (m0.min_x - m.min_x) (FiredIn m0.live vis (fun nx _ => nx = m0.min_x))
  right : Grown (m.min_x + m.width - (m0.min_x + m0.width))
    (FiredIn m0.live vis (fun nx _ => nx = m0.min_x + m0.width - 1))
  max_x : m.max_x - m0.max_x = m.min_x + m.width - (m0.min_x + m0.width)
  max_y : m.max_y - m0.max_y = m.min_y + m.height - (m0.min_y + m0.height)
  changed : ch = true ↔ FiredIn m0.live vis (fun _ _ => True)
  iteration : m.iteration = m0.iteration

/-- Some cell of the array holds at least 4 grains. -/
def Unstable (g : Grid) : Prop := ∃ row ∈ g, ∃ v ∈ row, 4 ≤ v

/-- Every cell of the array holds fewer than 4 grains. -/
def Stable (g : Grid) : Prop := ∀ row ∈ g, ∀ v ∈ row, v < 4

instance (g : Grid) : Decidable (Unstable g) := by
  unfold Unstable; infer_instance

instance (g : Grid) : Decidable (Stable g) := by
  unfold Stable; infer_instance

/-- The cells of `m` sit in `m1` at array indices shifted by `sx` columns and
`sy` rows, with the origin moved back accordingly, in both arrays. -/
def KeepsCells (m m1 : SandpileModel) (sx sy : Nat) : Prop :=
  m1.min_x = m.min_x - sx ∧ m1.min_y = m.min_y - sy ∧
  ∀ iy ix, iy < m.height → ix < m.width →
    (∃ v, readCell m.grid iy ix = some v ∧ readCell m1.grid (iy + sy) (ix + sx) = some v) ∧
    (∃ v, readCell m.temp_grid iy ix = some v ∧
      readCell m1.temp_grid (iy + sy) (ix + sx) = some v)

/-- Row `r` is zero in both arrays. -/
def RowZero (m1 : SandpileModel) (r : Nat) : Prop :=
  ∀ ix, ix < m1.width → readCell m1.grid r ix = some 0 ∧ readCell m1.temp_grid r ix = some 0

/-- Column `c` is zero in both arrays. -/
def ColZero (m1 : SandpileModel) (c : Nat) : Prop :=
  ∀ iy, iy < m1.height → readCell m1.grid iy c = some 0 ∧ readCell m1.temp_grid iy c = some 0

/-- Both arrays consist of `height` rows of `width` cells. -/
def BothShaped (m1 : SandpileModel) : Prop :=
  Shaped m1.grid m1.height m1.width ∧ Shaped m1.temp_grid m1.height m1.width

/-- Translation of the lattice by `(dx, dy)`. -/
def shift (dx dy : Int) : (Int × Int) ≃ (Int × Int) where
  toFun p := (p.1 + dx, p.2 + dy)
  invFun p := (p.1 - dx, p.2 - dy)
  left_inv p := by simp
  right_inv p := by simp

/-- An input cell as the reader produces it: 16-bit signed coordinates and a
64-bit unsigned grain count. -/
def ValidCell (c : CellData) : Prop :=
  -32768 ≤ c.x ∧ c.x ≤ 32767 ∧ -32768 ≤ c.y ∧ c.y ≤ 32767 ∧ c.grains < U64

instance (c : CellData) : Decidable (ValidCell c) := by
  unfold ValidCell; infer_instance

/-- The grain count of the last list entry with coordinates `(x, y)`, or `0`
when no entry has those coordinates. -/
def lastGrains (cells : List CellData) (x y : Int) : Nat :=
  match cells.reverse.find? (fun c => decide (c.x = x ∧ c.y = y)) with
  | some c => c.grains
  | none => 0

/-- The value of the slot `(x, y)` after the writes of `cells`, in order, when
it held `d` before. -/
def lastWrite : List CellData → Int → Int → Nat → Nat
  | [], _, _, d => d
  | c :: rest, x, y, d => lastWrite rest x y (if c.x = x ∧ c.y = y then c.grains else d)

/-- The array covers exactly the box `[min_x, max_x] x [min_y, max_y]`. -/
def BoxMatches (m : SandpileModel) : Prop :=
  (m.width : Int) = m.max_x - m.min_x + 1 ∧ (m.height : Int) = m.max_y - m.min_y + 1

/-- The state after `k` calls of `iterate()` from `m0`. -/
def afterPasses (m0 : SandpileModel) : Nat → Option SandpileModel
  | 0 => some m0
  | k + 1 =>
    match afterPasses m0 k with
    | none => none
    | some m =>
      match iterate m with
      | none => none
      | some (_, m1) => some m1

/-- The cell `(cx, cy)` held grains at the end of `initialize` or of one of the
first `k` passes. -/
def HeldNonzero (m0 : SandpileModel) (k : Nat) (cx cy : Int) : Prop :=
  ∃ j, j ≤ k ∧ ∃ m, afterPasses m0 j = some m ∧ m.live cx cy ≠ 0

/-- The cell `(cx, cy)` is the coordinate of an input line or has held grains
within the first `k` passes. -/
def Source (cells : List CellData) (m0 : SandpileModel) (k : Nat) (cx cy : Int) : Prop :=
  (∃ c ∈ cells, c.x = cx ∧ c.y = cy) ∨ HeldNonzero m0 k cx cy

/-- The colour index the pixel `(y0, j)` has in the buffer once the rows before
`Y` and the first `X` cells of row `Y` have been packed. -/
def pix (m : SandpileModel) (Y X y0 j : Nat) : Nat :=
  if (y0 < Y ∨ (y0 = Y ∧ j < X)) ∧ j < m.width ∧ y0 < m.height then
    colorIndex ((readCell m.grid y0 j).getD 0)
  else 0

/-- The byte number `i` of the buffer at that moment: stored row `i / row_size`
is grid row `height - 1 - i / row_size`, and the byte holds two pixels. -/
def byteAt (m : SandpileModel) (Y X i : Nat) : Nat :=
  16 * pix m Y X (m.height - 1 - i / row_size m) (2 * (i % row_size m))
    + pix m Y X (m.height - 1 - i / row_size m) (2 * (i % row_size m) + 1)

/-- The whole buffer at that moment. -/
def packed (m : SandpileModel) (Y X : Nat) : List Nat :=
  (List.range (pixel_array_size m)).map (byteAt m Y X)

/-- The result of the call number `i + 1` of `iterate()` in a run from `m0`. -/
def passResult (m0 : SandpileModel) (i : Nat) : Option Bool :=
  match afterPasses m0 i with
  | none => none
  | some m =>
    match iterate m with
    | none => none
    | some (changed, _) => some changed


/-- The invariant of the loop of `main` after `d.calls.length` calls. -/
structure Looping (m0 : SandpileModel) (d : Driver) : Prop where
  wf : WellFormed d.model
  state : afterPasses m0 d.calls.length = some d.model
  counter : d.model.iteration = d.calls.length
  copy : d.iteration = d.calls.length
  results : ∀ i, i < d.calls.length → passResult m0 i = d.calls[i]?
  earlier : ∀ i, i + 1 < d.calls.length → d.calls[i]? = some true
  flag : (d.calls.length = 0 → d.changed = true) ∧
    (0 < d.calls.length → d.calls[d.calls.length - 1]? = some d.changed)



/-- The shape invariant of the model: the sizes match the box, there is at
least one row and one column, and the live and the snapshot array are both
`height` rows of `width` cells. -/
def ShapeInv (m : SandpileModel) : Prop :=
  (m.width : Int) = m.max_x - m.min_x + 1 ∧ (m.height : Int) = m.max_y - m.min_y + 1 ∧
    1 ≤ m.width ∧ 1 ≤ m.height ∧
    Shaped m.grid m.height m.width ∧ Shaped m.temp_grid m.height m.width

instance (m : SandpileModel) : Decidable (ShapeInv m) := by
  unfold ShapeInv; infer_instance

/-! ## Sample states and inputs -/

/-- The state after `initialize` on a single cell. -/
def seedOf (x0 y0 : Int) (g : Nat) : SandpileModel :=
  { iteration := 0, grid := [[g]], temp_grid := [[0]],
    min_x := x0, max_x := x0, min_y := y0, max_y := y0, width := 1, height := 1 }

/-- The 3 x 3 state a single cell with `g` grains topples into. -/
def crossOf (x0 y0 : Int) (g : Nat) : SandpileModel :=
  { iteration := 1,
    grid := [[0, g / 4, 0], [g / 4, g % 4, g / 4], [0, g / 4, 0]],
    temp_grid := [[0, 0, 0], [0, g, 0], [0, 0, 0]],
    min_x := x0 - 1, max_x := x0 + 1, min_y := y0 - 1, max_y := y0 + 1,
    width := 3, height := 3 }

/-- The state after `initialize` on the single input line `0 0 4`. -/
def seed4 : SandpileModel :=
  { iteration := 0, grid := [[4]], temp_grid := [[0]],
    min_x := 0, max_x := 0, min_y := 0, max_y := 0, width := 1, height := 1 }

/-- The state after `initialize` on the single input line `0 0 3`. -/
def seed3 : SandpileModel :=
  { iteration := 0, grid := [[3]], temp_grid := [[0]],
    min_x := 0, max_x := 0, min_y := 0, max_y := 0, width := 1, height := 1 }

/-- The state `seed3` after one pass. -/
def seed3Pass : SandpileModel :=
  { iteration := 1, grid := [[3]], temp_grid := [[3]],
    min_x := 0, max_x := 0, min_y := 0, max_y := 0, width := 1, height := 1 }

/-- Three input lines, the first and the last for the same coordinate. -/
def sampleCells : List CellData := [⟨0, 0, 1⟩, ⟨2, 1, 5⟩, ⟨0, 0, 7⟩]

/-- A 2 x 3 grid with one unstable cell on the right edge. -/
def sampleGrid : SandpileModel :=
  { iteration := 5, grid := [[1, 2, 9], [0, 3, 1]], temp_grid := [[0, 0, 0], [0, 0, 0]],
    min_x := -1, max_x := 1, min_y := 2, max_y := 3, width := 3, height := 2 }

/-- The state after `initialize` on the two input lines `0 0 1` and `2 0 0`. -/
def zeroEdgeSeed : SandpileModel :=
  { iteration := 0, grid := [[1, 0, 0]], temp_grid := [[0, 0, 0]],
    min_x := 0, max_x := 2, min_y := 0, max_y := 0, width := 3, height := 1 }

/-- A 1 x 1 grid holding 2 grains. -/
def seed2 : SandpileModel :=
  { iteration := 0, grid := [[2]], temp_grid := [[0]],
    min_x := 0, max_x := 0, min_y := 0, max_y := 0, width := 1, height := 1 }

/-- A grid one cell wide and two cells high: 1 grain at `y = 0`, 2 grains at `y = 1`. -/
def tallGrid : SandpileModel :=
  { iteration := 0, grid := [[1], [2]], temp_grid := [[0], [0]],
    min_x := 0, max_x := 0, min_y := 0, max_y := 1, width := 1, height := 2 }

/-- An empty grid of 92682 x 92682 cells. -/
def wideGrid : SandpileModel :=
  { iteration := 0,
    grid := List.replicate 92682 (List.replicate 92682 0),
    temp_grid := List.replicate 92682 (List.replicate 92682 0),
    min_x := 0, max_x := 92681, min_y := 0, max_y := 92681, width := 92682, height := 92682 }

/-! ## Arrays: reading and writing -/

theorem readCell_lt {g : Grid} {y x v : Nat} (h : readCell g y x = some v) :
    ∃ row, g[y]? = some row ∧ row[x]? = some v := by
  unfold readCell at h
  cases hr : g[y]? with
  | none => simp [hr] at h
  | some row => exact ⟨row, rfl, by simpa [hr] using h⟩

theorem readCell_shaped {g : Grid} {h w y x : Nat} (hs : Shaped g h w)
    (hy : y < h) (hx : x < w) : ∃ v, readCell g y x = some v := by
  obtain ⟨hl, hr⟩ := hs
  have hy2 : y < g.length := by omega
  have hrow : (g[y]).length = w := hr _ (List.getElem_mem _)
  refine ⟨(g[y])[x], ?_⟩
  simp [readCell, List.getElem?_eq_getElem hy2, List.getElem?_eq_getElem (hrow ▸ hx)]

theorem readCell_none_of_shaped {g : Grid} {h w y x : Nat} (hs : Shaped g h w)
    (hout : h ≤ y ∨ w ≤ x) : readCell g y x = none := by
  obtain ⟨hl, hr⟩ := hs
  unfold readCell
  cases hrow : g[y]? with
  | none => rfl
  | some row =>
    have hmem : row ∈ g := List.getElem?_mem hrow
    have hy : y < g.length := by
      by_contra hc
      have := List.getElem?_eq_none (Nat.le_of_not_lt hc)
      simp [this] at hrow
    have hlen := hr row hmem
    simp only
    apply List.getElem?_eq_none
    omega

theorem writeCell_shaped {g : Grid} {h w y x : Nat} (v : Nat) (hs : Shaped g h w)
    (hy : y < h) (hx : x < w) : ∃ g1, writeCell g y x v = some g1 := by
  obtain ⟨hl, hr⟩ := hs
  have hy2 : y < g.length := by omega
  have hrow : (g[y]).length = w := hr _ (List.getElem_mem _)
  refine ⟨g.set y ((g[y]).set x v), ?_⟩
  simp [writeCell, List.getElem?_eq_getElem hy2, hrow, hx]

theorem writeCell_spec {g g1 : Grid} {y x v : Nat} (hw : writeCell g y x v = some g1) :
    ∃ row, g[y]? = some row ∧ x < row.length ∧ g1 = g.set y (row.set x v) := by
  unfold writeCell at hw
  cases hr : g[y]? with
  | none => simp [hr] at hw
  | some row =>
    simp only [hr] at hw
    by_cases hx : x < row.length
    · simp only [hx, if_true, Option.some.injEq] at hw
      exact ⟨row, rfl, hx, hw.symm⟩
    · simp [hx] at hw

theorem readCell_writeCell {g g1 : Grid} {y x v : Nat} (hw : writeCell g y x v = some g1)
    (y1 x1 : Nat) :
    readCell g1 y1 x1 = if y1 = y ∧ x1 = x then some v else readCell g y1 x1 := by
  obtain ⟨row, hrow, hx, rfl⟩ := writeCell_spec hw
  have hy : y < g.length := by
    by_contra hc
    have := List.getElem?_eq_none (Nat.le_of_not_lt hc)
    simp [this] at hrow
  unfold readCell
  by_cases hy1 : y1 = y
  · subst hy1
    simp only [List.getElem?_set_self hy, hrow, true_and]
    by_cases hx1 : x1 = x
    · subst hx1
      simp [List.getElem?_set_self hx]
    · simp [hx1, List.getElem?_set_ne (Ne.symm hx1)]
  · simp [hy1, List.getElem?_set_ne (Ne.symm hy1)]

theorem writeCell_keeps_shape {g g1 : Grid} {h w y x v : Nat}
    (hw : writeCell g y x v = some g1) (hs : Shaped g h w) : Shaped g1 h w := by
  obtain ⟨row, hrow, hx, rfl⟩ := writeCell_spec hw
  obtain ⟨hl, hr⟩ := hs
  refine ⟨by simpa using hl, ?_⟩
  intro r hr1
  rcases List.mem_or_eq_of_mem_set hr1 with h1 | h1
  · exact hr r h1
  · subst h1
    simpa using hr row (List.getElem?_mem hrow)

theorem writeCell_keeps_typed {g g1 : Grid} {y x v : Nat}
    (hw : writeCell g y x v = some g1) (ht : Typed g) (hv : v < U64) : Typed g1 := by
  obtain ⟨row, hrow, hx, rfl⟩ := writeCell_spec hw
  intro r hr1 a ha
  rcases List.mem_or_eq_of_mem_set hr1 with h1 | h1
  · exact ht r h1 a ha
  · subst h1
    rcases List.mem_or_eq_of_mem_set ha with h2 | h2
    · exact ht row (List.getElem?_mem hrow) a h2
    · exact h2 ▸ hv

/-! ## Arrays: copies and expansions -/

theorem memcpy_left {row : List Nat} {w : Nat} (h : row.length = w) :
    memcpy (zeros (w + 1)) 1 row w = 0 :: row := by
  subst h
  simp [memcpy, zeros, List.replicate_succ]
  omega

theorem memcpy_right {row : List Nat} {w : Nat} (h : row.length = w) :
    memcpy (zeros (w + 1)) 0 row w = row ++ [0] := by
  subst h
  simp [memcpy, zeros, List.drop_replicate]

theorem memcpy_over {t g : List Nat} {w : Nat} (ht : t.length = w) (hg : g.length = w) :
    memcpy t 0 g w = g := by
  subst hg
  simp [memcpy, ht]

theorem zipWith_memcpy_over {w : Nat} : ∀ (t g : Grid), t.length = g.length →
    (∀ row ∈ t, row.length = w) → (∀ row ∈ g, row.length = w) →
    List.zipWith (fun a b => memcpy a 0 b w) t g = g
  | [], [], _, _, _ => rfl
  | [], _ :: _, h, _, _ => by simp at h
  | _ :: _, [], h, _, _ => by simp at h
  | a :: t, b :: g, h, ht, hg => by
    have h1 : memcpy a 0 b w = b :=
      memcpy_over (ht a (List.mem_cons_self _ _)) (hg b (List.mem_cons_self _ _))
    have h2 := zipWith_memcpy_over t g (by simpa using h)
      (fun r hr => ht r (List.mem_cons_of_mem _ hr))
      (fun r hr => hg r (List.mem_cons_of_mem _ hr))
    simp [List.zipWith, h1, h2]

theorem map_congr_shaped {g : Grid} {h w : Nat} (hs : Shaped g h w)
    (f k : List Nat → List Nat) (hf : ∀ row, row.length = w → f row = k row) :
    g.map f = g.map k :=
  List.map_congr_left (fun row hr => hf row (hs.2 row hr))

theorem take_shaped {g : Grid} {h w : Nat} (hs : Shaped g h w) : g.take h = g := by
  rw [← hs.1]; exact List.take_length _

theorem snapshot_temp {m : SandpileModel} (hm : WellFormed m) :
    (snapshot m).temp_grid = m.grid := by
  obtain ⟨_, _, hg, ht, _⟩ := hm
  simp only [snapshot, take_shaped hg, take_shaped ht]
  rw [zipWith_memcpy_over m.temp_grid m.grid (by rw [hg.1, ht.1]) ht.2 hg.2]
  rw [List.drop_eq_nil_of_le (by rw [ht.1])]
  simp

theorem expand_up_grid {m : SandpileModel} (hm : WellFormed m) :
    (expand_grid_up m).grid = zeros m.width :: m.grid ∧
    (expand_grid_up m).temp_grid = zeros m.width :: m.temp_grid := by
  obtain ⟨_, _, hg, ht, _⟩ := hm
  simp [expand_grid_up, take_shaped hg, take_shaped ht]

theorem expand_down_grid {m : SandpileModel} (hm : WellFormed m) :
    (expand_grid_down m).grid = m.grid ++ [zeros m.width] ∧
    (expand_grid_down m).temp_grid = m.temp_grid ++ [zeros m.width] := by
  obtain ⟨_, _, hg, ht, _⟩ := hm
  simp [expand_grid_down, take_shaped hg, take_shaped ht]

theorem expand_left_grid {m : SandpileModel} (hm : WellFormed m) :
    (expand_grid_left m).grid = m.grid.map (fun row => 0 :: row) ∧
    (expand_grid_left m).temp_grid = m.temp_grid.map (fun row => 0 :: row) := by
  obtain ⟨_, _, hg, ht, _⟩ := hm
  simp only [expand_grid_left, take_shaped hg, take_shaped ht]
  exact ⟨map_congr_shaped hg _ _ (fun row hr => memcpy_left hr),
    map_congr_shaped ht _ _ (fun row hr => memcpy_left hr)⟩

theorem expand_right_grid {m : SandpileModel} (hm : WellFormed m) :
    (expand_grid_right m).grid = m.grid.map (fun row => row ++ [0]) ∧
    (expand_grid_right m).temp_grid = m.temp_grid.map (fun row => row ++ [0]) := by
  obtain ⟨_, _, hg, ht, _⟩ := hm
  simp only [expand_grid_right, take_shaped hg, take_shaped ht]
  exact ⟨map_congr_shaped hg _ _ (fun row hr => memcpy_right hr),
    map_congr_shaped ht _ _ (fun row hr => memcpy_right hr)⟩

theorem shaped_cons_zeros {g : Grid} {h w : Nat} (hs : Shaped g h w) :
    Shaped (zeros w :: g) (h + 1) w := by
  refine ⟨by simp [hs.1], ?_⟩
  intro row hr
  rcases List.mem_cons.mp hr with h1 | h1
  · subst h1; simp [zeros]
  · exact hs.2 row h1

theorem shaped_append_zeros {g : Grid} {h w : Nat} (hs : Shaped g h w) :
    Shaped (g ++ [zeros w]) (h + 1) w := by
  refine ⟨by simp [hs.1], ?_⟩
  intro row hr
  rcases List.mem_append.mp hr with h1 | h1
  · exact hs.2 row h1
  · simp at h1; subst h1; simp [zeros]

theorem shaped_map_cons {g : Grid} {h w : Nat} (hs : Shaped g h w) :
    Shaped (g.map (fun row => 0 :: row)) h (w + 1) := by
  refine ⟨by simp [hs.1], ?_⟩
  intro row hr
  obtain ⟨r, hr1, rfl⟩ := List.mem_map.mp hr
  simp [hs.2 r hr1]

theorem shaped_map_snoc {g : Grid} {h w : Nat} (hs : Shaped g h w) :
    Shaped (g.map (fun row => row ++ [0])) h (w + 1) := by
  refine ⟨by simp [hs.1], ?_⟩
  intro row hr
  obtain ⟨r, hr1, rfl⟩ := List.mem_map.mp hr
  simp [hs.2 r hr1]

theorem typed_cons_zeros {g : Grid} (w : Nat) (ht : Typed g) : Typed (zeros w :: g) := by
  intro row hr v hv
  rcases List.mem_cons.mp hr with h1 | h1
  · subst h1
    have := List.eq_of_mem_replicate hv
    subst this; decide
  · exact ht row h1 v hv

theorem typed_append_zeros {g : Grid} (w : Nat) (ht : Typed g) : Typed (g ++ [zeros w]) := by
  intro row hr v hv
  rcases List.mem_append.mp hr with h1 | h1
  · exact ht row h1 v hv
  · simp at h1; subst h1
    have := List.eq_of_mem_replicate hv
    subst this; decide

theorem typed_map_cons {g : Grid} (ht : Typed g) : Typed (g.map (fun row => 0 :: row)) := by
  intro row hr v hv
  obtain ⟨r, hr1, rfl⟩ := List.mem_map.mp hr
  rcases List.mem_cons.mp hv with h1 | h1
  · subst h1; decide
  · exact ht r hr1 v h1

theorem typed_map_snoc {g : Grid} (ht : Typed g) : Typed (g.map (fun row => row ++ [0])) := by
  intro row hr v hv
  obtain ⟨r, hr1, rfl⟩ := List.mem_map.mp hr
  rcases List.mem_append.mp hv with h1 | h1
  · exact ht r hr1 v h1
  · simp at h1; subst h1; decide

/-! ## Logical coordinates -/

theorem cellAt_outside {g : Grid} {h w : Nat} (hs : Shaped g h w) (ox oy cx cy : Int)
    (hout : ¬ (ox ≤ cx ∧ cx < ox + w ∧ oy ≤ cy ∧ cy < oy + h)) :
    cellAt g ox oy cx cy = 0 := by
  unfold cellAt
  split
  · rename_i hin
    rw [readCell_none_of_shaped hs]
    · rfl
    · omega
  · rfl

theorem cellAt_inside {g : Grid} {h w : Nat} (hs : Shaped g h w) (ox oy : Int) (y x : Nat)
    (hy : y < h) (hx : x < w) :
    readCell g y x = some (cellAt g ox oy (ox + x) (oy + y)) := by
  obtain ⟨v, hv⟩ := readCell_shaped hs hy hx
  unfold cellAt
  have h1 : (oy + (y : Int) - oy).toNat = y := by omega
  have h2 : (ox + (x : Int) - ox).toNat = x := by omega
  rw [if_pos (by omega), h1, h2, hv]
  rfl

theorem cellAt_write {g g1 : Grid} {y x v : Nat} (hw : writeCell g y x v = some g1)
    (ox oy cx cy : Int) :
    cellAt g1 ox oy cx cy =
      if cx = ox + x ∧ cy = oy + y then v else cellAt g ox oy cx cy := by
  unfold cellAt
  by_cases hin : ox ≤ cx ∧ oy ≤ cy
  · rw [if_pos hin, if_pos hin, readCell_writeCell hw]
    by_cases hc : cx = ox + x ∧ cy = oy + y
    · have h1 : (cy - oy).toNat = y ∧ (cx - ox).toNat = x := by omega
      rw [if_pos h1, if_pos hc]; rfl
    · have h1 : ¬ ((cy - oy).toNat = y ∧ (cx - ox).toNat = x) := by omega
      rw [if_neg h1, if_neg hc]
  · rw [if_neg hin, if_neg hin, if_neg (by omega)]

theorem cellAt_cons_zeros (g : Grid) (w : Nat) (ox oy cx cy : Int) :
    cellAt (zeros w :: g) ox (oy - 1) cx cy = cellAt g ox oy cx cy := by
  unfold cellAt
  by_cases h1 : ox ≤ cx ∧ oy ≤ cy
  · have h2 : (cy - (oy - 1)).toNat = (cy - oy).toNat + 1 := by omega
    rw [if_pos h1, if_pos (by omega), h2]
    simp [readCell]
  · by_cases h3 : ox ≤ cx ∧ oy - 1 ≤ cy
    · have h2 : (cy - (oy - 1)).toNat = 0 := by omega
      rw [if_neg h1, if_pos h3, h2]
      simp only [readCell, List.getElem?_cons_zero, zeros]
      cases hr : (List.replicate w 0)[(cx - ox).toNat]? with
      | none => rfl
      | some a =>
        have := List.eq_of_mem_replicate (List.getElem?_mem hr)
        subst this; rfl
    · rw [if_neg h1, if_neg h3]

theorem cellAt_append_zeros (g : Grid) (w : Nat) (ox oy cx cy : Int) :
    cellAt (g ++ [zeros w]) ox oy cx cy = cellAt g ox oy cx cy := by
  unfold cellAt
  by_cases h1 : ox ≤ cx ∧ oy ≤ cy
  · rw [if_pos h1, if_pos h1]
    unfold readCell
    by_cases hy : (cy - oy).toNat < g.length
    · rw [List.getElem?_append_left hy]
    · rw [List.getElem?_append_right (Nat.le_of_not_lt hy),
        List.getElem?_eq_none (Nat.le_of_not_lt hy)]
      cases hz : [zeros w][(cy - oy).toNat - g.length]? with
      | none => rfl
      | some row =>
        have hrow := List.getElem?_mem hz
        simp at hrow; subst hrow
        simp only [zeros]
        cases hr : (List.replicate w 0)[(cx - ox).toNat]? with
        | none => rfl
        | some a =>
          have := List.eq_of_mem_replicate (List.getElem?_mem hr)
          subst this; rfl
  · rw [if_neg h1, if_neg h1]

theorem cellAt_map_cons (g : Grid) (ox oy cx cy : Int) :
    cellAt (g.map (fun row => 0 :: row)) (ox - 1) oy cx cy = cellAt g ox oy cx cy := by
  unfold cellAt
  by_cases h1 : ox ≤ cx ∧ oy ≤ cy
  · have h2 : (cx - (ox - 1)).toNat = (cx - ox).toNat + 1 := by omega
    rw [if_pos h1, if_pos (by omega), h2]
    unfold readCell
    rw [List.getElem?_map]
    cases g[(cy - oy).toNat]? <;> simp
  · by_cases h3 : ox - 1 ≤ cx ∧ oy ≤ cy
    · have h2 : (cx - (ox - 1)).toNat = 0 := by omega
      rw [if_neg h1, if_pos h3, h2]
      unfold readCell
      rw [List.getElem?_map]
      cases g[(cy - oy).toNat]? <;> simp
    · rw [if_neg h1, if_neg h3]

theorem cellAt_map_snoc (g : Grid) (ox oy cx cy : Int) :
    cellAt (g.map (fun row => row ++ [0])) ox oy cx cy = cellAt g ox oy cx cy := by
  unfold cellAt
  by_cases h1 : ox ≤ cx ∧ oy ≤ cy
  · rw [if_pos h1, if_pos h1]
    unfold readCell
    rw [List.getElem?_map]
    cases hrow : g[(cy - oy).toNat]? with
    | none => rfl
    | some row =>
      simp only [Option.map_some']
      by_cases hx : (cx - ox).toNat < row.length
      · rw [List.getElem?_append_left hx]
      · rw [List.getElem?_append_right (Nat.le_of_not_lt hx),
          List.getElem?_eq_none (Nat.le_of_not_lt hx)]
        cases hz : [0][(cx - ox).toNat - row.length]? with
        | none => rfl
        | some a =>
          have ha := List.getElem?_mem hz
          simp at ha; subst ha; rfl
  · rw [if_neg h1, if_neg h1]

/-! ## The effect of the building blocks of a pass, in logical coordinates -/

theorem moved_write {m : SandpileModel} (hm : WellFormed m) {y x v : Nat} {g : Grid}
    (hw : writeCell m.grid y x v = some g) (hv : v < U64) :
    Moved m { m with grid := g }
      (fun cx cy => if cx = m.min_x + x ∧ cy = m.min_y + y then v else m.live cx cy)
      0 0 0 0 := by
  obtain ⟨h1, h2, hg, ht, hty⟩ := hm
  refine ⟨⟨h1, h2, writeCell_keeps_shape hw hg, ht, writeCell_keeps_typed hw hty hv⟩,
    fun _ _ => rfl, ?_, by simp, by simp, by simp, by simp, by simp, by simp, rfl⟩
  intro cx cy
  exact cellAt_write hw _ _ _ _

theorem moved_addCell {m : SandpileModel} (hm : WellFormed m) {y x : Nat} (o : Nat)
    (hy : y < m.height) (hx : x < m.width) :
    ∃ g, addCell m.grid y x o = some g ∧
      Moved m { m with grid := g }
        (fun cx cy => if cx = m.min_x + x ∧ cy = m.min_y + y
          then (m.live cx cy + o) % U64 else m.live cx cy) 0 0 0 0 := by
  have hr := cellAt_inside hm.2.2.1 m.min_x m.min_y y x hy hx
  obtain ⟨g, hg⟩ := writeCell_shaped
    ((cellAt m.grid m.min_x m.min_y (m.min_x + x) (m.min_y + y) + o) % U64) hm.2.2.1 hy hx
  refine ⟨g, by simp [addCell, hr, hg], ?_⟩
  have hmv := moved_write hm hg (Nat.mod_lt _ (by decide))
  refine { hmv with live := ?_ }
  intro cx cy
  rw [hmv.live]
  by_cases hc : cx = m.min_x + x ∧ cy = m.min_y + y
  · rw [if_pos hc, if_pos hc, hc.1, hc.2]; rfl
  · rw [if_neg hc, if_neg hc]

theorem moved_subCell {m : SandpileModel} (hm : WellFormed m) {y x : Nat} (o : Nat)
    (hy : y < m.height) (hx : x < m.width) :
    ∃ g, subCell m.grid y x o = some g ∧
      Moved m { m with grid := g }
        (fun cx cy => if cx = m.min_x + x ∧ cy = m.min_y + y
          then (m.live cx cy + U64 - o % U64) % U64 else m.live cx cy) 0 0 0 0 := by
  have hr := cellAt_inside hm.2.2.1 m.min_x m.min_y y x hy hx
  obtain ⟨g, hg⟩ := writeCell_shaped
    ((cellAt m.grid m.min_x m.min_y (m.min_x + x) (m.min_y + y) + U64 - o % U64) % U64)
    hm.2.2.1 hy hx
  refine ⟨g, by simp [subCell, hr, hg], ?_⟩
  have hmv := moved_write hm hg (Nat.mod_lt _ (by decide))
  refine { hmv with live := ?_ }
  intro cx cy
  rw [hmv.live]
  by_cases hc : cx = m.min_x + x ∧ cy = m.min_y + y
  · rw [if_pos hc, if_pos hc, hc.1, hc.2]; rfl
  · rw [if_neg hc, if_neg hc]

theorem moved_expand_up {m : SandpileModel} (hm : WellFormed m) :
    Moved m (expand_grid_up m) m.live 0 0 1 0 := by
  obtain ⟨hg, ht⟩ := expand_up_grid hm
  obtain ⟨h1, h2, sg, st, ty⟩ := hm
  refine ⟨⟨?_, h2, ?_, ?_, ?_⟩, ?_, ?_, ?_, ?_, ?_, ?_, ?_, ?_, rfl⟩
  · simp [expand_grid_up]
  · rw [hg]; exact shaped_cons_zeros sg
  · rw [ht]; exact shaped_cons_zeros st
  · rw [hg]; exact typed_cons_zeros _ ty
  · intro cx cy
    simp only [SandpileModel.snap, ht]
    exact cellAt_cons_zeros _ _ _ _ _ _
  · intro cx cy
    simp only [SandpileModel.live, hg]
    exact cellAt_cons_zeros _ _ _ _ _ _
  all_goals simp [expand_grid_up]

theorem moved_expand_down {m : SandpileModel} (hm : WellFormed m) :
    Moved m (expand_grid_down m) m.live 0 0 0 1 := by
  obtain ⟨hg, ht⟩ := expand_down_grid hm
  obtain ⟨h1, h2, sg, st, ty⟩ := hm
  refine ⟨⟨?_, h2, ?_, ?_, ?_⟩, ?_, ?_, ?_, ?_, ?_, ?_, ?_, ?_, rfl⟩
  · simp [expand_grid_down]
  · rw [hg]; exact shaped_append_zeros sg
  · rw [ht]; exact shaped_append_zeros st
  · rw [hg]; exact typed_append_zeros _ ty
  · intro cx cy
    simp only [SandpileModel.snap, ht]
    exact cellAt_append_zeros _ _ _ _ _ _
  · intro cx cy
    simp only [SandpileModel.live, hg]
    exact cellAt_append_zeros _ _ _ _ _ _
  all_goals simp [expand_grid_down]

theorem moved_expand_left {m : SandpileModel} (hm : WellFormed m) :
    Moved m (expand_grid_left m) m.live 1 0 0 0 := by
  obtain ⟨hg, ht⟩ := expand_left_grid hm
  obtain ⟨h1, h2, sg, st, ty⟩ := hm
  refine ⟨⟨h1, ?_, ?_, ?_, ?_⟩, ?_, ?_, ?_, ?_, ?_, ?_, ?_, ?_, rfl⟩
  · simp [expand_grid_left]
  · rw [hg]; exact shaped_map_cons sg
  · rw [ht]; exact shaped_map_cons st
  · rw [hg]; exact typed_map_cons ty
  · intro cx cy
    simp only [SandpileModel.snap, ht]
    exact cellAt_map_cons _ _ _ _ _
  · intro cx cy
    simp only [SandpileModel.live, hg]
    exact cellAt_map_cons _ _ _ _ _
  all_goals simp [expand_grid_left]

theorem moved_expand_right {m : SandpileModel} (hm : WellFormed m) :
    Moved m (expand_grid_right m) m.live 0 1 0 0 := by
  obtain ⟨hg, ht⟩ := expand_right_grid hm
  obtain ⟨h1, h2, sg, st, ty⟩ := hm
  refine ⟨⟨h1, ?_, ?_, ?_, ?_⟩, ?_, ?_, ?_, ?_, ?_, ?_, ?_, ?_, rfl⟩
  · simp [expand_grid_right]
  · rw [hg]; exact shaped_map_snoc sg
  · rw [ht]; exact shaped_map_snoc st
  · rw [hg]; exact typed_map_snoc ty
  · intro cx cy
    simp only [SandpileModel.snap, ht]
    exact cellAt_map_snoc _ _ _ _ _
  · intro cx cy
    simp only [SandpileModel.live, hg]
    exact cellAt_map_snoc _ _ _ _ _
  all_goals simp [expand_grid_right]

theorem Moved.andThen {m m1 m2 : SandpileModel} {L1 L2 : Int → Int → Nat}
    {a b c d a1 b1 c1 d1 : Nat} (h1 : Moved m m1 L1 a b c d)
    (h2 : Moved m1 m2 L2 a1 b1 c1 d1) :
    Moved m m2 L2 (a + a1) (b + b1) (c + c1) (d + d1) := by
  refine ⟨h2.wf, fun cx cy => (h2.snap cx cy).trans (h1.snap cx cy), h2.live, ?_, ?_, ?_, ?_,
    ?_, ?_, h2.iteration.trans h1.iteration⟩
  · have := h1.min_x; have := h2.min_x; omega
  · have := h1.min_y; have := h2.min_y; omega
  · have := h1.max_x; have := h2.max_x; omega
  · have := h1.max_y; have := h2.max_y; omega
  · have := h1.width; have := h2.width; omega
  · have := h1.height; have := h2.height; omega

theorem Moved.retarget {m m1 : SandpileModel} {L1 L2 : Int → Int → Nat}
    {a b c d a1 b1 c1 d1 : Nat} (h1 : Moved m m1 L1 a b c d)
    (hL : ∀ cx cy, L1 cx cy = L2 cx cy) (ha : a = a1) (hb : b = b1) (hc : c = c1)
    (hd : d = d1) : Moved m m1 L2 a1 b1 c1 d1 := by
  subst ha hb hc hd
  exact { h1 with live := fun cx cy => (h1.live cx cy).trans (hL cx cy) }

theorem bump_congr {L1 L2 : Int → Int → Nat} (h : ∀ cx cy, L1 cx cy = L2 cx cy)
    {tx ty tx1 ty1 : Int} (hx : tx = tx1) (hy : ty = ty1) (o : Nat) (cx cy : Int) :
    bump L1 tx ty o cx cy = bump L2 tx1 ty1 o cx cy := by
  subst hx hy
  simp only [bump, h]

theorem spillUp_spec {m : SandpileModel} (hm : WellFormed m) {y x : Nat} (o : Nat)
    (hy : y < m.height) (hx : x < m.width) :
    ∃ m1 y1, spillUp m y x o = some (m1, y1) ∧
      Moved m m1 (bump m.live (m.min_x + x) (m.min_y + y - 1) o)
        0 0 (if y = 0 then 1 else 0) 0 ∧
      y1 = y + (if y = 0 then 1 else 0) := by
  by_cases h0 : y = 0
  · subst h0
    have he := moved_expand_up hm
    obtain ⟨g, hg, hmv⟩ := moved_addCell he.wf (y := 0) (x := x) o
      (by have := he.height; omega) (by have := he.width; omega)
    refine ⟨{ expand_grid_up m with grid := g }, 1, by simp [spillUp, hg], ?_, by simp⟩
    refine (he.andThen hmv).retarget ?_ rfl rfl (by simp) rfl
    intro cx cy
    have h1 := he.min_x
    have h2 := he.min_y
    exact bump_congr he.live (by omega) (by omega) o cx cy
  · obtain ⟨g, hg, hmv⟩ := moved_addCell hm (y := y - 1) (x := x) o (by omega) hx
    refine ⟨{ m with grid := g }, y, by simp [spillUp, Nat.pos_of_ne_zero h0, hg], ?_,
      by simp [h0]⟩
    refine hmv.retarget ?_ rfl rfl (by simp [h0]) rfl
    intro cx cy
    exact bump_congr (fun _ _ => rfl) rfl (by omega) o cx cy

theorem spillDown_spec {m : SandpileModel} (hm : WellFormed m) {y x : Nat} (o : Nat)
    (hy : y < m.height) (hx : x < m.width) :
    ∃ m1, spillDown m y x o = some m1 ∧
      Moved m m1 (bump m.live (m.min_x + x) (m.min_y + y + 1) o)
        0 0 0 (if y + 1 = m.height then 1 else 0) := by
  by_cases h0 : y + 1 = m.height
  · have he := moved_expand_down hm
    obtain ⟨g, hg, hmv⟩ := moved_addCell he.wf (y := (expand_grid_down m).height - 1)
      (x := x) o (by have := he.height; omega) (by have := he.width; omega)
    have hnot : ¬ y < m.height - 1 := by omega
    refine ⟨{ expand_grid_down m with grid := g }, by simp [spillDown, hnot, hg], ?_⟩
    refine (he.andThen hmv).retarget ?_ rfl rfl rfl (by simp [h0])
    intro cx cy
    have h1 := he.min_x
    have h2 := he.min_y
    have h3 := he.height
    exact bump_congr he.live (by omega) (by omega) o cx cy
  · obtain ⟨g, hg, hmv⟩ := moved_addCell hm (y := y + 1) (x := x) o (by omega) hx
    have hlt : y < m.height - 1 := by omega
    refine ⟨{ m with grid := g }, by simp [spillDown, hlt, hg], ?_⟩
    refine hmv.retarget ?_ rfl rfl rfl (by simp [h0])
    intro cx cy
    exact bump_congr (fun _ _ => rfl) rfl (by omega) o cx cy

theorem spillLeft_spec {m : SandpileModel} (hm : WellFormed m) {y x : Nat} (o : Nat)
    (hy : y < m.height) (hx : x < m.width) :
    ∃ m1 x1, spillLeft m y x o = some (m1, x1) ∧
      Moved m m1 (bump m.live (m.min_x + x - 1) (m.min_y + y) o)
        (if x = 0 then 1 else 0) 0 0 0 ∧
      x1 = x + (if x = 0 then 1 else 0) := by
  by_cases h0 : x = 0
  · subst h0
    have he := moved_expand_left hm
    obtain ⟨g, hg, hmv⟩ := moved_addCell he.wf (y := y) (x := 0) o
      (by have := he.height; omega) (by have := he.width; omega)
    refine ⟨{ expand_grid_left m with grid := g }, 1, by simp [spillLeft, hg], ?_, by simp⟩
    refine (he.andThen hmv).retarget ?_ (by simp) rfl rfl rfl
    intro cx cy
    have h1 := he.min_x
    have h2 := he.min_y
    exact bump_congr he.live (by omega) (by omega) o cx cy
  · obtain ⟨g, hg, hmv⟩ := moved_addCell hm (y := y) (x := x - 1) o hy (by omega)
    refine ⟨{ m with grid := g }, x, by simp [spillLeft, Nat.pos_of_ne_zero h0, hg], ?_,
      by simp [h0]⟩
    refine hmv.retarget ?_ (by simp [h0]) rfl rfl rfl
    intro cx cy
    exact bump_congr (fun _ _ => rfl) (by omega) rfl o cx cy

theorem spillRight_spec {m : SandpileModel} (hm : WellFormed m) {y x : Nat} (o : Nat)
    (hy : y < m.height) (hx : x < m.width) :
    ∃ m1, spillRight m y x o = some m1 ∧
      Moved m m1 (bump m.live (m.min_x + x + 1) (m.min_y + y) o)
        0 (if x + 1 = m.width then 1 else 0) 0 0 := by
  by_cases h0 : x + 1 = m.width
  · have he := moved_expand_right hm
    obtain ⟨g, hg, hmv⟩ := moved_addCell he.wf (y := y)
      (x := (expand_grid_right m).width - 1) o (by have := he.height; omega)
      (by have := he.width; omega)
    have hnot : ¬ x < m.width - 1 := by omega
    refine ⟨{ expand_grid_right m with grid := g }, by simp [spillRight, hnot, hg], ?_⟩
    refine (he.andThen hmv).retarget ?_ rfl (by simp [h0]) rfl rfl
    intro cx cy
    have h1 := he.min_x
    have h2 := he.min_y
    have h3 := he.width
    exact bump_congr he.live (by omega) (by omega) o cx cy
  · obtain ⟨g, hg, hmv⟩ := moved_addCell hm (y := y) (x := x + 1) o hy (by omega)
    have hlt : x < m.width - 1 := by omega
    refine ⟨{ m with grid := g }, by simp [spillRight, hlt, hg], ?_⟩
    refine hmv.retarget ?_ rfl (by simp [h0]) rfl rfl
    intro cx cy
    exact bump_congr (fun _ _ => rfl) (by omega) rfl o cx cy

theorem topple_spec {m : SandpileModel} (hm : WellFormed m) {y x : Nat} (grains : Nat)
    (hy : y < m.height) (hx : x < m.width) :
    ∃ m4 y1 x1, topple m y x grains = some (m4, y1, x1) ∧
      Moved m m4 (fired m.live (m.min_x + x) (m.min_y + y) (grains / 4))
        (if x = 0 then 1 else 0) (if x + 1 = m.width then 1 else 0)
        (if y = 0 then 1 else 0) (if y + 1 = m.height then 1 else 0) ∧
      y1 = y + (if y = 0 then 1 else 0) ∧ x1 = x + (if x = 0 then 1 else 0) := by
  obtain ⟨g0, hg0, h0⟩ := moved_subCell hm (grains / 4 * 4) hy hx
  have a0 := h0.min_x; have b0 := h0.min_y; have c0 := h0.width; have d0 := h0.height
  obtain ⟨m1, y1, e1, h1, hy1⟩ := spillUp_spec h0.wf (y := y) (x := x) (grains / 4)
    (by omega) (by omega)
  have a1 := h1.min_x; have b1 := h1.min_y; have c1 := h1.width; have d1 := h1.height
  obtain ⟨m2, e2, h2⟩ := spillDown_spec h1.wf (y := y1) (x := x) (grains / 4)
    (by omega) (by omega)
  have a2 := h2.min_x; have b2 := h2.min_y; have c2 := h2.width; have d2 := h2.height
  obtain ⟨m3, x1, e3, h3, hx1⟩ := spillLeft_spec h2.wf (y := y1) (x := x) (grains / 4)
    (by omega) (by omega)
  have a3 := h3.min_x; have b3 := h3.min_y; have c3 := h3.width; have d3 := h3.height
  obtain ⟨m4, e4, h4⟩ := spillRight_spec h3.wf (y := y1) (x := x1) (grains / 4)
    (by omega) (by omega)
  refine ⟨m4, y1, x1, ?_, ?_, hy1, hx1⟩
  · simp only [topple, hg0, e1, e2, e3, e4]
  · refine ((((h0.andThen h1).andThen h2).andThen h3).andThen h4).retarget ?_ ?_ ?_ ?_ ?_
    · intro cx cy
      unfold fired
      refine bump_congr (fun cx cy => ?_) ?_ ?_ _ cx cy
      · rw [h3.live]
        refine bump_congr (fun cx cy => ?_) ?_ ?_ _ cx cy
        · rw [h2.live]
          refine bump_congr (fun cx cy => ?_) ?_ ?_ _ cx cy
          · rw [h1.live]
            refine bump_congr (fun cx cy => ?_) ?_ ?_ _ cx cy
            · rw [h0.live]; rfl
            · omega
            · omega
          · omega
          · split_ifs at hy1 b1 <;> omega
        · split_ifs at b1 b2 <;> omega
        · split_ifs at hy1 b1 b2 <;> omega
      · split_ifs at hx1 a3 <;> omega
      · split_ifs at hy1 b1 b2 b3 <;> omega
    · simp
    · split_ifs at hx1 c3 ⊢ <;> omega
    · simp
    · split_ifs at hy1 d1 ⊢ <;> omega

/-- The inner loop body at an in-range cursor: a cell whose snapshot value is
below 4 is skipped, any other cell topples. -/
theorem visit_spec {m : SandpileModel} (hm : WellFormed m) {y x : Nat} (changed : Bool)
    (hy : y < m.height) (hx : x < m.width) :
    (m.snap (m.min_x + x) (m.min_y + y) < 4 ∧ visit m y x changed = some (m, y, x, changed)) ∨
    (4 ≤ m.snap (m.min_x + x) (m.min_y + y) ∧
      ∃ m4 y1 x1, visit m y x changed = some (m4, y1, x1, true) ∧
        Moved m m4 (fired m.live (m.min_x + x) (m.min_y + y)
            (m.snap (m.min_x + x) (m.min_y + y) / 4))
          (if x = 0 then 1 else 0) (if x + 1 = m.width then 1 else 0)
          (if y = 0 then 1 else 0) (if y + 1 = m.height then 1 else 0) ∧
        y1 = y + (if y = 0 then 1 else 0) ∧ x1 = x + (if x = 0 then 1 else 0)) := by
  have hr := cellAt_inside hm.2.2.2.1 m.min_x m.min_y y x hy hx
  by_cases h4 : 4 ≤ m.snap (m.min_x + x) (m.min_y + y)
  · right
    obtain ⟨m4, y1, x1, e, hmv, hy1, hx1⟩ :=
      topple_spec hm (m.snap (m.min_x + x) (m.min_y + y)) hy hx
    have h4b : 4 ≤ cellAt m.temp_grid m.min_x m.min_y (m.min_x + x) (m.min_y + y) := h4
    refine ⟨h4, m4, y1, x1, ?_, hmv, hy1, hx1⟩
    simp only [visit, hr, ge_iff_le, h4b, if_true]
    have e2 : topple m y x (cellAt m.temp_grid m.min_x m.min_y (m.min_x + x) (m.min_y + y))
        = some (m4, y1, x1) := e
    rw [e2]
  · left
    have h4b : ¬ 4 ≤ cellAt m.temp_grid m.min_x m.min_y (m.min_x + x) (m.min_y + y) := h4
    refine ⟨by omega, ?_⟩
    simp only [visit, hr, ge_iff_le, h4b, if_false]

/-! ## The state of the live array in the middle of a pass -/

theorem before_step (X Y nx ny : Int) :
    before (X + 1) Y nx ny = if nx = X ∧ ny = Y then true else before X Y nx ny := by
  unfold before
  by_cases h : nx = X ∧ ny = Y
  · rw [if_pos h]; simp; omega
  · rw [if_neg h]
    have : (ny < Y ∨ ny = Y ∧ nx < X + 1) ↔ (ny < Y ∨ ny = Y ∧ nx < X) := by omega
    simp only [this]

theorem before_self (X Y : Int) : before X Y X Y = false := by
  simp [before]

theorem base_congr {L0 : Int → Int → Nat} {v1 v2 : Int → Int → Bool} {cx cy : Int}
    (h : 4 ≤ L0 cx cy → v1 cx cy = v2 cx cy) : base L0 v1 cx cy = base L0 v2 cx cy := by
  unfold base
  by_cases h4 : 4 ≤ L0 cx cy
  · rw [h h4]
  · have : L0 cx cy % 4 = L0 cx cy := Nat.mod_eq_of_lt (by omega)
    split_ifs <;> simp [this]

theorem contrib_congr {L0 : Int → Int → Nat} {v1 v2 : Int → Int → Bool} {cx cy : Int}
    (h : 4 ≤ L0 cx cy → v1 cx cy = v2 cx cy) : contrib L0 v1 cx cy = contrib L0 v2 cx cy := by
  unfold contrib
  by_cases h4 : 4 ≤ L0 cx cy
  · rw [h h4]
  · have : L0 cx cy / 4 = 0 := by omega
    split_ifs <;> simp [this]

theorem midValue_congr {L0 : Int → Int → Nat} {v1 v2 : Int → Int → Bool}
    (h : ∀ nx ny, 4 ≤ L0 nx ny → v1 nx ny = v2 nx ny) (cx cy : Int) :
    midValue L0 v1 cx cy = midValue L0 v2 cx cy := by
  unfold midValue
  rw [base_congr (h cx cy), contrib_congr (h cx (cy - 1)), contrib_congr (h cx (cy + 1)),
    contrib_congr (h (cx - 1) cy), contrib_congr (h (cx + 1) cy)]

theorem base_step (L0 : Int → Int → Nat) (X Y cx cy : Int) :
    base L0 (before (X + 1) Y) cx cy =
      if cx = X ∧ cy = Y then L0 X Y % 4 else base L0 (before X Y) cx cy := by
  unfold base
  rw [before_step]
  by_cases h : cx = X ∧ cy = Y
  · rw [if_pos h, if_pos h, h.1, h.2]; simp
  · rw [if_neg h, if_neg h]

theorem contrib_step (L0 : Int → Int → Nat) (X Y nx ny : Int) :
    contrib L0 (before (X + 1) Y) nx ny =
      if nx = X ∧ ny = Y then L0 X Y / 4 else contrib L0 (before X Y) nx ny := by
  unfold contrib
  rw [before_step]
  by_cases h : nx = X ∧ ny = Y
  · rw [if_pos h, if_pos h, h.1, h.2]; simp
  · rw [if_neg h, if_neg h]

theorem base_at (L0 : Int → Int → Nat) (X Y : Int) :
    base L0 (before X Y) X Y = L0 X Y := by
  simp [base, before_self]

theorem contrib_at (L0 : Int → Int → Nat) (X Y : Int) :
    contrib L0 (before X Y) X Y = 0 := by
  simp [contrib, before_self]

theorem fired_eval (L : Int → Int → Nat) (X Y : Int) (o : Nat) (cx cy : Int) :
    fired L X Y o cx cy =
      if cx = X ∧ cy = Y then (L cx cy + U64 - (o * 4) % U64) % U64
      else if (cx = X ∧ cy - 1 = Y) ∨ (cx = X ∧ cy + 1 = Y) ∨ (cx - 1 = X ∧ cy = Y) ∨
          (cx + 1 = X ∧ cy = Y)
        then (L cx cy + o) % U64
      else L cx cy := by
  simp only [fired, bump, drain]
  split_ifs <;> first | rfl | omega

theorem fired_mid (L0 : Int → Int → Nat) (hL : ∀ a b, L0 a b < U64) (X Y : Int)
    (cx cy : Int) :
    fired (midValue L0 (before X Y)) X Y (L0 X Y / 4) cx cy
      = midValue L0 (before (X + 1) Y) cx cy := by
  rw [fired_eval]
  simp only [midValue, base_step, contrib_step]
  have hc := hL X Y
  simp only [U64] at hc ⊢
  by_cases h1 : cx = X ∧ cy = Y
  · have e3 : ¬ (cx = X ∧ cy - 1 = Y) := by omega
    have e4 : ¬ (cx = X ∧ cy + 1 = Y) := by omega
    have e5 : ¬ (cx - 1 = X ∧ cy = Y) := by omega
    have e6 : ¬ (cx + 1 = X ∧ cy = Y) := by omega
    have hz : base L0 (before X Y) cx cy = L0 X Y := by rw [h1.1, h1.2, base_at]
    simp only [eq_true h1, eq_false e3, eq_false e4, eq_false e5, eq_false e6, if_true,
      if_false, hz]
    omega
  by_cases h2 : cx = X ∧ cy - 1 = Y
  · have e4 : ¬ (cx = X ∧ cy + 1 = Y) := by omega
    have e5 : ¬ (cx - 1 = X ∧ cy = Y) := by omega
    have e6 : ¬ (cx + 1 = X ∧ cy = Y) := by omega
    have hz : contrib L0 (before X Y) cx (cy - 1) = 0 := by rw [h2.1, h2.2, contrib_at]
    simp only [eq_false h1, eq_true h2, eq_false e4, eq_false e5, eq_false e6, if_true,
      if_false, hz, true_or]
    omega
  by_cases h3 : cx = X ∧ cy + 1 = Y
  · have e5 : ¬ (cx - 1 = X ∧ cy = Y) := by omega
    have e6 : ¬ (cx + 1 = X ∧ cy = Y) := by omega
    have hz : contrib L0 (before X Y) cx (cy + 1) = 0 := by rw [h3.1, h3.2, contrib_at]
    simp only [eq_false h1, eq_false h2, eq_true h3, eq_false e5, eq_false e6, if_true,
      if_false, hz, true_or, or_true, false_or]
    omega
  by_cases h5 : cx - 1 = X ∧ cy = Y
  · have e6 : ¬ (cx + 1 = X ∧ cy = Y) := by omega
    have hz : contrib L0 (before X Y) (cx - 1) cy = 0 := by rw [h5.1, h5.2, contrib_at]
    simp only [eq_false h1, eq_false h2, eq_false h3, eq_true h5, eq_false e6, if_true,
      if_false, hz, true_or, or_true, false_or]
    omega
  by_cases h6 : cx + 1 = X ∧ cy = Y
  · have hz : contrib L0 (before X Y) (cx + 1) cy = 0 := by rw [h6.1, h6.2, contrib_at]
    simp only [eq_false h1, eq_false h2, eq_false h3, eq_false h5, eq_true h6, if_true,
      if_false, hz, true_or, or_true, false_or]
    omega
  · simp only [eq_false h1, eq_false h2, eq_false h3, eq_false h5, eq_false h6, if_false,
      or_self]

theorem fired_congr {L1 L2 : Int → Int → Nat} (h : ∀ a b, L1 a b = L2 a b) (X Y : Int)
    (o : Nat) (cx cy : Int) : fired L1 X Y o cx cy = fired L2 X Y o cx cy := by
  rw [fired_eval, fired_eval, h]

theorem cellAt_lt {g : Grid} (ht : Typed g) (ox oy cx cy : Int) :
    cellAt g ox oy cx cy < U64 := by
  unfold cellAt
  split
  · cases hr : readCell g (cy - oy).toNat (cx - ox).toNat with
    | none => decide
    | some v =>
      obtain ⟨row, h1, h2⟩ := readCell_lt hr
      exact ht row (List.getElem?_mem h1) v (List.getElem?_mem h2)
  · decide

theorem covers_of_live {m : SandpileModel} (hm : WellFormed m) (cx cy : Int)
    (h : m.live cx cy ≠ 0) : m.covers cx cy := by
  by_contra hc
  exact h (cellAt_outside hm.2.2.1 _ _ _ _ hc)

theorem covers_of_snap {m : SandpileModel} (hm : WellFormed m) (cx cy : Int)
    (h : m.snap cx cy ≠ 0) : m.covers cx cy := by
  by_contra hc
  exact h (cellAt_outside hm.2.2.2.1 _ _ _ _ hc)

theorem FiredIn_congr {L0 : Int → Int → Nat} {v1 v2 : Int → Int → Bool}
    (h : ∀ nx ny, 4 ≤ L0 nx ny → v1 nx ny = v2 nx ny) (P : Int → Int → Prop) :
    FiredIn L0 v1 P ↔ FiredIn L0 v2 P := by
  constructor
  · rintro ⟨nx, ny, a, b, c⟩
    exact ⟨nx, ny, (h nx ny b) ▸ a, b, c⟩
  · rintro ⟨nx, ny, a, b, c⟩
    exact ⟨nx, ny, (h nx ny b).symm ▸ a, b, c⟩

theorem FiredIn_step {L0 : Int → Int → Nat} {X Y : Int} (h4 : 4 ≤ L0 X Y)
    (P : Int → Int → Prop) :
    FiredIn L0 (before (X + 1) Y) P ↔ FiredIn L0 (before X Y) P ∨ P X Y := by
  constructor
  · rintro ⟨nx, ny, a, b, c⟩
    rw [before_step] at a
    by_cases h : nx = X ∧ ny = Y
    · right; rw [← h.1, ← h.2]; exact c
    · left; rw [if_neg h] at a; exact ⟨nx, ny, a, b, c⟩
  · rintro (⟨nx, ny, a, b, c⟩ | c)
    · refine ⟨nx, ny, ?_, b, c⟩
      rw [before_step]; split_ifs
      · rfl
      · exact a
    · refine ⟨X, Y, ?_, h4, c⟩
      rw [before_step]; simp

theorem Grown.advance {d k : Int} {F F1 Q : Prop} (h : Grown d F) (hF : F1 ↔ F ∨ Q)
    (hk : (k = 1 ∧ Q ∧ d = 0) ∨ (k = 0 ∧ (Q → d = 1))) : Grown (d + k) F1 := by
  unfold Grown at *
  rcases h with ⟨hd, hn⟩ | ⟨hd, hf⟩
  · rcases hk with ⟨hk1, hq, _⟩ | ⟨hk0, hq⟩
    · right; exact ⟨by omega, hF.mpr (Or.inr hq)⟩
    · left
      refine ⟨by omega, fun hf1 => ?_⟩
      rcases hF.mp hf1 with hf | q
      · exact hn hf
      · have := hq q; omega
  · rcases hk with ⟨_, _, hd0⟩ | ⟨hk0, _⟩
    · omega
    · right; exact ⟨by omega, hF.mpr (Or.inl hf)⟩

theorem Core.revisit {m0 m : SandpileModel} {v1 v2 : Int → Int → Bool} {ch : Bool}
    (hc : Core m0 m v1 ch) (h : ∀ nx ny, 4 ≤ m0.live nx ny → v1 nx ny = v2 nx ny) :
    Core m0 m v2 ch := by
  refine ⟨hc.wf, hc.snap, fun cx cy => ?_, ?_, ?_, ?_, ?_, hc.max_x, hc.max_y, ?_,
    hc.iteration⟩
  · rw [hc.live, midValue_congr h]
  · rw [← FiredIn_congr h]; exact hc.top
  · rw [← FiredIn_congr h]; exact hc.bottom
  · rw [← FiredIn_congr h]; exact hc.left
  · rw [← FiredIn_congr h]; exact hc.right
  · rw [← FiredIn_congr h]; exact hc.changed

theorem Grown.advanceTo {d d1 : Int} {F F1 Q : Prop} (h : Grown d F) (hF : F1 ↔ F ∨ Q) (k : Int)
    (hd : d1 = d + k) (hk : (k = 1 ∧ Q ∧ d = 0) ∨ (k = 0 ∧ (Q → d = 1))) : Grown d1 F1 := by
  rw [hd]; exact h.advance hF hk

theorem Grown.zeroOrOne {d : Int} {F : Prop} (h : Grown d F) : d = 0 ∨ d = 1 :=
  h.elim (fun a => Or.inl a.1) (fun a => Or.inr a.1)

theorem ite_cases (c : Prop) [Decidable c] :
    (c ∧ (if c then 1 else 0 : Nat) = 1) ∨ (¬ c ∧ (if c then 1 else 0 : Nat) = 0) := by
  by_cases h : c
  · left; exact ⟨h, if_pos h⟩
  · right; exact ⟨h, if_neg h⟩

/-- One round of the inner loop keeps the invariant and moves the logical
cursor one cell to the right. -/
theorem visit_core {m0 m : SandpileModel} (h0 : WellFormed m0) {y x : Nat} {ch : Bool}
    (hc : Core m0 m (before (m.min_x + x) (m.min_y + y)) ch)
    (hy : y < m.height) (hx : x < m.width) :
    ∃ m1 y1 x1 c1, visit m y x ch = some (m1, y1, x1, c1) ∧
      Core m0 m1 (before (m.min_x + x + 1) (m.min_y + y)) c1 ∧
      y1 < m1.height ∧ x1 < m1.width ∧
      m1.min_x + x1 = m.min_x + x ∧ m1.min_y + y1 = m.min_y + y := by
  rcases visit_spec hc.wf ch hy hx with ⟨hlt, he⟩ | ⟨h4, m4, y1, x1, he, hmv, hy1, hx1⟩
  · refine ⟨m, y, x, ch, he, ?_, hy, hx, rfl, rfl⟩
    refine hc.revisit (fun nx ny hn => ?_)
    rw [before_step]
    by_cases h : nx = m.min_x + x ∧ ny = m.min_y + y
    · rw [h.1, h.2, ← hc.snap] at hn; omega
    · rw [if_neg h]
  · rw [hc.snap] at h4 hmv
    obtain ⟨cv1, cv2, cv3, cv4⟩ :=
      covers_of_live h0 (m.min_x + x) (m.min_y + y) (by omega)
    have hdl := ite_cases (x = 0)
    have hdr := ite_cases (x + 1 = m.width)
    have hdu := ite_cases (y = 0)
    have hdd := ite_cases (y + 1 = m.height)
    generalize (if x = 0 then 1 else 0 : Nat) = dl at hmv hx1 hdl
    generalize (if x + 1 = m.width then 1 else 0 : Nat) = dr at hmv hdr
    generalize (if y = 0 then 1 else 0 : Nat) = du at hmv hy1 hdu
    generalize (if y + 1 = m.height then 1 else 0 : Nat) = dd at hmv hdd
    have a := hmv.min_x; have b := hmv.min_y; have c := hmv.width; have d := hmv.height
    have e := hmv.max_x; have f := hmv.max_y
    have t1 := hc.top.zeroOrOne; have t2 := hc.bottom.zeroOrOne
    have t3 := hc.left.zeroOrOne; have t4 := hc.right.zeroOrOne
    have t5 := hc.max_x; have t6 := hc.max_y
    refine ⟨m4, y1, x1, true, he, ?_, by omega, by omega, by omega, by omega⟩
    refine ⟨hmv.wf, fun cx cy => (hmv.snap cx cy).trans (hc.snap cx cy), fun cx cy => ?_,
      ?_, ?_, ?_, ?_, by omega, by omega, ?_, hmv.iteration.trans hc.iteration⟩
    · rw [hmv.live, fired_congr hc.live]
      exact fired_mid m0.live (fun a b => cellAt_lt h0.2.2.2.2 _ _ a b) _ _ cx cy
    · refine hc.top.advanceTo (FiredIn_step h4 _) du (by omega) ?_
      rcases hdu with ⟨k1, k2⟩ | ⟨k1, k2⟩
      · exact Or.inl ⟨by omega, by omega, by omega⟩
      · exact Or.inr ⟨by omega, fun q => by omega⟩
    · refine hc.bottom.advanceTo (FiredIn_step h4 _) dd (by omega) ?_
      rcases hdd with ⟨k1, k2⟩ | ⟨k1, k2⟩
      · exact Or.inl ⟨by omega, by omega, by omega⟩
      · exact Or.inr ⟨by omega, fun q => by omega⟩
    · refine hc.left.advanceTo (FiredIn_step h4 _) dl (by omega) ?_
      rcases hdl with ⟨k1, k2⟩ | ⟨k1, k2⟩
      · exact Or.inl ⟨by omega, by omega, by omega⟩
      · exact Or.inr ⟨by omega, fun q => by omega⟩
    · refine hc.right.advanceTo (FiredIn_step h4 _) dr (by omega) ?_
      rcases hdr with ⟨k1, k2⟩ | ⟨k1, k2⟩
      · exact Or.inl ⟨by omega, by omega, by omega⟩
      · exact Or.inr ⟨by omega, fun q => by omega⟩
    · exact ⟨fun _ => (FiredIn_step h4 _).mpr (Or.inr trivial), fun _ => rfl⟩

/-- A cell that held grains before the pass lies in the current box. -/
theorem Core.inBox {m0 m : SandpileModel} {vis : Int → Int → Bool} {ch : Bool}
    (hc : Core m0 m vis ch) {nx ny : Int} (h : 4 ≤ m0.live nx ny) : m.covers nx ny :=
  covers_of_snap hc.wf nx ny (by rw [hc.snap]; omega)

/-- The inner loop, started anywhere in a row with enough fuel, runs to the
end of the row and keeps the invariant. -/
theorem scanRow_core {m0 : SandpileModel} (h0 : WellFormed m0) :
    ∀ (fuel : Nat) (m : SandpileModel) (y x : Nat) (ch : Bool),
      Core m0 m (before (m.min_x + x) (m.min_y + y)) ch → y < m.height → x ≤ m.width →
      (m0.min_x + m0.width + 1 - (m.min_x + x)).toNat < fuel →
      ∃ m1 y1 c1, scanRow fuel m y x ch = some (m1, y1, c1) ∧
        Core m0 m1 (before (m1.min_x + m1.width) (m1.min_y + y1)) c1 ∧
        y1 < m1.height ∧ m1.min_y + y1 = m.min_y + y := by
  intro fuel
  induction fuel with
  | zero => intro m y x ch _ _ _ hf; omega
  | succ fuel ih =>
    intro m y x ch hc hy hx hf
    by_cases hxw : x < m.width
    · obtain ⟨m1, y1, x1, c1, he, hc1, hy1, hx1, hX, hY⟩ := visit_core h0 hc hy hxw
      have e1 : m1.min_x + ((x1 + 1 : Nat) : Int) = m.min_x + x + 1 := by push_cast; omega
      have t4 := hc.right.zeroOrOne
      obtain ⟨m2, y2, c2, he2, hc2, hy2, hY2⟩ := ih m1 y1 (x1 + 1) c1
        (by rw [e1, hY]; exact hc1) hy1 (by omega) (by omega)
      refine ⟨m2, y2, c2, ?_, hc2, hy2, by omega⟩
      simp only [scanRow, hxw, if_true, he, he2]
    · have hxe : x = m.width := by omega
      subst hxe
      refine ⟨m, y, ch, ?_, hc, hy, rfl⟩
      simp only [scanRow, hxw, if_false]

/-- The outer loop, started at the beginning of any row with enough fuel, runs
to the end of the array; afterwards every cell has been visited. -/
theorem scanRows_core {m0 : SandpileModel} (h0 : WellFormed m0) (rowFuel : Nat)
    (hrf : m0.width + 2 < rowFuel) :
    ∀ (fuel : Nat) (m : SandpileModel) (y : Nat) (ch : Bool),
      Core m0 m (beforeRow (m.min_y + y)) ch → y ≤ m.height →
      (m0.min_y + m0.height + 1 - (m.min_y + y)).toNat < fuel →
      ∃ m1 c1, scanRows rowFuel fuel m y ch = some (m1, c1) ∧
        Core m0 m1 (fun _ _ => true) c1 := by
  intro fuel
  induction fuel with
  | zero => intro m y ch _ _ hf; omega
  | succ fuel ih =>
    intro m y ch hc hy hf
    by_cases hyh : y < m.height
    · have hc0 : Core m0 m (before (m.min_x + ((0 : Nat) : Int)) (m.min_y + y)) ch := by
        refine hc.revisit (fun nx ny hn => ?_)
        obtain ⟨k1, _, _, _⟩ := hc.inBox hn
        simp only [beforeRow, before, decide_eq_decide]
        omega
      have t3 := hc.left.zeroOrOne
      have t2 := hc.bottom.zeroOrOne
      obtain ⟨m1, y1, c1, he, hc1, hy1, hY⟩ := scanRow_core h0 rowFuel m y 0 ch hc0 hyh
        (Nat.zero_le _) (by omega)
      have hc2 : Core m0 m1 (beforeRow (m1.min_y + ((y1 + 1 : Nat) : Int))) c1 := by
        refine hc1.revisit (fun nx ny hn => ?_)
        obtain ⟨_, k2, _, _⟩ := hc1.inBox hn
        simp only [beforeRow, before, decide_eq_decide]
        push_cast
        omega
      obtain ⟨m2, c2, he2, hc3⟩ := ih m1 (y1 + 1) c1 hc2 (by omega) (by push_cast; omega)
      refine ⟨m2, c2, ?_, hc3⟩
      simp only [scanRows, hyh, if_true, he, he2]
    · refine ⟨m, ch, ?_, ?_⟩
      · simp only [scanRows, hyh, if_false]
      · refine hc.revisit (fun nx ny hn => ?_)
        obtain ⟨_, _, _, k4⟩ := hc.inBox hn
        simp only [beforeRow, decide_eq_true_eq]
        omega

theorem wellFormed_snapshot {m : SandpileModel} (hm : WellFormed m) :
    WellFormed (snapshot m) := by
  have ht := snapshot_temp hm
  obtain ⟨h1, h2, hg, _, hty⟩ := hm
  refine ⟨h1, h2, hg, ?_, hty⟩
  rw [ht]; exact hg

theorem midValue_none (L0 : Int → Int → Nat) (hL : ∀ a b, L0 a b < U64) (cx cy : Int) :
    midValue L0 (fun _ _ => false) cx cy = L0 cx cy := by
  simp only [midValue, base, contrib, Bool.false_eq_true, if_false, Nat.add_zero]
  exact Nat.mod_eq_of_lt (hL cx cy)

/-- The invariant holds when the scan starts. -/
theorem core_start {m : SandpileModel} (hm : WellFormed m) :
    Core m (snapshot m) (beforeRow ((snapshot m).min_y + ((0 : Nat) : Int))) false := by
  have hv : ∀ nx ny, 4 ≤ m.live nx ny →
      (fun _ _ => false) nx ny = beforeRow ((snapshot m).min_y + ((0 : Nat) : Int)) nx ny := by
    intro nx ny hn
    obtain ⟨_, _, k3, _⟩ := covers_of_live hm nx ny (by omega)
    have : (snapshot m).min_y = m.min_y := rfl
    simp only [beforeRow, this]
    symm
    simp only [decide_eq_false_iff_not]
    push_cast
    omega
  have hnone : ∀ P, ¬ FiredIn m.live (fun _ _ => false) P := by
    rintro P ⟨nx, ny, a, _, _⟩
    simp at a
  refine @Core.revisit _ _ (fun _ _ => false) _ _ ?_ hv
  refine ⟨wellFormed_snapshot hm, fun cx cy => ?_, fun cx cy => ?_, ?_, ?_, ?_, ?_, ?_, ?_,
    ?_, rfl⟩
  · simp only [SandpileModel.snap, snapshot_temp hm]; rfl
  · rw [midValue_none m.live (fun a b => cellAt_lt hm.2.2.2.2 _ _ a b)]; rfl
  · exact Or.inl ⟨by simp [snapshot], hnone _⟩
  · exact Or.inl ⟨by simp [snapshot], hnone _⟩
  · exact Or.inl ⟨by simp [snapshot], hnone _⟩
  · exact Or.inl ⟨by simp [snapshot], hnone _⟩
  · simp [snapshot]
  · simp [snapshot]
  · exact ⟨fun h => by simp at h, fun h => absurd h (hnone _)⟩

/-- The method `iterate` returns on every well-formed grid, and its result is
described by the invariant with every cell visited. -/
theorem iterate_core {m : SandpileModel} (hm : WellFormed m) :
    ∃ m1 ch, iterate m = some (ch, { m1 with iteration := m.iteration + 1 }) ∧
      Core m m1 (fun _ _ => true) ch := by
  obtain ⟨m1, ch, he, hc⟩ := scanRows_core hm (m.width + m.height + 3) (by omega)
    (m.width + m.height + 3) (snapshot m) 0 false (core_start hm) (Nat.zero_le _)
    (by have : (snapshot m).min_y = m.min_y := rfl
        rw [this]; push_cast; omega)
  refine ⟨m1, ch, ?_, hc⟩
  simp only [iterate, iterateFuel, he, hc.iteration]

/-! ## Consequences of the invariant -/

theorem live_iteration (m1 : SandpileModel) (n : Nat) (cx cy : Int) :
    ({ m1 with iteration := n } : SandpileModel).live cx cy = m1.live cx cy := rfl

theorem stable_iff_not_unstable (g : Grid) : Stable g ↔ ¬ Unstable g := by
  unfold Stable Unstable
  constructor
  · rintro h ⟨row, hr, v, hv, h4⟩
    have := h row hr v hv; omega
  · intro h row hr v hv
    by_contra hc
    exact h ⟨row, hr, v, hv, by omega⟩

theorem cellAt_mem (g : Grid) (ox oy cx cy : Int) (h : cellAt g ox oy cx cy ≠ 0) :
    ∃ row ∈ g, cellAt g ox oy cx cy ∈ row := by
  unfold cellAt at h ⊢
  split at h
  · rename_i hin
    rw [if_pos hin]
    cases hr : readCell g (cy - oy).toNat (cx - ox).toNat with
    | none => rw [hr] at h; exact absurd rfl h
    | some v =>
      obtain ⟨row, h1, h2⟩ := readCell_lt hr
      exact ⟨row, List.getElem?_mem h1, List.getElem?_mem h2⟩
  · exact absurd rfl h

theorem mem_cellAt {g : Grid} {h w : Nat} (hs : Shaped g h w) (ox oy : Int) {row : List Nat}
    {v : Nat} (hr : row ∈ g) (hv : v ∈ row) :
    ∃ y x : Nat, y < h ∧ x < w ∧ cellAt g ox oy (ox + x) (oy + y) = v := by
  obtain ⟨y, hy⟩ := List.mem_iff_getElem?.mp hr
  obtain ⟨x, hx⟩ := List.mem_iff_getElem?.mp hv
  obtain ⟨hy1, hy2⟩ := List.getElem?_eq_some_iff.mp hy
  obtain ⟨hx1, hx2⟩ := List.getElem?_eq_some_iff.mp hx
  have hyh : y < h := by rw [← hs.1]; exact hy1
  have hxw : x < w := by rw [← hs.2 row hr]; exact hx1
  refine ⟨y, x, hyh, hxw, ?_⟩
  have h1 := cellAt_inside hs ox oy y x hyh hxw
  have h2 : readCell g y x = some v := by simp [readCell, hy, hx]
  rw [h2] at h1
  exact (Option.some.inj h1).symm

theorem unstable_iff_live {m : SandpileModel} (hm : WellFormed m) :
    Unstable m.grid ↔ ∃ nx ny, 4 ≤ m.live nx ny := by
  constructor
  · rintro ⟨row, hr, v, hv, h4⟩
    obtain ⟨y, x, _, _, he⟩ := mem_cellAt hm.2.2.1 m.min_x m.min_y hr hv
    exact ⟨m.min_x + x, m.min_y + y, by unfold SandpileModel.live; omega⟩
  · rintro ⟨nx, ny, h4⟩
    obtain ⟨row, hr, hv⟩ := cellAt_mem m.grid m.min_x m.min_y nx ny
      (by unfold SandpileModel.live at h4; omega)
    exact ⟨row, hr, _, hv, h4⟩

theorem firedIn_all (L0 : Int → Int → Nat) (P : Int → Int → Prop) :
    FiredIn L0 (fun _ _ => true) P ↔ ∃ nx ny, 4 ≤ L0 nx ny ∧ P nx ny := by
  unfold FiredIn
  simp

/-- Two arrays of the same shape that agree at every logical coordinate are equal. -/
theorem grid_ext {g1 g2 : Grid} {h w : Nat} (h1 : Shaped g1 h w) (h2 : Shaped g2 h w)
    (ox oy : Int) (he : ∀ cx cy, cellAt g1 ox oy cx cy = cellAt g2 ox oy cx cy) : g1 = g2 := by
  apply List.ext_getElem (by rw [h1.1, h2.1])
  intro y hy1 hy2
  have hr1 : (g1[y]).length = w := h1.2 _ (List.getElem_mem _)
  have hr2 : (g2[y]).length = w := h2.2 _ (List.getElem_mem _)
  apply List.ext_getElem (by rw [hr1, hr2])
  intro x hx1 hx2
  have hyh : y < h := by rw [← h1.1]; exact hy1
  have hxw : x < w := by rw [← hr1]; exact hx1
  have a1 := cellAt_inside h1 ox oy y x hyh hxw
  have a2 := cellAt_inside h2 ox oy y x hyh hxw
  have b1 : readCell g1 y x = some ((g1[y])[x]) := by
    simp [readCell, List.getElem?_eq_getElem hy1, List.getElem?_eq_getElem hx1]
  have b2 : readCell g2 y x = some ((g2[y])[x]) := by
    simp [readCell, List.getElem?_eq_getElem hy2, List.getElem?_eq_getElem hx2]
  rw [b1] at a1
  rw [b2] at a2
  rw [Option.some.inj a1, Option.some.inj a2, he]

theorem midValue_all (L0 : Int → Int → Nat) (cx cy : Int) :
    midValue L0 (fun _ _ => true) cx cy =
      (L0 cx cy % 4 + L0 cx (cy - 1) / 4 + L0 cx (cy + 1) / 4 + L0 (cx - 1) cy / 4
        + L0 (cx + 1) cy / 4) % U64 := by
  simp [midValue, base, contrib]

/-- A pass over a stable grid changes nothing but the snapshot and the counter. -/
theorem iterate_stable {m : SandpileModel} (hm : WellFormed m) (hs : Stable m.grid) :
    iterate m = some (false, { m with iteration := m.iteration + 1, temp_grid := m.grid }) := by
  obtain ⟨m1, ch, he, hc⟩ := iterate_core hm
  have hno : ¬ ∃ nx ny, 4 ≤ m.live nx ny := by
    rw [← unstable_iff_live hm]; exact (stable_iff_not_unstable _).mp hs
  have hnoF : ∀ P, ¬ FiredIn m.live (fun _ _ => true) P := by
    rintro P ⟨nx, ny, _, h4, _⟩
    exact hno ⟨nx, ny, h4⟩
  have hlt : ∀ a b, m.live a b < 4 := by
    intro a b
    by_contra hcon
    exact hno ⟨a, b, by omega⟩
  have hch : ch = false := by
    cases ch with
    | false => rfl
    | true => exact absurd (hc.changed.mp rfl) (hnoF _)
  have e1 := (hc.top.resolve_right (fun h => hnoF _ h.2)).1
  have e2 := (hc.bottom.resolve_right (fun h => hnoF _ h.2)).1
  have e3 := (hc.left.resolve_right (fun h => hnoF _ h.2)).1
  have e4 := (hc.right.resolve_right (fun h => hnoF _ h.2)).1
  have e5 := hc.max_x
  have e6 := hc.max_y
  have e7 := hc.iteration
  have hminx : m1.min_x = m.min_x := by omega
  have hminy : m1.min_y = m.min_y := by omega
  have hw : m1.width = m.width := by omega
  have hh : m1.height = m.height := by omega
  have hmaxx : m1.max_x = m.max_x := by omega
  have hmaxy : m1.max_y = m.max_y := by omega
  have hg : m1.grid = m.grid := by
    refine grid_ext (hh ▸ hw ▸ hc.wf.2.2.1) hm.2.2.1 m.min_x m.min_y (fun cx cy => ?_)
    have h1 := hc.live cx cy
    rw [midValue_all] at h1
    unfold SandpileModel.live at h1
    rw [hminx, hminy] at h1
    rw [h1]
    have a0 := hlt cx cy
    have a1 := hlt cx (cy - 1)
    have a2 := hlt cx (cy + 1)
    have a3 := hlt (cx - 1) cy
    have a4 := hlt (cx + 1) cy
    unfold SandpileModel.live at a0 a1 a2 a3 a4
    simp only [U64]
    omega
  have ht : m1.temp_grid = m.grid := by
    refine grid_ext (hh ▸ hw ▸ hc.wf.2.2.2.1) hm.2.2.1 m.min_x m.min_y (fun cx cy => ?_)
    have h1 := hc.snap cx cy
    unfold SandpileModel.snap SandpileModel.live at h1
    rw [hminx, hminy] at h1
    exact h1
  rw [he, hch]
  obtain ⟨it, g, t, a, b, c, d, w, h⟩ := m1
  simp only at hg ht hminx hminy hw hh hmaxx hmaxy
  subst hg ht hminx hminy hw hh hmaxx hmaxy
  rfl

theorem wellFormed_after_stable {m : SandpileModel} (hm : WellFormed m) (n : Nat) :
    WellFormed { m with iteration := n, temp_grid := m.grid } :=
  ⟨hm.1, hm.2.1, hm.2.2.1, hm.2.2.1, hm.2.2.2.2⟩

theorem moved_keeps {m m1 : SandpileModel} (hm : WellFormed m) {dl dr du dd : Nat}
    (hmv : Moved m m1 m.live dl dr du dd) :
    KeepsCells m m1 dl du ∧ BothShaped m1 ∧
    (∀ iy ix, iy < m1.height → ix < m1.width →
      ¬ m.covers (m1.min_x + ix) (m1.min_y + iy) →
      readCell m1.grid iy ix = some 0 ∧ readCell m1.temp_grid iy ix = some 0) := by
  have a := hmv.min_x; have b := hmv.min_y; have c := hmv.width; have d := hmv.height
  have r1 : ∀ iy ix, iy < m1.height → ix < m1.width →
      readCell m1.grid iy ix = some (m.live (m1.min_x + ix) (m1.min_y + iy)) := by
    intro iy ix hy hx
    rw [cellAt_inside hmv.wf.2.2.1 m1.min_x m1.min_y iy ix hy hx]
    exact congrArg some (hmv.live _ _)
  have r2 : ∀ iy ix, iy < m1.height → ix < m1.width →
      readCell m1.temp_grid iy ix = some (m.snap (m1.min_x + ix) (m1.min_y + iy)) := by
    intro iy ix hy hx
    rw [cellAt_inside hmv.wf.2.2.2.1 m1.min_x m1.min_y iy ix hy hx]
    exact congrArg some (hmv.snap _ _)
  refine ⟨⟨a, b, fun iy ix hy hx => ⟨⟨_, cellAt_inside hm.2.2.1 m.min_x m.min_y iy ix hy hx, ?_⟩,
    ⟨_, cellAt_inside hm.2.2.2.1 m.min_x m.min_y iy ix hy hx, ?_⟩⟩⟩,
    ⟨hmv.wf.2.2.1, hmv.wf.2.2.2.1⟩, fun iy ix hy hx hout => ⟨?_, ?_⟩⟩
  · rw [r1 _ _ (by omega) (by omega)]
    have e1 : m1.min_x + ((ix + dl : Nat) : Int) = m.min_x + ix := by push_cast; omega
    have e2 : m1.min_y + ((iy + du : Nat) : Int) = m.min_y + iy := by push_cast; omega
    rw [e1, e2]; rfl
  · rw [r2 _ _ (by omega) (by omega)]
    have e1 : m1.min_x + ((ix + dl : Nat) : Int) = m.min_x + ix := by push_cast; omega
    have e2 : m1.min_y + ((iy + du : Nat) : Int) = m.min_y + iy := by push_cast; omega
    rw [e1, e2]; rfl
  · rw [r1 _ _ hy hx]
    exact congrArg some (cellAt_outside hm.2.2.1 _ _ _ _ hout)
  · rw [r2 _ _ hy hx]
    exact congrArg some (cellAt_outside hm.2.2.2.1 _ _ _ _ hout)

/-! ## Totals -/

theorem sum_getD (l : List Nat) : l.sum = ∑ i ∈ Finset.range l.length, l.getD i 0 := by
  induction l with
  | nil => simp
  | cons a t ih =>
    rw [List.sum_cons, List.length_cons, Finset.sum_range_succ', ih]
    simp [Nat.add_comm]

theorem sum_Ico_int (f : Int → Nat) (a : Int) (n : Nat) :
    ∑ x ∈ Finset.Ico a (a + n), f x = ∑ i ∈ Finset.range n, f (a + i) := by
  induction n with
  | zero => simp
  | succ n ih =>
    have h : Finset.Ico a (a + ((n + 1 : Nat) : Int)) = insert (a + n) (Finset.Ico a (a + n)) := by
      ext x
      simp only [Finset.mem_Ico, Finset.mem_insert]
      push_cast
      omega
    rw [h, Finset.sum_insert (by simp), Finset.sum_range_succ, ih, Nat.add_comm]

theorem finsum_add5 {ι : Type} (a b c d e : ι → Nat)
    (ha : (Function.support a).Finite) (hb : (Function.support b).Finite)
    (hc : (Function.support c).Finite) (hd : (Function.support d).Finite)
    (he : (Function.support e).Finite) :
    ∑ᶠ i, (a i + b i + c i + d i + e i) =
      (∑ᶠ i, a i) + (∑ᶠ i, b i) + (∑ᶠ i, c i) + (∑ᶠ i, d i) + (∑ᶠ i, e i) := by
  have hab : (Function.support (fun i => a i + b i)).Finite :=
    (ha.union hb).subset (Function.support_add a b)
  have habc : (Function.support (fun i => a i + b i + c i)).Finite :=
    (hab.union hc).subset (Function.support_add _ c)
  have habcd : (Function.support (fun i => a i + b i + c i + d i)).Finite :=
    (habc.union hd).subset (Function.support_add _ d)
  rw [finsum_add_distrib habcd he, finsum_add_distrib habc hd, finsum_add_distrib hab hc,
    finsum_add_distrib ha hb]

theorem finsum_shift (q : Int × Int → Nat) (dx dy : Int) :
    ∑ᶠ p : Int × Int, q (p.1 + dx, p.2 + dy) = ∑ᶠ p, q p :=
  finsum_comp_equiv (shift dx dy)

theorem support_shift_finite (q : Int × Int → Nat) (hq : (Function.support q).Finite)
    (dx dy : Int) : (Function.support (fun p : Int × Int => q (p.1 + dx, p.2 + dy))).Finite := by
  have : Function.support (fun p : Int × Int => q (p.1 + dx, p.2 + dy))
      = Set.preimage (shift dx dy) (Function.support q) := rfl
  rw [this]
  exact hq.preimage ((shift dx dy).injective.injOn)

/-- Redistribution keeps the total: summing, over the whole lattice, what each
cell keeps and what its four neighbours send gives the old total. -/
theorem jacobi_total (L : Int → Int → Nat)
    (hfin : (Function.support (fun p : Int × Int => L p.1 p.2)).Finite) :
    ∑ᶠ p : Int × Int, (L p.1 p.2 % 4 + L p.1 (p.2 - 1) / 4 + L p.1 (p.2 + 1) / 4
      + L (p.1 - 1) p.2 / 4 + L (p.1 + 1) p.2 / 4) = ∑ᶠ p : Int × Int, L p.1 p.2 := by
  have hq : (Function.support (fun p : Int × Int => L p.1 p.2 / 4)).Finite := by
    refine hfin.subset (fun p hp => ?_)
    simp only [Function.mem_support] at hp ⊢
    omega
  have hr : (Function.support (fun p : Int × Int => L p.1 p.2 % 4)).Finite := by
    refine hfin.subset (fun p hp => ?_)
    simp only [Function.mem_support] at hp ⊢
    omega
  have s1 := support_shift_finite _ hq 0 (-1)
  have s2 := support_shift_finite _ hq 0 1
  have s3 := support_shift_finite _ hq (-1) 0
  have s4 := support_shift_finite _ hq 1 0
  have f1 := finsum_shift (fun p : Int × Int => L p.1 p.2 / 4) 0 (-1)
  have f2 := finsum_shift (fun p : Int × Int => L p.1 p.2 / 4) 0 1
  have f3 := finsum_shift (fun p : Int × Int => L p.1 p.2 / 4) (-1) 0
  have f4 := finsum_shift (fun p : Int × Int => L p.1 p.2 / 4) 1 0
  simp only [add_zero, ← sub_eq_add_neg] at s1 s2 s3 s4 f1 f2 f3 f4
  rw [finsum_add5 _ _ _ _ _ hr s1 s2 s3 s4, f1, f2, f3, f4,
    ← finsum_add5 _ _ _ _ _ hr hq hq hq hq]
  congr 1
  funext p
  omega

theorem sumGrid_eq_box {g : Grid} {h w : Nat} (hs : Shaped g h w) (ox oy : Int) :
    sumGrid g = ∑ p ∈ Finset.Ico ox (ox + w) ×ˢ Finset.Ico oy (oy + h),
      cellAt g ox oy p.1 p.2 := by
  rw [Finset.sum_product_right, sum_Ico_int]
  simp only [sum_Ico_int]
  unfold sumGrid
  rw [sum_getD, List.length_map, hs.1]
  refine Finset.sum_congr rfl (fun j hj => ?_)
  have hj1 : j < g.length := by rw [hs.1]; exact Finset.mem_range.mp hj
  have hrow : (g[j]).length = w := hs.2 _ (List.getElem_mem _)
  have e1 : (g.map List.sum).getD j 0 = (g[j]).sum := by
    simp [List.getD, List.getElem?_eq_getElem hj1]
  rw [e1, sum_getD, hrow]
  refine Finset.sum_congr rfl (fun i hi => ?_)
  have hi1 : i < (g[j]).length := by rw [hrow]; exact Finset.mem_range.mp hi
  have a1 := cellAt_inside hs ox oy j i (by rw [← hs.1]; exact hj1) (Finset.mem_range.mp hi)
  have b1 : readCell g j i = some ((g[j])[i]) := by
    simp [readCell, List.getElem?_eq_getElem hj1, List.getElem?_eq_getElem hi1]
  rw [b1] at a1
  rw [← Option.some.inj a1]
  simp [List.getD, List.getElem?_eq_getElem hi1]

theorem support_cellAt {g : Grid} {h w : Nat} (hs : Shaped g h w) (ox oy : Int) :
    Function.support (fun p : Int × Int => cellAt g ox oy p.1 p.2) ⊆
      ↑(Finset.Ico ox (ox + w) ×ˢ Finset.Ico oy (oy + h)) := by
  intro p hp
  simp only [Function.mem_support] at hp
  simp only [Finset.coe_product, Finset.coe_Ico, Set.mem_prod, Set.mem_Ico]
  by_contra hc
  exact hp (cellAt_outside hs ox oy p.1 p.2 (by omega))

theorem live_support_finite {m : SandpileModel} (hm : WellFormed m) :
    (Function.support (fun p : Int × Int => m.live p.1 p.2)).Finite :=
  (Finset.finite_toSet _).subset (support_cellAt hm.2.2.1 m.min_x m.min_y)

theorem sumGrid_eq_finsum {m : SandpileModel} (hm : WellFormed m) :
    sumGrid m.grid = ∑ᶠ p : Int × Int, m.live p.1 p.2 := by
  rw [sumGrid_eq_box hm.2.2.1 m.min_x m.min_y]
  exact (finsum_eq_sum_of_support_subset _ (support_cellAt hm.2.2.1 m.min_x m.min_y)).symm

/-- A cell and its four neighbours together hold at most the total. -/
theorem cross_le_total (L : Int → Int → Nat)
    (hfin : (Function.support (fun p : Int × Int => L p.1 p.2)).Finite) (cx cy : Int) :
    L cx cy + L cx (cy - 1) + L cx (cy + 1) + L (cx - 1) cy + L (cx + 1) cy
      ≤ ∑ᶠ p : Int × Int, L p.1 p.2 := by
  let P : Finset (Int × Int) :=
    {(cx, cy), (cx, cy - 1), (cx, cy + 1), (cx - 1, cy), (cx + 1, cy)}
  have hsub : Function.support (fun p : Int × Int => L p.1 p.2) ⊆ ↑(hfin.toFinset ∪ P) := by
    intro p hp
    simp only [Finset.coe_union, Set.mem_union, Finset.mem_coe, Set.Finite.mem_toFinset]
    exact Or.inl hp
  rw [finsum_eq_sum_of_support_subset _ hsub]
  have hP : ∑ p ∈ P, L p.1 p.2
      = L cx cy + L cx (cy - 1) + L cx (cy + 1) + L (cx - 1) cy + L (cx + 1) cy := by
    simp only [P]
    rw [Finset.sum_insert, Finset.sum_insert, Finset.sum_insert, Finset.sum_insert,
      Finset.sum_singleton]
    · ring
    all_goals (simp <;> omega)
  rw [← hP]
  exact Finset.sum_le_sum_of_subset Finset.subset_union_right

/-- The closed form of a pass: on a well-formed grid `iterate` returns, and
every cell of the result is the simultaneous update of the old array, modulo
`2^64`. -/
theorem iterate_jacobi_mod {m : SandpileModel} (hm : WellFormed m) :
    ∃ ch m1, iterate m = some (ch, m1) ∧ WellFormed m1 ∧
      ∀ cx cy, m1.live cx cy =
        (m.live cx cy % 4 + m.live cx (cy - 1) / 4 + m.live cx (cy + 1) / 4
          + m.live (cx - 1) cy / 4 + m.live (cx + 1) cy / 4) % U64 := by
  obtain ⟨m1, ch, he, hc⟩ := iterate_core hm
  refine ⟨ch, _, he, hc.wf, fun cx cy => ?_⟩
  rw [live_iteration, hc.live, midValue_all]

/-- With fewer than `2^64` grains in total no addition of the pass wraps:
every cell of the result is the simultaneous update of the old array. -/
theorem iterate_jacobi {m : SandpileModel} (hm : WellFormed m) (ht : sumGrid m.grid < U64) :
    ∃ ch m1, iterate m = some (ch, m1) ∧ WellFormed m1 ∧
      ∀ cx cy, m1.live cx cy =
        m.live cx cy % 4 + m.live cx (cy - 1) / 4 + m.live cx (cy + 1) / 4
          + m.live (cx - 1) cy / 4 + m.live (cx + 1) cy / 4 := by
  obtain ⟨ch, m1, he, hw, hl⟩ := iterate_jacobi_mod hm
  refine ⟨ch, m1, he, hw, fun cx cy => ?_⟩
  rw [hl]
  apply Nat.mod_eq_of_lt
  have h1 := cross_le_total m.live (live_support_finite hm) cx cy
  rw [← sumGrid_eq_finsum hm] at h1
  omega

/-- The pass returns `true` exactly on an unstable grid. -/
theorem iterate_changed {m : SandpileModel} (hm : WellFormed m) :
    ∃ ch m1, iterate m = some (ch, m1) ∧ (ch = true ↔ Unstable m.grid) := by
  obtain ⟨m1, ch, he, hc⟩ := iterate_core hm
  refine ⟨ch, _, he, ?_⟩
  rw [hc.changed, firedIn_all, unstable_iff_live hm]
  simp

/-! ## A single seeded cell -/

theorem init_single (x0 y0 : Int) (g : Nat) (hx : -32768 ≤ x0 ∧ x0 ≤ 32767)
    (hy : -32768 ≤ y0 ∧ y0 ≤ 32767) :
    initializeModel construct [⟨x0, y0, g⟩] = some (seedOf x0 y0 g) := by
  have h1 : x0 < INT64_MAX := by unfold INT64_MAX; omega
  have h2 : x0 > INT64_MIN := by unfold INT64_MIN; omega
  have h3 : y0 < INT64_MAX := by unfold INT64_MAX; omega
  have h4 : y0 > INT64_MIN := by unfold INT64_MIN; omega
  simp [initializeModel, construct, updateBounds, h1, h2, h3, h4, toSizeT, allocate_grids,
    placeCells, placeCell, writeCell, zeros, seedOf]

theorem topple_single (x0 y0 : Int) (g n : Nat) (hg : g < U64) :
    topple (SandpileModel.mk n [[g]] [[g]] x0 x0 y0 y0 1 1) 0 0 g
      = some (SandpileModel.mk n [[0, g / 4, 0], [g / 4, g % 4, g / 4], [0, g / 4, 0]]
          [[0, 0, 0], [0, g, 0], [0, 0, 0]] (x0 - 1) (x0 + 1) (y0 - 1) (y0 + 1) 3 3, 1, 1) := by
  have e1 : (g + U64 - g / 4 * 4 % U64) % U64 = g % 4 := by
    unfold U64 at *; omega
  have e2 : (g / 4) % U64 = g / 4 := by unfold U64 at *; omega
  have s0 : subCell [[g]] 0 0 (g / 4 * 4) = some [[g % 4]] := by
    simp [subCell, readCell, writeCell, e1]
  simp only [topple, s0]
  have s1 : spillUp (SandpileModel.mk n [[g % 4]] [[g]] x0 x0 y0 y0 1 1) 0 0 (g / 4)
      = some (SandpileModel.mk n [[g / 4], [g % 4]] [[0], [g]] x0 x0 (y0 - 1) y0 1 2, 1) := by
    simp [spillUp, expand_grid_up, addCell, readCell, writeCell, zeros, e2]
  simp only [s1]
  have s2 : spillDown (SandpileModel.mk n [[g / 4], [g % 4]] [[0], [g]] x0 x0 (y0 - 1) y0 1 2)
        1 0 (g / 4)
      = some (SandpileModel.mk n [[g / 4], [g % 4], [g / 4]] [[0], [g], [0]] x0 x0 (y0 - 1)
          (y0 + 1) 1 3) := by
    simp [spillDown, expand_grid_down, addCell, readCell, writeCell, zeros, e2]
  simp only [s2]
  have s3 : spillLeft (SandpileModel.mk n [[g / 4], [g % 4], [g / 4]] [[0], [g], [0]] x0 x0
        (y0 - 1) (y0 + 1) 1 3) 1 0 (g / 4)
      = some (SandpileModel.mk n [[0, g / 4], [g / 4, g % 4], [0, g / 4]]
          [[0, 0], [0, g], [0, 0]] (x0 - 1) x0 (y0 - 1) (y0 + 1) 2 3, 1) := by
    simp [spillLeft, expand_grid_left, addCell, readCell, writeCell, zeros, memcpy, e2]
  simp only [s3]
  have s4 : spillRight (SandpileModel.mk n [[0, g / 4], [g / 4, g % 4], [0, g / 4]]
        [[0, 0], [0, g], [0, 0]] (x0 - 1) x0 (y0 - 1) (y0 + 1) 2 3) 1 1 (g / 4)
      = some (SandpileModel.mk n [[0, g / 4, 0], [g / 4, g % 4, g / 4], [0, g / 4, 0]]
          [[0, 0, 0], [0, g, 0], [0, 0, 0]] (x0 - 1) (x0 + 1) (y0 - 1) (y0 + 1) 3 3) := by
    simp [spillRight, expand_grid_right, addCell, readCell, writeCell, zeros, memcpy, e2]
  simp only [s4]

theorem iterate_single_fire (x0 y0 : Int) (g : Nat) (hg : g < U64) (h4 : 4 ≤ g) :
    iterate (seedOf x0 y0 g) = some (true, crossOf x0 y0 g) := by
  have hs : snapshot (seedOf x0 y0 g) = SandpileModel.mk 0 [[g]] [[g]] x0 x0 y0 y0 1 1 := by
    simp [snapshot, seedOf, memcpy]
  have hv : visit (SandpileModel.mk 0 [[g]] [[g]] x0 x0 y0 y0 1 1) 0 0 false
      = some (SandpileModel.mk 0 [[0, g / 4, 0], [g / 4, g % 4, g / 4], [0, g / 4, 0]]
          [[0, 0, 0], [0, g, 0], [0, 0, 0]] (x0 - 1) (x0 + 1) (y0 - 1) (y0 + 1) 3 3,
          1, 1, true) := by
    simp [visit, readCell, h4, topple_single x0 y0 g 0 hg]
  have hz : ∀ (y x : Nat) (ch : Bool), 1 ≤ y → y * 3 + x ≠ 4 →  y < 3 → x < 3 →
      visit (SandpileModel.mk 0 [[0, g / 4, 0], [g / 4, g % 4, g / 4], [0, g / 4, 0]]
          [[0, 0, 0], [0, g, 0], [0, 0, 0]] (x0 - 1) (x0 + 1) (y0 - 1) (y0 + 1) 3 3) y x ch
      = some (SandpileModel.mk 0 [[0, g / 4, 0], [g / 4, g % 4, g / 4], [0, g / 4, 0]]
          [[0, 0, 0], [0, g, 0], [0, 0, 0]] (x0 - 1) (x0 + 1) (y0 - 1) (y0 + 1) 3 3,
          y, x, ch) := by
    intro y x ch h1 h2 h3 h5
    have : (y = 1 ∧ x = 0) ∨ (y = 1 ∧ x = 2) ∨ (y = 2 ∧ x = 0) ∨ (y = 2 ∧ x = 1) ∨
        (y = 2 ∧ x = 2) := by omega
    rcases this with ⟨rfl, rfl⟩ | ⟨rfl, rfl⟩ | ⟨rfl, rfl⟩ | ⟨rfl, rfl⟩ | ⟨rfl, rfl⟩ <;>
      simp [visit, readCell]
  have f : (seedOf x0 y0 g).width + (seedOf x0 y0 g).height + 3 = 5 := rfl
  simp only [iterate, iterateFuel, f, hs]
  simp only [scanRows, scanRow, Nat.lt_irrefl, if_true, if_false, hv, Nat.reduceAdd,
    Nat.reduceLT, hz 1 2 true (by omega) (by omega) (by omega) (by omega),
    hz 2 0 true (by omega) (by omega) (by omega) (by omega),
    hz 2 1 true (by omega) (by omega) (by omega) (by omega),
    hz 2 2 true (by omega) (by omega) (by omega) (by omega)]
  rfl

theorem crossOf_live (x0 y0 : Int) (g : Nat) :
    (crossOf x0 y0 g).live x0 y0 = g % 4 ∧
    (crossOf x0 y0 g).live x0 (y0 - 1) = g / 4 ∧
    (crossOf x0 y0 g).live x0 (y0 + 1) = g / 4 ∧
    (crossOf x0 y0 g).live (x0 - 1) y0 = g / 4 ∧
    (crossOf x0 y0 g).live (x0 + 1) y0 = g / 4 ∧
    (crossOf x0 y0 g).live (x0 - 1) (y0 - 1) = 0 ∧
    (crossOf x0 y0 g).live (x0 + 1) (y0 - 1) = 0 ∧
    (crossOf x0 y0 g).live (x0 - 1) (y0 + 1) = 0 ∧
    (crossOf x0 y0 g).live (x0 + 1) (y0 + 1) = 0 := by
  have a0 : (x0 - (x0 - 1)).toNat = 1 := by omega
  have a1 : (x0 - 1 - (x0 - 1)).toNat = 0 := by omega
  have a2 : (x0 + 1 - (x0 - 1)).toNat = 2 := by omega
  have b0 : (y0 - (y0 - 1)).toNat = 1 := by omega
  have b1 : (y0 - 1 - (y0 - 1)).toNat = 0 := by omega
  have b2 : (y0 + 1 - (y0 - 1)).toNat = 2 := by omega
  have c0 : x0 - 1 ≤ x0 := by omega
  have c2 : x0 - 1 ≤ x0 + 1 := by omega
  have d0 : y0 - 1 ≤ y0 := by omega
  have d2 : y0 - 1 ≤ y0 + 1 := by omega
  simp only [SandpileModel.live, crossOf, cellAt, a0, a1, a2, b0, b1, b2, c0, c2, d0, d2,
    le_refl, and_self, if_true, readCell]
  simp

/-! ## Initialization -/

theorem lastWrite_eq (cells : List CellData) (x y : Int) (d : Nat) :
    lastWrite cells x y d =
      match cells.reverse.find? (fun c => decide (c.x = x ∧ c.y = y)) with
      | some c => c.grains
      | none => d := by
  induction cells generalizing d with
  | nil => rfl
  | cons c rest ih =>
    rw [lastWrite, ih, List.reverse_cons, List.find?_append]
    cases hf : rest.reverse.find? (fun c => decide (c.x = x ∧ c.y = y)) with
    | some a => simp
    | none =>
      by_cases hc : c.x = x ∧ c.y = y
      · simp [List.find?, hc]
      · simp [List.find?, hc]

theorem updateBounds_fields (b : SandpileModel) (c : CellData) :
    (updateBounds b c).min_x = (if c.x < b.min_x then c.x else b.min_x) ∧
    (updateBounds b c).max_x = (if c.x > b.max_x then c.x else b.max_x) ∧
    (updateBounds b c).min_y = (if c.y < b.min_y then c.y else b.min_y) ∧
    (updateBounds b c).max_y = (if c.y > b.max_y then c.y else b.max_y) ∧
    (updateBounds b c).iteration = b.iteration := by
  by_cases h1 : c.x < b.min_x <;> by_cases h2 : c.x > b.max_x <;>
    by_cases h3 : c.y < b.min_y <;> by_cases h4 : c.y > b.max_y <;>
    simp [updateBounds, h1, h2, h3, h4]

/-- The first loop of `initialize` computes running minima and maxima. -/
theorem foldl_updateBounds (cells : List CellData) (b : SandpileModel) :
    let r := cells.foldl updateBounds b
    r.iteration = b.iteration ∧
    (r.min_x ≤ b.min_x ∧ (∀ c ∈ cells, r.min_x ≤ c.x) ∧
      (r.min_x = b.min_x ∨ ∃ c ∈ cells, c.x = r.min_x)) ∧
    (b.max_x ≤ r.max_x ∧ (∀ c ∈ cells, c.x ≤ r.max_x) ∧
      (r.max_x = b.max_x ∨ ∃ c ∈ cells, c.x = r.max_x)) ∧
    (r.min_y ≤ b.min_y ∧ (∀ c ∈ cells, r.min_y ≤ c.y) ∧
      (r.min_y = b.min_y ∨ ∃ c ∈ cells, c.y = r.min_y)) ∧
    (b.max_y ≤ r.max_y ∧ (∀ c ∈ cells, c.y ≤ r.max_y) ∧
      (r.max_y = b.max_y ∨ ∃ c ∈ cells, c.y = r.max_y)) := by
  induction cells generalizing b with
  | nil => simp
  | cons c rest ih =>
    obtain ⟨f1, f2, f3, f4, f5⟩ := updateBounds_fields b c
    obtain ⟨i0, ⟨a1, a2, a3⟩, ⟨b1, b2, b3⟩, ⟨c1, c2, c3⟩, ⟨d1, d2, d3⟩⟩ :=
      ih (updateBounds b c)
    simp only [List.foldl_cons, List.mem_cons, forall_eq_or_imp, exists_eq_or_imp]
    refine ⟨i0.trans f5, ⟨?_, ⟨?_, a2⟩, ?_⟩, ⟨?_, ⟨?_, b2⟩, ?_⟩, ⟨?_, ⟨?_, c2⟩, ?_⟩,
      ⟨?_, ⟨?_, d2⟩, ?_⟩⟩
    · rw [f1] at a1; split_ifs at a1 <;> omega
    · rw [f1] at a1; split_ifs at a1 <;> omega
    · rcases a3 with h | h
      · rw [f1] at h; split_ifs at h with hlt
        · exact Or.inr (Or.inl h.symm)
        · exact Or.inl h
      · exact Or.inr (Or.inr h)
    · rw [f2] at b1; split_ifs at b1 <;> omega
    · rw [f2] at b1; split_ifs at b1 <;> omega
    · rcases b3 with h | h
      · rw [f2] at h; split_ifs at h with hlt
        · exact Or.inr (Or.inl h.symm)
        · exact Or.inl h
      · exact Or.inr (Or.inr h)
    · rw [f3] at c1; split_ifs at c1 <;> omega
    · rw [f3] at c1; split_ifs at c1 <;> omega
    · rcases c3 with h | h
      · rw [f3] at h; split_ifs at h with hlt
        · exact Or.inr (Or.inl h.symm)
        · exact Or.inl h
      · exact Or.inr (Or.inr h)
    · rw [f4] at d1; split_ifs at d1 <;> omega
    · rw [f4] at d1; split_ifs at d1 <;> omega
    · rcases d3 with h | h
      · rw [f4] at h; split_ifs at h with hlt
        · exact Or.inr (Or.inl h.symm)
        · exact Or.inl h
      · exact Or.inr (Or.inr h)

/-- The second loop of `initialize` performs the writes in order, in bounds. -/
theorem placeCells_spec : ∀ (cells : List CellData) (m : SandpileModel),
    Shaped m.grid m.height m.width → Typed m.grid →
    (∀ c ∈ cells, c.grains < U64 ∧ m.min_x ≤ c.x ∧ c.x < m.min_x + m.width ∧
      m.min_y ≤ c.y ∧ c.y < m.min_y + m.height) →
    ∃ g, placeCells cells m = some { m with grid := g } ∧
      Shaped g m.height m.width ∧ Typed g ∧
      ∀ cx cy, cellAt g m.min_x m.min_y cx cy = lastWrite cells cx cy (m.live cx cy)
  | [], m, hs, ht, _ => ⟨m.grid, rfl, hs, ht, fun _ _ => rfl⟩
  | c :: rest, m, hs, ht, hc => by
    obtain ⟨hg, k1, k2, k3, k4⟩ := hc c (List.mem_cons_self _ _)
    obtain ⟨g1, hw⟩ := writeCell_shaped (g := m.grid) (y := (c.y - m.min_y).toNat)
      (x := (c.x - m.min_x).toNat) c.grains hs (by omega) (by omega)
    obtain ⟨g2, e2, s2, t2, l2⟩ := placeCells_spec rest { m with grid := g1 }
      (writeCell_keeps_shape hw hs) (writeCell_keeps_typed hw ht hg)
      (fun c1 h1 => hc c1 (List.mem_cons_of_mem _ h1))
    refine ⟨g2, ?_, s2, t2, fun cx cy => ?_⟩
    · have h0 : 0 ≤ c.x - m.min_x ∧ 0 ≤ c.y - m.min_y := by omega
      simp only [placeCells, placeCell, h0, and_self, if_true, hw]
      exact e2
    · rw [l2 cx cy, lastWrite]
      congr 1
      have h3 := cellAt_write hw m.min_x m.min_y cx cy
      have e1 : (cx = m.min_x + ((c.x - m.min_x).toNat : Int) ∧
          cy = m.min_y + ((c.y - m.min_y).toNat : Int)) ↔ (c.x = cx ∧ c.y = cy) := by omega
      simp only [e1] at h3
      exact h3

theorem readCell_zeros (h w y x : Nat) :
    (readCell (List.replicate h (zeros w)) y x).getD 0 = 0 := by
  unfold readCell
  cases hr : (List.replicate h (zeros w))[y]? with
  | none => rfl
  | some row =>
    have := List.eq_of_mem_replicate (List.getElem?_mem hr)
    subst this
    simp only [zeros]
    cases hv : (List.replicate w 0)[x]? with
    | none => rfl
    | some v =>
      have := List.eq_of_mem_replicate (List.getElem?_mem hv)
      subst this; rfl

theorem cellAt_zeros (h w : Nat) (ox oy cx cy : Int) :
    cellAt (List.replicate h (zeros w)) ox oy cx cy = 0 := by
  unfold cellAt
  split
  · exact readCell_zeros _ _ _ _
  · rfl

theorem shaped_zeros (h w : Nat) : Shaped (List.replicate h (zeros w)) h w := by
  refine ⟨by simp, fun row hr => ?_⟩
  have := List.eq_of_mem_replicate hr
  subst this; simp [zeros]

theorem typed_zeros (h w : Nat) : Typed (List.replicate h (zeros w)) := by
  intro row hr v hv
  have := List.eq_of_mem_replicate hr
  subst this
  have := List.eq_of_mem_replicate hv
  subst this; decide

/-- What `initialize` computes on a non-empty list of valid cells. -/
theorem initialize_spec (s : SandpileModel) (cells : List CellData) (hne : cells ≠ [])
    (hv : ∀ c ∈ cells, ValidCell c) :
    ∃ m, initializeModel s cells = some m ∧ WellFormed m ∧ m.iteration = s.iteration ∧
      (∀ c ∈ cells, m.min_x ≤ c.x ∧ c.x ≤ m.max_x ∧ m.min_y ≤ c.y ∧ c.y ≤ m.max_y) ∧
      (∃ c ∈ cells, c.x = m.min_x) ∧ (∃ c ∈ cells, c.x = m.max_x) ∧
      (∃ c ∈ cells, c.y = m.min_y) ∧ (∃ c ∈ cells, c.y = m.max_y) ∧
      (m.width : Int) = m.max_x - m.min_x + 1 ∧ (m.height : Int) = m.max_y - m.min_y + 1 ∧
      m.temp_grid = List.replicate m.height (zeros m.width) ∧
      (∀ cx cy, m.live cx cy = lastGrains cells cx cy) := by
  obtain ⟨c0, hc0⟩ := List.exists_mem_of_ne_nil cells hne
  obtain ⟨v1, v2, v3, v4, _⟩ := hv c0 hc0
  have hf := foldl_updateBounds cells
    { s with min_x := INT64_MAX, min_y := INT64_MAX, max_x := INT64_MIN, max_y := INT64_MIN }
  simp only at hf
  unfold initializeModel
  simp only
  generalize List.foldl updateBounds
    { s with min_x := INT64_MAX, min_y := INT64_MAX, max_x := INT64_MIN, max_y := INT64_MIN }
    cells = r at hf ⊢
  obtain ⟨i0, ⟨_, a2, a3⟩, ⟨_, b2, b3⟩, ⟨_, c2, c3⟩, ⟨_, d2, d3⟩⟩ := hf
  have a4 : ∃ c ∈ cells, c.x = r.min_x := by
    rcases a3 with h | h
    · have := a2 c0 hc0; rw [h] at this; unfold INT64_MAX at this; omega
    · exact h
  have b4 : ∃ c ∈ cells, c.x = r.max_x := by
    rcases b3 with h | h
    · have := b2 c0 hc0; rw [h] at this; unfold INT64_MIN at this; omega
    · exact h
  have c4 : ∃ c ∈ cells, c.y = r.min_y := by
    rcases c3 with h | h
    · have := c2 c0 hc0; rw [h] at this; unfold INT64_MAX at this; omega
    · exact h
  have d4 : ∃ c ∈ cells, c.y = r.max_y := by
    rcases d3 with h | h
    · have := d2 c0 hc0; rw [h] at this; unfold INT64_MIN at this; omega
    · exact h
  obtain ⟨ca, hca, ea⟩ := a4
  obtain ⟨cb, hcb, eb⟩ := b4
  obtain ⟨cc, hcc, ec⟩ := c4
  obtain ⟨cd, hcd, ed⟩ := d4
  have va := hv ca hca; have vb := hv cb hcb; have vc := hv cc hcc; have vd := hv cd hcd
  unfold ValidCell at va vb vc vd
  have ha0 := a2 c0 hc0; have hb0 := b2 c0 hc0; have hc1 := c2 c0 hc0; have hd0 := d2 c0 hc0
  have hw : (toSizeT (r.max_x - r.min_x + 1) : Int) = r.max_x - r.min_x + 1 := by
    unfold toSizeT; omega
  have hh : (toSizeT (r.max_y - r.min_y + 1) : Int) = r.max_y - r.min_y + 1 := by
    unfold toSizeT; omega
  generalize toSizeT (r.max_x - r.min_x + 1) = w at hw ⊢
  generalize toSizeT (r.max_y - r.min_y + 1) = h at hh ⊢
  obtain ⟨g, e, sg, tg, lg⟩ := placeCells_spec cells
    (allocate_grids { r with width := w, height := h })
    (shaped_zeros h w) (typed_zeros h w)
    (fun c hc => by
      have vcell := hv c hc
      unfold ValidCell at vcell
      have := a2 c hc; have := b2 c hc; have := c2 c hc; have := d2 c hc
      simp only [allocate_grids]
      omega)
  refine ⟨_, e, ⟨?_, ?_, sg, shaped_zeros h w, tg⟩, i0, fun c hc => ⟨a2 c hc, b2 c hc, c2 c hc,
    d2 c hc⟩, ⟨ca, hca, ea⟩, ⟨cb, hcb, eb⟩, ⟨cc, hcc, ec⟩, ⟨cd, hcd, ed⟩, hw, hh, rfl,
    fun cx cy => ?_⟩
  · show 1 ≤ h; omega
  · show 1 ≤ w; omega
  · have h1 := lg cx cy
    have h2 : (allocate_grids { r with width := w, height := h }).live cx cy = 0 :=
      cellAt_zeros _ _ _ _ _ _
    rw [h2, lastWrite_eq] at h1
    exact h1

/-! ## The box over a run -/

theorem Source.mono {cells : List CellData} {m0 : SandpileModel} {k : Nat} {cx cy : Int}
    (h : Source cells m0 k cx cy) : Source cells m0 (k + 1) cx cy := by
  rcases h with h | ⟨j, hj, m, e, hn⟩
  · exact Or.inl h
  · exact Or.inr ⟨j, by omega, m, e, hn⟩

/-- One pass keeps the grid well-formed and the box matched, never shrinks the
box, and every side that moved has a cell with grains on it afterwards. -/
theorem pass_box {m : SandpileModel} (hm : WellFormed m) (hb : BoxMatches m) :
    ∃ ch m1, iterate m = some (ch, m1) ∧ WellFormed m1 ∧ BoxMatches m1 ∧
      m1.min_x ≤ m.min_x ∧ m.max_x ≤ m1.max_x ∧ m1.min_y ≤ m.min_y ∧ m.max_y ≤ m1.max_y ∧
      (m1.min_x = m.min_x ∨ ∃ cy, m1.live m1.min_x cy ≠ 0) ∧
      (m1.max_x = m.max_x ∨ ∃ cy, m1.live m1.max_x cy ≠ 0) ∧
      (m1.min_y = m.min_y ∨ ∃ cx, m1.live cx m1.min_y ≠ 0) ∧
      (m1.max_y = m.max_y ∨ ∃ cx, m1.live cx m1.max_y ≠ 0) := by
  obtain ⟨m1, ch, he, hc⟩ := iterate_core hm
  obtain ⟨hbw, hbh⟩ := hb
  have t1 := hc.top.zeroOrOne; have t2 := hc.bottom.zeroOrOne
  have t3 := hc.left.zeroOrOne; have t4 := hc.right.zeroOrOne
  have t5 := hc.max_x; have t6 := hc.max_y
  have hlt : ∀ a b, m.live a b < U64 := fun a b => cellAt_lt hm.2.2.2.2 _ _ a b
  have hout : ∀ a b, ¬ m.covers a b → m.live a b = 0 :=
    fun a b h => cellAt_outside hm.2.2.1 _ _ _ _ h
  have key : ∀ nx ny dx dy, 4 ≤ m.live nx ny →
      m.live (nx + dx) (ny + dy) = 0 →
      m.live (nx + dx) (ny + dy - 1) / 4 + m.live (nx + dx) (ny + dy + 1) / 4
        + m.live (nx + dx - 1) (ny + dy) / 4 + m.live (nx + dx + 1) (ny + dy) / 4
        = m.live nx ny / 4 →
      m1.live (nx + dx) (ny + dy) ≠ 0 := by
    intro nx ny dx dy h4 h0 hs
    rw [hc.live, midValue_all, h0]
    have := hlt nx ny
    simp only [U64] at this ⊢
    omega
  refine ⟨ch, _, he, hc.wf, ⟨?_, ?_⟩, ?_, ?_, ?_, ?_, ?_, ?_, ?_, ?_⟩
  · show (m1.width : Int) = m1.max_x - m1.min_x + 1; omega
  · show (m1.height : Int) = m1.max_y - m1.min_y + 1; omega
  · show m1.min_x ≤ m.min_x; omega
  · show m.max_x ≤ m1.max_x; omega
  · show m1.min_y ≤ m.min_y; omega
  · show m.max_y ≤ m1.max_y; omega
  · rcases hc.left with ⟨d, _⟩ | ⟨d, nx, ny, _, h4, hx⟩
    · left; show m1.min_x = m.min_x; omega
    · right
      refine ⟨ny, ?_⟩
      have e : m1.min_x = nx + (-1) := by omega
      have e0 : ny = ny + 0 := by omega
      show m1.live m1.min_x ny ≠ 0
      rw [e, e0]
      refine key nx ny (-1) 0 h4 (hout _ _ (fun hcv => ?_)) ?_
      · have := hcv.1; omega
      · rw [hout (nx + -1) (ny + 0 - 1) (fun hcv => by have := hcv.1; omega),
          hout (nx + -1) (ny + 0 + 1) (fun hcv => by have := hcv.1; omega),
          hout (nx + -1 - 1) (ny + 0) (fun hcv => by have := hcv.1; omega)]
        have e2 : nx + -1 + 1 = nx := by omega
        have e3 : ny + 0 = ny := by omega
        rw [e2, e3]
        simp
  · rcases hc.right with ⟨d, _⟩ | ⟨d, nx, ny, _, h4, hx⟩
    · left; show m1.max_x = m.max_x; omega
    · right
      refine ⟨ny, ?_⟩
      have e : m1.max_x = nx + 1 := by omega
      have e0 : ny = ny + 0 := by omega
      show m1.live m1.max_x ny ≠ 0
      rw [e, e0]
      refine key nx ny 1 0 h4 (hout _ _ (fun hcv => ?_)) ?_
      · have := hcv.2.1; omega
      · rw [hout (nx + 1) (ny + 0 - 1) (fun hcv => by have := hcv.2.1; omega),
          hout (nx + 1) (ny + 0 + 1) (fun hcv => by have := hcv.2.1; omega),
          hout (nx + 1 + 1) (ny + 0) (fun hcv => by have := hcv.2.1; omega)]
        have e2 : nx + 1 - 1 = nx := by omega
        have e3 : ny + 0 = ny := by omega
        rw [e2, e3]
        simp
  · rcases hc.top with ⟨d, _⟩ | ⟨d, nx, ny, _, h4, hy⟩
    · left; show m1.min_y = m.min_y; omega
    · right
      refine ⟨nx, ?_⟩
      have e : m1.min_y = ny + (-1) := by omega
      have e0 : nx = nx + 0 := by omega
      show m1.live nx m1.min_y ≠ 0
      rw [e, e0]
      refine key nx ny 0 (-1) h4 (hout _ _ (fun hcv => ?_)) ?_
      · have := hcv.2.2.1; omega
      · rw [hout (nx + 0) (ny + -1 - 1) (fun hcv => by have := hcv.2.2.1; omega),
          hout (nx + 0 - 1) (ny + -1) (fun hcv => by have := hcv.2.2.1; omega),
          hout (nx + 0 + 1) (ny + -1) (fun hcv => by have := hcv.2.2.1; omega)]
        have e2 : ny + -1 + 1 = ny := by omega
        have e3 : nx + 0 = nx := by omega
        rw [e2, e3]
        simp
  · rcases hc.bottom with ⟨d, _⟩ | ⟨d, nx, ny, _, h4, hy⟩
    · left; show m1.max_y = m.max_y; omega
    · right
      refine ⟨nx, ?_⟩
      have e : m1.max_y = ny + 1 := by omega
      have e0 : nx = nx + 0 := by omega
      show m1.live nx m1.max_y ≠ 0
      rw [e, e0]
      refine key nx ny 0 1 h4 (hout _ _ (fun hcv => ?_)) ?_
      · have := hcv.2.2.2; omega
      · rw [hout (nx + 0) (ny + 1 + 1) (fun hcv => by have := hcv.2.2.2; omega),
          hout (nx + 0 - 1) (ny + 1) (fun hcv => by have := hcv.2.2.2; omega),
          hout (nx + 0 + 1) (ny + 1) (fun hcv => by have := hcv.2.2.2; omega)]
        have e2 : ny + 1 - 1 = ny := by omega
        have e3 : nx + 0 = nx := by omega
        rw [e2, e3]
        simp

theorem inBox_of_live {m : SandpileModel} (hm : WellFormed m) (hb : BoxMatches m)
    (cx cy : Int) (h : m.live cx cy ≠ 0) :
    m.min_x ≤ cx ∧ cx ≤ m.max_x ∧ m.min_y ≤ cy ∧ cy ≤ m.max_y := by
  obtain ⟨a, b, c, d⟩ := covers_of_live hm cx cy h
  obtain ⟨e, f⟩ := hb
  omega

/-- Over any number of passes the box is the bounding box of the input
coordinates and of the cells that have held grains. -/
theorem run_box (cells : List CellData) (m0 : SandpileModel) (h0 : WellFormed m0)
    (hb0 : BoxMatches m0)
    (hin : ∀ c ∈ cells, m0.min_x ≤ c.x ∧ c.x ≤ m0.max_x ∧ m0.min_y ≤ c.y ∧ c.y ≤ m0.max_y)
    (ha : ∃ c ∈ cells, c.x = m0.min_x) (hb : ∃ c ∈ cells, c.x = m0.max_x)
    (hc : ∃ c ∈ cells, c.y = m0.min_y) (hd : ∃ c ∈ cells, c.y = m0.max_y) :
    ∀ k, ∃ m, afterPasses m0 k = some m ∧ WellFormed m ∧ BoxMatches m ∧
      (∀ cx cy, Source cells m0 k cx cy →
        m.min_x ≤ cx ∧ cx ≤ m.max_x ∧ m.min_y ≤ cy ∧ cy ≤ m.max_y) ∧
      (∃ cx cy, Source cells m0 k cx cy ∧ cx = m.min_x) ∧
      (∃ cx cy, Source cells m0 k cx cy ∧ cx = m.max_x) ∧
      (∃ cx cy, Source cells m0 k cx cy ∧ cy = m.min_y) ∧
      (∃ cx cy, Source cells m0 k cx cy ∧ cy = m.max_y) := by
  intro k
  induction k with
  | zero =>
    refine ⟨m0, rfl, h0, hb0, fun cx cy hs => ?_, ?_, ?_, ?_, ?_⟩
    · rcases hs with ⟨c, hc1, rfl, rfl⟩ | ⟨j, hj, m, e, hn⟩
      · exact hin c hc1
      · have hj0 : j = 0 := by omega
        subst hj0
        have em : m0 = m := Option.some.inj e
        subst em
        exact inBox_of_live h0 hb0 cx cy hn
    · obtain ⟨c, h1, h2⟩ := ha; exact ⟨c.x, c.y, Or.inl ⟨c, h1, rfl, rfl⟩, h2⟩
    · obtain ⟨c, h1, h2⟩ := hb; exact ⟨c.x, c.y, Or.inl ⟨c, h1, rfl, rfl⟩, h2⟩
    · obtain ⟨c, h1, h2⟩ := hc; exact ⟨c.x, c.y, Or.inl ⟨c, h1, rfl, rfl⟩, h2⟩
    · obtain ⟨c, h1, h2⟩ := hd; exact ⟨c.x, c.y, Or.inl ⟨c, h1, rfl, rfl⟩, h2⟩
  | succ k ih =>
    obtain ⟨m, e, hm, hbm, hcon, ⟨ax, ay, as, ae⟩, ⟨bx, by1, bs, be⟩, ⟨cx1, cy1, cs, ce⟩,
      ⟨dx, dy, ds, de⟩⟩ := ih
    obtain ⟨ch, m1, he, hm1, hbm1, g1, g2, g3, g4, n1, n2, n3, n4⟩ := pass_box hm hbm
    have e1 : afterPasses m0 (k + 1) = some m1 := by
      simp only [afterPasses, e, he]
    have new : ∀ cx cy, m1.live cx cy ≠ 0 → Source cells m0 (k + 1) cx cy :=
      fun cx cy hn => Or.inr ⟨k + 1, le_refl _, m1, e1, hn⟩
    refine ⟨m1, e1, hm1, hbm1, fun cx cy hs => ?_, ?_, ?_, ?_, ?_⟩
    · rcases hs with hs | ⟨j, hj, mj, ej, hn⟩
      · have := hcon cx cy (Or.inl hs); omega
      · by_cases hjk : j ≤ k
        · have := hcon cx cy (Or.inr ⟨j, hjk, mj, ej, hn⟩); omega
        · have hj1 : j = k + 1 := by omega
          subst hj1
          rw [e1] at ej
          have em : m1 = mj := Option.some.inj ej
          subst em
          exact inBox_of_live hm1 hbm1 cx cy hn
    · rcases n1 with h | ⟨cy, h⟩
      · exact ⟨ax, ay, as.mono, by omega⟩
      · exact ⟨m1.min_x, cy, new _ _ h, rfl⟩
    · rcases n2 with h | ⟨cy, h⟩
      · exact ⟨bx, by1, bs.mono, by omega⟩
      · exact ⟨m1.max_x, cy, new _ _ h, rfl⟩
    · rcases n3 with h | ⟨cx, h⟩
      · exact ⟨cx1, cy1, cs.mono, by omega⟩
      · exact ⟨cx, m1.min_y, new _ _ h, rfl⟩
    · rcases n4 with h | ⟨cx, h⟩
      · exact ⟨dx, dy, ds.mono, by omega⟩
      · exact ⟨cx, m1.max_y, new _ _ h, rfl⟩

/-! ## The bitmap encoder: pixel packing -/

theorem colorIndex_eq_min (g : Nat) : colorIndex g = min g 4 := by
  unfold colorIndex
  split_ifs <;> omega

theorem colorIndex_le (g : Nat) : colorIndex g ≤ 4 := by
  rw [colorIndex_eq_min]; omega

theorem or_high (c : Nat) (hc : c ≤ 4) : (0 ||| c <<< 4) % 256 = 16 * c := by
  interval_cases c <;> rfl

theorem or_low (a c : Nat) (ha : a ≤ 4) (hc : c ≤ 4) :
    ((16 * a + 0) ||| (c &&& 15)) % 256 = 16 * a + c := by
  interval_cases a <;> interval_cases c <;> rfl

theorem pix_le (m : SandpileModel) (Y X y0 j : Nat) : pix m Y X y0 j ≤ 4 := by
  unfold pix
  split
  · exact colorIndex_le _
  · omega

theorem fits_sizes {m : SandpileModel} (hm : WellFormed m) (hf : PixelsFit m) :
    row_size m = (m.width * 4 + 31) / 32 * 4 ∧
    pixel_array_size m = row_size m * m.height := by
  unfold PixelsFit at hf
  have h1 : (m.width * 4 + 31) / 32 * 4 ≤ (m.width * 4 + 31) / 32 * 4 * m.height :=
    Nat.le_mul_of_pos_right _ hm.1
  have e1 : row_size m = (m.width * 4 + 31) / 32 * 4 := by
    unfold row_size; exact Nat.mod_eq_of_lt (by omega)
  refine ⟨e1, ?_⟩
  unfold pixel_array_size; rw [e1]; exact Nat.mod_eq_of_lt hf

theorem pixelsFit_of_fits {m : SandpileModel} (hf : FitsIn32 m) : PixelsFit m := by
  unfold FitsIn32 at hf
  unfold PixelsFit
  omega

theorem index_parts (rs a k : Nat) (hk : k < rs) :
    (a * rs + k) / rs = a ∧ (a * rs + k) % rs = k := by
  have hpos : 0 < rs := by omega
  constructor
  · rw [Nat.mul_comm, Nat.mul_add_div hpos, Nat.div_eq_of_lt hk]; rfl
  · rw [Nat.mul_comm, Nat.mul_add_mod, Nat.mod_eq_of_lt hk]

theorem index_lt (rs h a k : Nat) (ha : a < h) (hk : k < rs) : a * rs + k < rs * h := by
  have : (a + 1) * rs ≤ h * rs := Nat.mul_le_mul_right rs ha
  rw [Nat.mul_comm rs h]
  rw [Nat.add_mul] at this
  omega

theorem packed_getElem (m : SandpileModel) (Y X i : Nat) (hi : i < pixel_array_size m) :
    (packed m Y X)[i]? = some (byteAt m Y X i) := by
  unfold packed
  rw [List.getElem?_map, List.getElem?_range hi]
  rfl

theorem packed_length (m : SandpileModel) (Y X : Nat) :
    (packed m Y X).length = pixel_array_size m := by
  simp [packed]

theorem pix_step_ne (m : SandpileModel) (Y X y0 j : Nat) (h : ¬ (y0 = Y ∧ j = X)) :
    pix m Y (X + 1) y0 j = pix m Y X y0 j := by
  unfold pix
  have e : ((y0 < Y ∨ y0 = Y ∧ j < X + 1) ∧ j < m.width ∧ y0 < m.height) ↔
      ((y0 < Y ∨ y0 = Y ∧ j < X) ∧ j < m.width ∧ y0 < m.height) := by omega
  by_cases c : (y0 < Y ∨ y0 = Y ∧ j < X) ∧ j < m.width ∧ y0 < m.height
  · rw [if_pos c, if_pos (e.mpr c)]
  · rw [if_neg c, if_neg (mt e.mp c)]

/-- One round of the inner loop of `write_bmp` packs one more pixel. -/
theorem pixelStep_packed {m : SandpileModel} (hm : WellFormed m) (hf : PixelsFit m)
    {y X : Nat} (hy : y < m.height) (hX : X < m.width) :
    pixelStep m y (packed m y X, X) X = some (packed m y (X + 1), X + 1) := by
  obtain ⟨e1, e2⟩ := fits_sizes hm hf
  obtain ⟨g, hg⟩ := readCell_shaped hm.2.2.1 hy hX
  have hk : X / 2 < row_size m := by rw [e1]; omega
  have hidx : (m.height - 1 - y) * row_size m + X / 2 < pixel_array_size m := by
    rw [e2]; exact index_lt _ _ _ _ (by omega) hk
  obtain ⟨p1, p2⟩ := index_parts (row_size m) (m.height - 1 - y) (X / 2) hk
  have hrow : m.height - 1 - (m.height - 1 - y) = y := by omega
  have hold : byteAt m y X ((m.height - 1 - y) * row_size m + X / 2)
      = 16 * pix m y X y (2 * (X / 2)) + pix m y X y (2 * (X / 2) + 1) := by
    unfold byteAt; rw [p1, p2, hrow]
  have hnew : byteAt m y (X + 1) ((m.height - 1 - y) * row_size m + X / 2)
      = 16 * pix m y (X + 1) y (2 * (X / 2)) + pix m y (X + 1) y (2 * (X / 2) + 1) := by
    unfold byteAt; rw [p1, p2, hrow]
  have hcell : (readCell m.grid y X).getD 0 = g := by rw [hg]; rfl
  have hc := colorIndex_le g
  simp only [pixelStep, hg, orByte, packed_getElem m y X _ hidx]
  congr 1
  refine Prod.ext ?_ rfl
  simp only
  apply List.ext_getElem?
  intro i
  by_cases hi : (m.height - 1 - y) * row_size m + X / 2 = i
  · subst hi
    rw [List.getElem?_set_self (by rw [packed_length]; exact hidx),
      packed_getElem m y (X + 1) _ hidx, hold, hnew]
    congr 1
    rcases Nat.mod_two_eq_zero_or_one X with hev | hod
    · have a1 : 2 * (X / 2) = X := by omega
      rw [a1]
      have z1 : pix m y X y X = 0 := by unfold pix; rw [if_neg (by omega)]
      have z2 : pix m y X y (X + 1) = 0 := by unfold pix; rw [if_neg (by omega)]
      have z3 : pix m y (X + 1) y (X + 1) = 0 := by unfold pix; rw [if_neg (by omega)]
      have z4 : pix m y (X + 1) y X = colorIndex g := by
        unfold pix; rw [if_pos (by omega), hcell]
      rw [z1, z2, z3, z4, if_pos hev]
      exact or_high _ hc
    · have a1 : 2 * (X / 2) + 1 = X := by omega
      have hne : ¬ X % 2 = 0 := by omega
      rw [a1]
      have z1 : pix m y X y X = 0 := by unfold pix; rw [if_neg (by omega)]
      have z2 : pix m y (X + 1) y (2 * (X / 2)) = pix m y X y (2 * (X / 2)) :=
        pix_step_ne m y X y _ (by omega)
      have z4 : pix m y (X + 1) y X = colorIndex g := by
        unfold pix; rw [if_pos (by omega), hcell]
      rw [z1, z2, z4, if_neg hne]
      exact or_low _ _ (pix_le _ _ _ _ _) hc
  · rw [List.getElem?_set_ne hi]
    by_cases hlt : i < pixel_array_size m
    · rw [packed_getElem m y X i hlt, packed_getElem m y (X + 1) i hlt]
      congr 1
      have hdiv : i / row_size m < m.height := by
        rw [e2] at hlt
        exact Nat.div_lt_of_lt_mul hlt
      have hsplit := Nat.div_add_mod i (row_size m)
      have hother : ∀ j, (j = 2 * (i % row_size m) ∨ j = 2 * (i % row_size m) + 1) →
          pix m y (X + 1) (m.height - 1 - i / row_size m) j
            = pix m y X (m.height - 1 - i / row_size m) j := by
        intro j hj
        refine pix_step_ne m y X _ j (fun hsame => ?_)
        have q1 : i / row_size m = m.height - 1 - y := by omega
        have q2 : i % row_size m = X / 2 := by omega
        rw [q1, q2] at hsplit
        apply hi
        rw [← hsplit, Nat.mul_comm]
      unfold byteAt
      rw [hother _ (Or.inl rfl), hother _ (Or.inr rfl)]
    · have hge : pixel_array_size m ≤ i := Nat.le_of_not_lt hlt
      rw [List.getElem?_eq_none (by rw [packed_length]; exact hge),
        List.getElem?_eq_none (by rw [packed_length]; exact hge)]

theorem pix_congr (m : SandpileModel) (Y1 X1 Y2 X2 : Nat)
    (h : ∀ y0 j, j < m.width →
      ((y0 < Y1 ∨ (y0 = Y1 ∧ j < X1)) ↔ (y0 < Y2 ∨ (y0 = Y2 ∧ j < X2)))) :
    packed m Y1 X1 = packed m Y2 X2 := by
  have hp : ∀ y0 j, pix m Y1 X1 y0 j = pix m Y2 X2 y0 j := by
    intro y0 j
    unfold pix
    by_cases hj : j < m.width
    · have e := h y0 j hj
      by_cases c : (y0 < Y2 ∨ y0 = Y2 ∧ j < X2) ∧ j < m.width ∧ y0 < m.height
      · rw [if_pos c, if_pos ⟨e.mpr c.1, c.2⟩]
      · rw [if_neg c, if_neg (fun c1 => c ⟨e.mp c1.1, c1.2⟩)]
    · rw [if_neg (fun c => hj c.2.1), if_neg (fun c => hj c.2.1)]
  unfold packed
  refine List.map_congr_left (fun i _ => ?_)
  unfold byteAt
  rw [hp, hp]

theorem foldl_pixelStep {m : SandpileModel} (hm : WellFormed m) (hf : PixelsFit m)
    {y : Nat} (hy : y < m.height) :
    ∀ k, k ≤ m.width →
      (List.range k).foldlM (pixelStep m y) (packed m y 0, 0) = some (packed m y k, k) := by
  intro k
  induction k with
  | zero => intro _; rfl
  | succ k ih =>
    intro hk
    rw [List.range_succ, List.foldlM_append, ih (by omega)]
    simp only [Option.bind_eq_bind, Option.some_bind, List.foldlM_cons, List.foldlM_nil]
    rw [pixelStep_packed hm hf hy (by omega)]
    rfl

/-- One round of the outer loop of `write_bmp` packs one more row. -/
theorem packRow_packed {m : SandpileModel} (hm : WellFormed m) (hf : PixelsFit m)
    {y : Nat} (hy : y < m.height) :
    packRow m (packed m y 0) y = some (packed m (y + 1) 0) := by
  unfold packRow
  rw [foldl_pixelStep hm hf hy m.width (le_refl _)]
  simp only
  congr 1
  exact pix_congr m _ _ _ _ (fun y0 j hj => by omega)

theorem packed_start (m : SandpileModel) :
    List.replicate (pixel_array_size m) 0 = packed m 0 0 := by
  apply List.ext_getElem?
  intro i
  by_cases hi : i < pixel_array_size m
  · rw [packed_getElem m 0 0 i hi, List.getElem?_replicate, if_pos hi]
    unfold byteAt pix
    rw [if_neg (by omega), if_neg (by omega)]
  · rw [List.getElem?_eq_none (by simp; omega),
      List.getElem?_eq_none (by rw [packed_length]; omega)]

theorem foldl_packRow {m : SandpileModel} (hm : WellFormed m) (hf : PixelsFit m) :
    ∀ k, k ≤ m.height →
      (List.range k).foldlM (packRow m) (packed m 0 0) = some (packed m k 0) := by
  intro k
  induction k with
  | zero => intro _; rfl
  | succ k ih =>
    intro hk
    rw [List.range_succ, List.foldlM_append, ih (by omega)]
    simp only [Option.bind_eq_bind, Option.some_bind, List.foldlM_cons, List.foldlM_nil]
    rw [packRow_packed hm hf (by omega)]
    rfl

/-- The pixel buffer of `write_bmp`, in closed form. -/
theorem pixelData_packed {m : SandpileModel} (hm : WellFormed m) (hf : PixelsFit m) :
    pixelData m = some (packed m m.height 0) := by
  unfold pixelData
  rw [packed_start]
  exact foldl_packRow hm hf m.height (le_refl _)

/-- Every nibble of the final pixel buffer. -/
theorem packed_nibble {m : SandpileModel} (hm : WellFormed m) (hf : PixelsFit m)
    {y j : Nat} (hy : y < m.height) (hj : j < 2 * row_size m) :
    nibble (packed m m.height 0) ((m.height - 1 - y) * row_size m) j =
      if j < m.width then min ((readCell m.grid y j).getD 0) 4 else 0 := by
  obtain ⟨e1, e2⟩ := fits_sizes hm hf
  have hk : j / 2 < row_size m := by omega
  have hidx : (m.height - 1 - y) * row_size m + j / 2 < pixel_array_size m := by
    rw [e2]; exact index_lt _ _ _ _ (by omega) hk
  obtain ⟨p1, p2⟩ := index_parts (row_size m) (m.height - 1 - y) (j / 2) hk
  have hrow : m.height - 1 - (m.height - 1 - y) = y := by omega
  have hb : (packed m m.height 0).getD ((m.height - 1 - y) * row_size m + j / 2) 0
      = 16 * pix m m.height 0 y (2 * (j / 2)) + pix m m.height 0 y (2 * (j / 2) + 1) := by
    rw [List.getD_eq_getElem?_getD, packed_getElem m _ _ _ hidx]
    unfold byteAt
    rw [p1, p2, hrow]
    rfl
  have hfin : ∀ t, pix m m.height 0 y t
      = if t < m.width then min ((readCell m.grid y t).getD 0) 4 else 0 := by
    intro t
    unfold pix
    by_cases ht : t < m.width
    · rw [if_pos ⟨Or.inl hy, ht, hy⟩, if_pos ht, colorIndex_eq_min]
    · rw [if_neg (fun c => ht c.2.1), if_neg ht]
  have hl1 := pix_le m m.height 0 y (2 * (j / 2))
  have hl2 := pix_le m m.height 0 y (2 * (j / 2) + 1)
  unfold nibble
  rw [hb]
  rcases Nat.mod_two_eq_zero_or_one j with hev | hod
  · have a1 : 2 * (j / 2) = j := by omega
    rw [if_pos hev, ← hfin j]
    rw [a1] at hl1 hl2 ⊢
    omega
  · have a1 : 2 * (j / 2) + 1 = j := by omega
    have hne : ¬ j % 2 = 0 := by omega
    rw [if_neg hne, ← hfin j]
    rw [a1] at hl2 ⊢
    omega

theorem orByte_length {data data1 : List Nat} {i v : Nat} (h : orByte data i v = some data1) :
    data1.length = data.length := by
  unfold orByte at h
  cases hd : data[i]? with
  | none => simp [hd] at h
  | some old =>
    simp only [hd, Option.some.injEq] at h
    rw [← h]; simp

theorem foldlM_keeps {α β : Type} (f : β → α → Option β) (P : β → Prop)
    (hP : ∀ b a b1, P b → f b a = some b1 → P b1) :
    ∀ (l : List α) (b b1 : β), P b → l.foldlM f b = some b1 → P b1
  | [], b, b1, hb, h => by
    simp only [List.foldlM_nil] at h
    cases h; exact hb
  | a :: l, b, b1, hb, h => by
    simp only [List.foldlM_cons, Option.bind_eq_bind] at h
    cases hf : f b a with
    | none => simp [hf] at h
    | some b2 =>
      rw [hf, Option.some_bind] at h
      exact foldlM_keeps f P hP l b2 b1 (hP b a b2 hb hf) h

theorem pixelStep_length {m : SandpileModel} {y x : Nat} {st st1 : List Nat × Nat}
    (h : pixelStep m y st x = some st1) : st1.1.length = st.1.length := by
  unfold pixelStep at h
  cases hr : readCell m.grid y x with
  | none => simp [hr] at h
  | some g =>
    simp only [hr] at h
    cases ho : orByte st.1 ((m.height - 1 - y) * row_size m + st.2 / 2)
        (if st.2 % 2 = 0 then colorIndex g <<< 4 else colorIndex g &&& 15) with
    | none => simp [ho] at h
    | some d =>
      simp only [ho, Option.some.injEq] at h
      rw [← h]
      exact orByte_length ho

theorem packRow_length {m : SandpileModel} {y : Nat} {data data1 : List Nat}
    (h : packRow m data y = some data1) : data1.length = data.length := by
  unfold packRow at h
  cases hf : (List.range m.width).foldlM (pixelStep m y) (data, 0) with
  | none => simp [hf] at h
  | some st =>
    simp only [hf, Option.some.injEq] at h
    rw [← h]
    exact foldlM_keeps (pixelStep m y) (fun s => s.1.length = data.length)
      (fun b a b1 hb hs => (pixelStep_length hs).trans hb) _ _ _ rfl hf

/-- The pixel buffer never changes its size: it has `pixel_array_size` bytes. -/
theorem pixelData_length {m : SandpileModel} {px : List Nat} (h : pixelData m = some px) :
    px.length = pixel_array_size m := by
  unfold pixelData at h
  exact foldlM_keeps (packRow m) (fun d => d.length = pixel_array_size m)
    (fun b a b1 hb hs => (packRow_length hs).trans hb) _ _ _ (by simp) h

/-- The byte stream of `write_bmp`, in closed form. -/
theorem write_bmp_eq {m : SandpileModel} (hm : WellFormed m) (hf : PixelsFit m) :
    write_bmp m = some (file_header m ++ dib_header m ++ color_table ++ packed m m.height 0) := by
  unfold write_bmp
  rw [pixelData_packed hm hf]

theorem header_lengths (m : SandpileModel) :
    (file_header m).length = 14 ∧ (dib_header m).length = 40 ∧ color_table.length = 64 := by
  refine ⟨rfl, rfl, rfl⟩

theorem header_field (m : SandpileModel) (px : List Nat) (off len : Nat)
    (h : off + len ≤ 118) :
    field (file_header m ++ dib_header m ++ color_table ++ px) off len
      = field (file_header m ++ dib_header m ++ color_table) off len := by
  have hl : (file_header m ++ dib_header m ++ color_table).length = 118 := rfl
  unfold field
  rw [List.drop_append_of_le_length (by omega),
    List.take_append_of_le_length (by simp only [List.length_drop]; omega)]

theorem wellFormed_wideGrid : WellFormed wideGrid := by
  have hg : wideGrid.grid = List.replicate 92682 (List.replicate 92682 0) := rfl
  have ht : wideGrid.temp_grid = List.replicate 92682 (List.replicate 92682 0) := rfl
  have hw : wideGrid.width = 92682 := rfl
  have hh : wideGrid.height = 92682 := rfl
  refine ⟨by rw [hh]; omega, by rw [hw]; omega, ⟨?_, fun row hr => ?_⟩, ⟨?_, fun row hr => ?_⟩,
    fun row hr v hv => ?_⟩
  · rw [hg, hh]; exact List.length_replicate _ _
  · rw [hg] at hr
    rw [List.eq_of_mem_replicate hr, hw]
    exact List.length_replicate _ _
  · rw [ht, hh]; exact List.length_replicate _ _
  · rw [ht] at hr
    rw [List.eq_of_mem_replicate hr, hw]
    exact List.length_replicate _ _
  · rw [hg] at hr
    rw [List.eq_of_mem_replicate hr] at hv
    rw [List.eq_of_mem_replicate hv]
    decide

/-! ## The driver loop -/

/-- A pass returns on a well-formed grid, keeps it well-formed and counts once. -/
theorem iterate_wf {m : SandpileModel} (hm : WellFormed m) :
    ∃ ch m1, iterate m = some (ch, m1) ∧ WellFormed m1 ∧ m1.iteration = m.iteration + 1 := by
  obtain ⟨m1, ch, he, hc⟩ := iterate_core hm
  exact ⟨ch, _, he, hc.wf, rfl⟩

theorem afterPasses_wf {m0 : SandpileModel} (h0 : WellFormed m0) :
    ∀ k, ∃ m, afterPasses m0 k = some m ∧ WellFormed m ∧ m.iteration = m0.iteration + k := by
  intro k
  induction k with
  | zero => exact ⟨m0, rfl, h0, rfl⟩
  | succ k ih =>
    obtain ⟨m, he, hw, hi⟩ := ih
    obtain ⟨ch, m1, he1, hw1, hi1⟩ := iterate_wf hw
    refine ⟨m1, ?_, hw1, by omega⟩
    simp only [afterPasses, he, he1]

theorem passResult_total {m0 : SandpileModel} (h0 : WellFormed m0) (i : Nat) :
    ∃ b, passResult m0 i = some b := by
  obtain ⟨m, he, hw, _⟩ := afterPasses_wf h0 i
  obtain ⟨ch, m1, he1, _, _⟩ := iterate_wf hw
  exact ⟨ch, by simp only [passResult, he, he1]⟩

theorem mainLoop_spec (max_iter freq : Nat) (m0 : SandpileModel) :
    ∀ (fuel : Nat) (d : Driver), Looping m0 d → d.calls.length ≤ max_iter →
      max_iter - d.calls.length < fuel →
      ∃ d1, mainLoop max_iter freq fuel d = some d1 ∧ Looping m0 d1 ∧
        d1.calls.length ≤ max_iter ∧ (d1.calls.length < max_iter → d1.changed = false) := by
  intro fuel
  induction fuel with
  | zero => intro d _ _ hf; omega
  | succ fuel ih =>
    intro d hl hle hf
    by_cases hc : d.changed = true ∧ d.iteration < max_iter
    · obtain ⟨ch, m1, he, hw1, hi1⟩ := iterate_wf hl.wf
      have hv := hl.copy
      have hlen : (d.calls ++ [ch]).length = d.calls.length + 1 := by simp
      have hnew : Looping m0
          { model := m1, changed := ch, iteration := m1.iteration,
            calls := d.calls ++ [ch],
            saved := if freq ≠ 0 ∧ m1.iteration % freq = 0 then d.saved ++ [m1.iteration]
              else d.saved } := by
        refine ⟨hw1, ?_, ?_, ?_, fun i hi => ?_, fun i hi => ?_, ?_, fun _ => ?_⟩
        · show afterPasses m0 (d.calls ++ [ch]).length = some m1
          rw [hlen]
          simp only [afterPasses, hl.state, he]
        · show m1.iteration = (d.calls ++ [ch]).length
          rw [hlen, hi1, hl.counter]
        · show m1.iteration = (d.calls ++ [ch]).length
          rw [hlen, hi1, hl.counter]
        · have hi2 : i < d.calls.length + 1 := by rw [← hlen]; exact hi
          show passResult m0 i = (d.calls ++ [ch])[i]?
          by_cases hlt : i < d.calls.length
          · rw [List.getElem?_append_left hlt]
            exact hl.results i hlt
          · have hie : i = d.calls.length := by omega
            rw [List.getElem?_append_right (by omega), hie]
            simp only [passResult, hl.state, he, Nat.sub_self, List.getElem?_cons_zero]
        · have hi2 : i + 1 < d.calls.length + 1 := by rw [← hlen]; exact hi
          show (d.calls ++ [ch])[i]? = some true
          rw [List.getElem?_append_left (by omega)]
          by_cases hlt : i + 1 < d.calls.length
          · exact hl.earlier i hlt
          · have hie : i = d.calls.length - 1 := by omega
            rw [hie, hl.flag.2 (by omega), hc.1]
        · intro h0
          have : (d.calls ++ [ch]).length = 0 := h0
          omega
        · show (d.calls ++ [ch])[(d.calls ++ [ch]).length - 1]? = some ch
          rw [hlen, List.getElem?_append_right (by omega)]
          simp
      obtain ⟨d1, he1, hl1, hle1, hx1⟩ := ih _ hnew
        (by show (d.calls ++ [ch]).length ≤ max_iter
            rw [hlen]; omega)
        (by show max_iter - (d.calls ++ [ch]).length < fuel
            rw [hlen]; omega)
      refine ⟨d1, ?_, hl1, hle1, hx1⟩
      simp only [mainLoop, hc, he]
      exact he1
    · refine ⟨d, ?_, hl, hle, fun hlt => ?_⟩
      · simp only [mainLoop, hc, if_false]
      · have hv := hl.copy
        cases hch : d.changed with
        | false => rfl
        | true => exact absurd ⟨hch, by omega⟩ hc

theorem looping_start {m0 : SandpileModel} (h0 : WellFormed m0) (hi : m0.iteration = 0) :
    Looping m0 { model := m0, changed := true, iteration := 0, calls := [], saved := [] } :=
  ⟨h0, rfl, hi, rfl, fun i h => absurd h (Nat.not_lt_zero i),
    fun _ h => absurd h (Nat.not_lt_zero _), fun _ => rfl,
    fun h => absurd h (Nat.lt_irrefl 0)⟩

/-! ## Firing cells of the array -/

/-- A logical coordinate that holds at least 4 grains is a cell of the array. -/
theorem fired_cells {m : SandpileModel} (hm : WellFormed m) (P : Int → Int → Prop) :
    FiredIn m.live (fun _ _ => true) P ↔
      ∃ y x v, readCell m.grid y x = some v ∧ 4 ≤ v ∧ P (m.min_x + x) (m.min_y + y) := by
  rw [firedIn_all]
  constructor
  · rintro ⟨nx, ny, h4, hp⟩
    obtain ⟨k1, k2, k3, k4⟩ := covers_of_live hm nx ny (by omega)
    have hx : (nx - m.min_x).toNat < m.width := by omega
    have hy : (ny - m.min_y).toNat < m.height := by omega
    have hr := cellAt_inside hm.2.2.1 m.min_x m.min_y _ _ hy hx
    have e1 : m.min_x + ((nx - m.min_x).toNat : Int) = nx := by omega
    have e2 : m.min_y + ((ny - m.min_y).toNat : Int) = ny := by omega
    rw [e1, e2] at hr
    exact ⟨_, _, _, hr, h4, by rw [e1, e2]; exact hp⟩
  · rintro ⟨y, x, v, hr, h4, hp⟩
    have hy : y < m.height := by
      by_contra hc
      rw [readCell_none_of_shaped hm.2.2.1 (Or.inl (by omega))] at hr
      exact Option.noConfusion hr
    have hx : x < m.width := by
      by_contra hc
      rw [readCell_none_of_shaped hm.2.2.1 (Or.inr (by omega))] at hr
      exact Option.noConfusion hr
    have hr2 := cellAt_inside hm.2.2.1 m.min_x m.min_y y x hy hx
    rw [hr] at hr2
    have hv : m.live (m.min_x + x) (m.min_y + y) = v := (Option.some.inj hr2).symm
    exact ⟨_, _, by rw [hv]; exact h4, hp⟩

theorem fired_row {m : SandpileModel} (hm : WellFormed m) (r : Nat) :
    FiredIn m.live (fun _ _ => true) (fun _ ny => ny = m.min_y + r) ↔
      ∃ x v, readCell m.grid r x = some v ∧ 4 ≤ v := by
  rw [fired_cells hm]
  constructor
  · rintro ⟨y, x, v, hr, h4, hp⟩
    have : y = r := by omega
    subst this
    exact ⟨x, v, hr, h4⟩
  · rintro ⟨x, v, hr, h4⟩
    exact ⟨r, x, v, hr, h4, rfl⟩

theorem fired_column {m : SandpileModel} (hm : WellFormed m) (c : Nat) :
    FiredIn m.live (fun _ _ => true) (fun nx _ => nx = m.min_x + c) ↔
      ∃ y v, readCell m.grid y c = some v ∧ 4 ≤ v := by
  rw [fired_cells hm]
  constructor
  · rintro ⟨y, x, v, hr, h4, hp⟩
    have : x = c := by omega
    subst this
    exact ⟨y, v, hr, h4⟩
  · rintro ⟨y, v, hr, h4⟩
    exact ⟨y, c, v, hr, h4, rfl⟩

theorem grown_iff {d : Int} {F : Prop} (h : Grown d F) : d.toNat = 1 ↔ F := by
  rcases h with ⟨h1, h2⟩ | ⟨h1, h2⟩
  · exact ⟨fun h => by omega, fun h => absurd h h2⟩
  · exact ⟨fun _ => h2, fun _ => by omega⟩

/-- The sides a pass grows, in terms of the cells of the array before the pass. -/
theorem iterate_growth {m : SandpileModel} (hm : WellFormed m) :
    ∃ ch m1, iterate m = some (ch, m1) ∧ WellFormed m1 ∧
      ∃ du dd dl dr : Nat, du ≤ 1 ∧ dd ≤ 1 ∧ dl ≤ 1 ∧ dr ≤ 1 ∧
        m1.height = m.height + du + dd ∧ m1.width = m.width + dl + dr ∧
        m1.min_y = m.min_y - du ∧ m1.max_y = m.max_y + dd ∧
        m1.min_x = m.min_x - dl ∧ m1.max_x = m.max_x + dr ∧
        (du = 1 ↔ ∃ x v, readCell m.grid 0 x = some v ∧ 4 ≤ v) ∧
        (dd = 1 ↔ ∃ x v, readCell m.grid (m.height - 1) x = some v ∧ 4 ≤ v) ∧
        (dl = 1 ↔ ∃ y v, readCell m.grid y 0 = some v ∧ 4 ≤ v) ∧
        (dr = 1 ↔ ∃ y v, readCell m.grid y (m.width - 1) = some v ∧ 4 ≤ v) := by
  obtain ⟨m1, ch, he, hc⟩ := iterate_core hm
  have h1 := hm.1
  have h2 := hm.2.1
  have t1 := hc.top.zeroOrOne; have t2 := hc.bottom.zeroOrOne
  have t3 := hc.left.zeroOrOne; have t4 := hc.right.zeroOrOne
  have t5 := hc.max_x; have t6 := hc.max_y
  have e1 : m1.height = m.height + (m.min_y - m1.min_y).toNat
      + (m1.min_y + m1.height - (m.min_y + m.height)).toNat := by omega
  have e2 : m1.width = m.width + (m.min_x - m1.min_x).toNat
      + (m1.min_x + m1.width - (m.min_x + m.width)).toNat := by omega
  have e3 : m1.min_y = m.min_y - ((m.min_y - m1.min_y).toNat : Int) := by omega
  have e4 : m1.max_y
      = m.max_y + ((m1.min_y + m1.height - (m.min_y + m.height)).toNat : Int) := by omega
  have e5 : m1.min_x = m.min_x - ((m.min_x - m1.min_x).toNat : Int) := by omega
  have e6 : m1.max_x
      = m.max_x + ((m1.min_x + m1.width - (m.min_x + m.width)).toNat : Int) := by omega
  have b1 : (m.min_y - m1.min_y).toNat ≤ 1 := by omega
  have b2 : (m1.min_y + m1.height - (m.min_y + m.height)).toNat ≤ 1 := by omega
  have b3 : (m.min_x - m1.min_x).toNat ≤ 1 := by omega
  have b4 : (m1.min_x + m1.width - (m.min_x + m.width)).toNat ≤ 1 := by omega
  have ebot : m.min_y + (m.height : Int) - 1 = m.min_y + ((m.height - 1 : Nat) : Int) := by
    omega
  have eright : m.min_x + (m.width : Int) - 1 = m.min_x + ((m.width - 1 : Nat) : Int) := by
    omega
  have ftop := (grown_iff hc.top).trans
    ((show (FiredIn m.live (fun _ _ => true) (fun _ ny => ny = m.min_y)) ↔
        FiredIn m.live (fun _ _ => true) (fun _ ny => ny = m.min_y + ((0 : Nat) : Int)) by
      simp).trans (fired_row hm 0))
  have fbot := grown_iff hc.bottom
  rw [ebot, fired_row hm] at fbot
  have fleft := (grown_iff hc.left).trans
    ((show (FiredIn m.live (fun _ _ => true) (fun nx _ => nx = m.min_x)) ↔
        FiredIn m.live (fun _ _ => true) (fun nx _ => nx = m.min_x + ((0 : Nat) : Int)) by
      simp).trans (fired_column hm 0))
  have fright := grown_iff hc.right
  rw [eright, fired_column hm] at fright
  exact ⟨ch, _, he, hc.wf, _, _, _, _, b1, b2, b3, b4, e1, e2, e3, e4, e5, e6,
    ftop, fbot, fleft, fright⟩


/-! ## The shape invariant -/

theorem shapeInv_iff (m : SandpileModel) (ht : Typed m.grid) :
    ShapeInv m ↔ WellFormed m ∧ BoxMatches m :=
  ⟨fun ⟨a, b, c, d, e, f⟩ => ⟨⟨d, c, e, f, ht⟩, a, b⟩,
    fun ⟨⟨d, c, e, f, _⟩, a, b⟩ => ⟨a, b, c, d, e, f⟩⟩

theorem shapeInv_moved {m m1 : SandpileModel} {L : Int → Int → Nat} {dl dr du dd : Nat}
    (hb : BoxMatches m) (h : Moved m m1 L dl dr du dd) : ShapeInv m1 := by
  obtain ⟨a, b⟩ := hb
  obtain ⟨h1, h2, h3, h4, _⟩ := h.wf
  have e1 := h.min_x; have e2 := h.min_y; have e3 := h.max_x; have e4 := h.max_y
  have e5 := h.width; have e6 := h.height
  exact ⟨by omega, by omega, h2, h1, h3, h4⟩

/-! ## Every access of a pass is in range -/

theorem addChecked_eq {m : SandpileModel} (hm : WellFormed m) (y x v : Nat) :
    addChecked m y x v = (addCell m.grid y x v).map (fun g => { m with grid := g }) := by
  unfold addChecked
  by_cases h : y < m.height ∧ x < m.width
  · rw [if_pos h]
    cases addCell m.grid y x v <;> rfl
  · rw [if_neg h]
    have hr : readCell m.grid y x = none :=
      readCell_none_of_shaped hm.2.2.1 (by omega)
    simp only [addCell, hr, Option.map_none']

theorem spillUpChecked_eq {m : SandpileModel} (hm : WellFormed m) (y x o : Nat) :
    spillUpChecked m y x o = spillUp m y x o := by
  unfold spillUpChecked spillUp
  rw [addChecked_eq hm, addChecked_eq (moved_expand_up hm).wf]
  by_cases h : y > 0
  · simp only [h, if_true]
    cases addCell m.grid (y - 1) x o <;> rfl
  · simp only [h, if_false]
    cases addCell (expand_grid_up m).grid 0 x o <;> rfl

theorem spillDownChecked_eq {m : SandpileModel} (hm : WellFormed m) (y x o : Nat) :
    spillDownChecked m y x o = spillDown m y x o := by
  unfold spillDownChecked spillDown
  rw [addChecked_eq hm, addChecked_eq (moved_expand_down hm).wf]
  by_cases h : y < m.height - 1
  · simp only [h, if_true]
    cases addCell m.grid (y + 1) x o <;> rfl
  · simp only [h, if_false]
    cases addCell (expand_grid_down m).grid ((expand_grid_down m).height - 1) x o <;> rfl

theorem spillLeftChecked_eq {m : SandpileModel} (hm : WellFormed m) (y x o : Nat) :
    spillLeftChecked m y x o = spillLeft m y x o := by
  unfold spillLeftChecked spillLeft
  rw [addChecked_eq hm, addChecked_eq (moved_expand_left hm).wf]
  by_cases h : x > 0
  · simp only [h, if_true]
    cases addCell m.grid y (x - 1) o <;> rfl
  · simp only [h, if_false]
    cases addCell (expand_grid_left m).grid y 0 o <;> rfl

theorem spillRightChecked_eq {m : SandpileModel} (hm : WellFormed m) (y x o : Nat) :
    spillRightChecked m y x o = spillRight m y x o := by
  unfold spillRightChecked spillRight
  rw [addChecked_eq hm, addChecked_eq (moved_expand_right hm).wf]
  by_cases h : x < m.width - 1
  · simp only [h, if_true]
    cases addCell m.grid y (x + 1) o <;> rfl
  · simp only [h, if_false]
    cases addCell (expand_grid_right m).grid y ((expand_grid_right m).width - 1) o <;> rfl

theorem subChecked_eq {m : SandpileModel} (hm : WellFormed m) (strict : Bool) {y x : Nat}
    (v : Nat) (hy : y < m.height) (hx : x < m.width)
    (hs : strict = true → v ≤ m.live (m.min_x + x) (m.min_y + y)) :
    subChecked strict m y x v = (subCell m.grid y x v).map (fun g => { m with grid := g }) := by
  have hr := cellAt_inside hm.2.2.1 m.min_x m.min_y y x hy hx
  have hno : ¬ (strict = true ∧ cellAt m.grid m.min_x m.min_y (m.min_x + x) (m.min_y + y) < v) := by
    rintro ⟨h1, h2⟩
    have := hs h1
    unfold SandpileModel.live at this
    omega
  unfold subChecked
  rw [if_pos ⟨hy, hx⟩, hr]
  simp only [hno, if_false]
  cases subCell m.grid y x v <;> rfl

theorem toppleChecked_eq {m : SandpileModel} (hm : WellFormed m) (strict : Bool) {y x : Nat}
    (grains : Nat) (hy : y < m.height) (hx : x < m.width)
    (hs : strict = true → grains / 4 * 4 ≤ m.live (m.min_x + x) (m.min_y + y)) :
    toppleChecked strict m y x grains = topple m y x grains := by
  obtain ⟨g0, hg0, h0⟩ := moved_subCell hm (grains / 4 * 4) hy hx
  have c0 := h0.width; have d0 := h0.height
  obtain ⟨m1, y1, e1, h1, hy1⟩ := spillUp_spec h0.wf (y := y) (x := x) (grains / 4)
    (by omega) (by omega)
  have c1 := h1.width; have d1 := h1.height
  obtain ⟨m2, e2, h2⟩ := spillDown_spec h1.wf (y := y1) (x := x) (grains / 4)
    (by omega) (by omega)
  have c2 := h2.width; have d2 := h2.height
  obtain ⟨m3, x1, e3, h3, hx1⟩ := spillLeft_spec h2.wf (y := y1) (x := x) (grains / 4)
    (by omega) (by omega)
  have hsub := subChecked_eq hm strict (grains / 4 * 4) hy hx hs
  rw [hg0] at hsub
  simp only [toppleChecked, topple, hsub, Option.map_some', hg0, spillUpChecked_eq h0.wf, e1,
    spillDownChecked_eq h1.wf, e2, spillLeftChecked_eq h2.wf, e3, spillRightChecked_eq h3.wf]

theorem visitChecked_eq {m : SandpileModel} (hm : WellFormed m) (strict : Bool) {y x : Nat}
    (ch : Bool) (hy : y < m.height) (hx : x < m.width)
    (hs : strict = true →
      m.snap (m.min_x + x) (m.min_y + y) ≤ m.live (m.min_x + x) (m.min_y + y)) :
    visitChecked strict m y x ch = visit m y x ch := by
  have hr := cellAt_inside hm.2.2.2.1 m.min_x m.min_y y x hy hx
  have ht := toppleChecked_eq hm strict
    (cellAt m.temp_grid m.min_x m.min_y (m.min_x + x) (m.min_y + y)) hy hx
    (fun h => by
      have := hs h
      unfold SandpileModel.snap at this
      omega)
  unfold visitChecked visit
  rw [if_pos ⟨hy, hx⟩, hr]
  simp only [ht]


theorem contrib_le (L0 : Int → Int → Nat) (vis : Int → Int → Bool) (nx ny : Int) :
    contrib L0 vis nx ny ≤ L0 nx ny := by
  unfold contrib
  split_ifs
  · exact Nat.div_le_self _ _
  · exact Nat.zero_le _

/-- With fewer than `2^64` grains in total, a cell that has not been visited yet
holds at least its pre-pass grains. -/
theorem midValue_ge (L0 : Int → Int → Nat) (vis : Int → Int → Bool)
    (hfin : (Function.support (fun p : Int × Int => L0 p.1 p.2)).Finite)
    (ht : ∑ᶠ p : Int × Int, L0 p.1 p.2 < U64) (cx cy : Int) (hv : vis cx cy = false) :
    L0 cx cy ≤ midValue L0 vis cx cy := by
  have h1 := cross_le_total L0 hfin cx cy
  have a1 := contrib_le L0 vis cx (cy - 1)
  have a2 := contrib_le L0 vis cx (cy + 1)
  have a3 := contrib_le L0 vis (cx - 1) cy
  have a4 := contrib_le L0 vis (cx + 1) cy
  have hb : base L0 vis cx cy = L0 cx cy := by
    unfold base
    rw [hv]
    rfl
  unfold midValue
  rw [hb, Nat.mod_eq_of_lt (by omega)]
  omega

/-- At the cursor the live cell is not below the snapshot cell when the total
is below `2^64`: the subtraction of a topple does not wrap. -/
theorem core_cursor_le {m0 m : SandpileModel} (h0 : WellFormed m0)
    (ht : sumGrid m0.grid < U64) {X Y : Int} {ch : Bool} (hc : Core m0 m (before X Y) ch) :
    m.snap X Y ≤ m.live X Y := by
  rw [hc.snap, hc.live]
  rw [sumGrid_eq_finsum h0] at ht
  exact midValue_ge m0.live _ (live_support_finite h0) ht X Y (before_self X Y)

theorem scanRowChecked_eq {m0 : SandpileModel} (h0 : WellFormed m0) (strict : Bool)
    (hs : strict = true → sumGrid m0.grid < U64) :
    ∀ (fuel : Nat) (m : SandpileModel) (y x : Nat) (ch : Bool),
      Core m0 m (before (m.min_x + x) (m.min_y + y)) ch → y < m.height → x ≤ m.width →
      scanRowChecked strict fuel m y x ch = scanRow fuel m y x ch := by
  intro fuel
  induction fuel with
  | zero => intro m y x ch _ _ _; rfl
  | succ fuel ih =>
    intro m y x ch hc hy hx
    by_cases hxw : x < m.width
    · obtain ⟨m1, y1, x1, c1, he, hc1, hy1, hx1, hX, hY⟩ := visit_core h0 hc hy hxw
      have e1 : m1.min_x + ((x1 + 1 : Nat) : Int) = m.min_x + x + 1 := by push_cast; omega
      have hv := visitChecked_eq hc.wf strict ch hy hxw (fun h => core_cursor_le h0 (hs h) hc)
      have hrec := ih m1 y1 (x1 + 1) c1 (by rw [e1, hY]; exact hc1) hy1 (by omega)
      simp only [scanRowChecked, scanRow, hxw, if_true, hv, he, hrec]
    · simp only [scanRowChecked, scanRow, hxw, if_false]

theorem scanRowsChecked_eq {m0 : SandpileModel} (h0 : WellFormed m0) (strict : Bool)
    (hs : strict = true → sumGrid m0.grid < U64) (rowFuel : Nat)
    (hrf : m0.width + 2 < rowFuel) :
    ∀ (fuel : Nat) (m : SandpileModel) (y : Nat) (ch : Bool),
      Core m0 m (beforeRow (m.min_y + y)) ch → y ≤ m.height →
      scanRowsChecked strict rowFuel fuel m y ch = scanRows rowFuel fuel m y ch := by
  intro fuel
  induction fuel with
  | zero => intro m y ch _ _; rfl
  | succ fuel ih =>
    intro m y ch hc hy
    by_cases hyh : y < m.height
    · have hc0 : Core m0 m (before (m.min_x + ((0 : Nat) : Int)) (m.min_y + y)) ch := by
        refine hc.revisit (fun nx ny hn => ?_)
        obtain ⟨k1, _, _, _⟩ := hc.inBox hn
        simp only [beforeRow, before, decide_eq_decide]
        omega
      have t3 := hc.left.zeroOrOne
      have t2 := hc.bottom.zeroOrOne
      obtain ⟨m1, y1, c1, he, hc1, hy1, hY⟩ := scanRow_core h0 rowFuel m y 0 ch hc0 hyh
        (Nat.zero_le _) (by omega)
      have hc2 : Core m0 m1 (beforeRow (m1.min_y + ((y1 + 1 : Nat) : Int))) c1 := by
        refine hc1.revisit (fun nx ny hn => ?_)
        obtain ⟨_, k2, _, _⟩ := hc1.inBox hn
        simp only [beforeRow, before, decide_eq_decide]
        push_cast
        omega
      have hrow := scanRowChecked_eq h0 strict hs rowFuel m y 0 ch hc0 hyh (Nat.zero_le _)
      have hrec := ih m1 (y1 + 1) c1 hc2 (by omega)
      simp only [scanRowsChecked, scanRows, hyh, if_true, hrow, he, hrec]
    · simp only [scanRowsChecked, scanRows, hyh, if_false]

/-- On a well-formed grid the checked pass and the pass of the source are the
same computation: no check fails. -/
theorem iterateChecked_eq {m : SandpileModel} (hm : WellFormed m) (strict : Bool)
    (hs : strict = true → sumGrid m.grid < U64) :
    iterateChecked strict m = iterate m := by
  have h := scanRowsChecked_eq hm strict hs (m.width + m.height + 3) (by omega)
    (m.width + m.height + 3) (snapshot m) 0 false (core_start hm) (Nat.zero_le _)
  unfold iterateChecked iterate iterateFuel
  rw [h]

/-! ## The claims -/

/-- C1. Mass conservation: on every well-formed grid whose total grain count
is below `2^64`, `iterate()` returns and the sum of all cells of the live array
after the call equals the sum before the call. -/
theorem C1_mass_conservation (m : SandpileModel) (hm : WellFormed m)
    (ht : sumGrid m.grid < U64) :
    ∃ ch m1, iterate m = some (ch, m1) ∧ sumGrid m1.grid = sumGrid m.grid := by
  obtain ⟨ch, m1, he, hw, hl⟩ := iterate_jacobi hm ht
  refine ⟨ch, m1, he, ?_⟩
  rw [sumGrid_eq_finsum hw, sumGrid_eq_finsum hm, ← jacobi_total m.live (live_support_finite hm)]
  congr 1
  funext p
  exact hl p.1 p.2

theorem C1_witness :
    WellFormed sampleGrid ∧ sumGrid sampleGrid.grid < U64 ∧
    ∃ ch m1, iterate sampleGrid = some (ch, m1) ∧ sumGrid m1.grid = sumGrid sampleGrid.grid :=
  ⟨by decide, by decide, C1_mass_conservation sampleGrid (by decide) (by decide)⟩

/-- C2. `iterate()` is the simultaneous (Jacobi) update: on every well-formed
grid with fewer than `2^64` grains in total and for every logical coordinate
`(cx, cy)`, the live value after the call is the old value minus four times its
quarter plus the quarters of the four orthogonal neighbours, where the old array
reads `0` outside its box; outside the box of the result the formula gives `0`. -/
theorem C2_simultaneous_update (m : SandpileModel) (hm : WellFormed m)
    (ht : sumGrid m.grid < U64) :
    ∃ ch m1, iterate m = some (ch, m1) ∧
      ∀ cx cy,
        m1.live cx cy = m.live cx cy - 4 * (m.live cx cy / 4)
          + (m.live cx (cy - 1) / 4 + m.live cx (cy + 1) / 4
            + m.live (cx - 1) cy / 4 + m.live (cx + 1) cy / 4) ∧
        (¬ m1.covers cx cy →
          m.live cx cy - 4 * (m.live cx cy / 4)
            + (m.live cx (cy - 1) / 4 + m.live cx (cy + 1) / 4
              + m.live (cx - 1) cy / 4 + m.live (cx + 1) cy / 4) = 0) := by
  obtain ⟨ch, m1, he, hw, hl⟩ := iterate_jacobi hm ht
  refine ⟨ch, m1, he, fun cx cy => ?_⟩
  have h1 := hl cx cy
  refine ⟨by omega, fun hout => ?_⟩
  have h2 : m1.live cx cy = 0 := cellAt_outside hw.2.2.1 _ _ _ _ hout
  omega

theorem C2_witness :
    WellFormed sampleGrid ∧ sumGrid sampleGrid.grid < U64 ∧
    ∃ ch m1, iterate sampleGrid = some (ch, m1) ∧
      ∀ cx cy,
        m1.live cx cy = sampleGrid.live cx cy - 4 * (sampleGrid.live cx cy / 4)
          + (sampleGrid.live cx (cy - 1) / 4 + sampleGrid.live cx (cy + 1) / 4
            + sampleGrid.live (cx - 1) cy / 4 + sampleGrid.live (cx + 1) cy / 4) ∧
        (¬ m1.covers cx cy →
          sampleGrid.live cx cy - 4 * (sampleGrid.live cx cy / 4)
            + (sampleGrid.live cx (cy - 1) / 4 + sampleGrid.live cx (cy + 1) / 4
              + sampleGrid.live (cx - 1) cy / 4 + sampleGrid.live (cx + 1) cy / 4) = 0) :=
  ⟨by decide, by decide, C2_simultaneous_update sampleGrid (by decide) (by decide)⟩

/-- C3. `iterate()` returns whether any cell fired: on every well-formed grid
it returns, and it returns `true` exactly when some cell of the live array held
4 or more grains before the call; when it returns `false` every cell holds fewer
than 4 grains, before and after the call. -/
theorem C3_iterate_returns_whether_fired (m : SandpileModel) (hm : WellFormed m) :
    ∃ ch m1, iterate m = some (ch, m1) ∧
      (ch = true ↔ Unstable m.grid) ∧
      (ch = false → Stable m.grid ∧ Stable m1.grid) := by
  obtain ⟨ch, m1, he, hiff⟩ := iterate_changed hm
  refine ⟨ch, _, he, hiff, fun hf => ?_⟩
  have hs : Stable m.grid := by
    rw [stable_iff_not_unstable, ← hiff, hf]; simp
  have h2 := iterate_stable hm hs
  rw [he] at h2
  have h3 := congrArg (fun r => r.2.grid) (Option.some.inj h2)
  simp only at h3
  exact ⟨hs, by rw [h3]; exact hs⟩

theorem C3_witness :
    WellFormed sampleGrid ∧
    ∃ ch m1, iterate sampleGrid = some (ch, m1) ∧
      (ch = true ↔ Unstable sampleGrid.grid) ∧
      (ch = false → Stable sampleGrid.grid ∧ Stable m1.grid) :=
  ⟨by decide, C3_iterate_returns_whether_fired sampleGrid (by decide)⟩

/-- C4. Single seeded cell: `initialize` on one cell `(x0, y0, g)` gives a one-cell
grid. With `g < 4` the cell does not fire: `iterate()` returns `false` and keeps the
grid. With `g >= 4` one `iterate()` returns `true` and leaves a 3 x 3 grid with
`min_x = x0 - 1`, `min_y = y0 - 1`, centre `g mod 4`, each orthogonal neighbour
`g / 4` and the corners `0`. For `g = 4` the centre is 0, the neighbours are 1 and a
second `iterate()` returns `false`; for `g = 10` overflow and centre are both 2. -/
theorem C4_single_seeded_cell (x0 y0 : Int) (g : Nat)
    (hx : -32768 ≤ x0 ∧ x0 ≤ 32767) (hy : -32768 ≤ y0 ∧ y0 ≤ 32767) (hg : g < U64) :
    initializeModel construct [⟨x0, y0, g⟩] = some (seedOf x0 y0 g) ∧
    (g < 4 → ∃ m1, iterate (seedOf x0 y0 g) = some (false, m1) ∧
      m1.grid = [[g]] ∧ m1.width = 1 ∧ m1.height = 1) ∧
    (4 ≤ g → ∃ m1, iterate (seedOf x0 y0 g) = some (true, m1) ∧
      m1.width = 3 ∧ m1.height = 3 ∧ m1.min_x = x0 - 1 ∧ m1.min_y = y0 - 1 ∧
      m1.max_x = x0 + 1 ∧ m1.max_y = y0 + 1 ∧
      m1.grid = [[0, g / 4, 0], [g / 4, g % 4, g / 4], [0, g / 4, 0]] ∧
      m1.live x0 y0 = g % 4 ∧
      m1.live x0 (y0 - 1) = g / 4 ∧ m1.live x0 (y0 + 1) = g / 4 ∧
      m1.live (x0 - 1) y0 = g / 4 ∧ m1.live (x0 + 1) y0 = g / 4 ∧
      m1.live (x0 - 1) (y0 - 1) = 0 ∧ m1.live (x0 + 1) (y0 - 1) = 0 ∧
      m1.live (x0 - 1) (y0 + 1) = 0 ∧ m1.live (x0 + 1) (y0 + 1) = 0 ∧
      (g = 4 → m1.grid = [[0, 1, 0], [1, 0, 1], [0, 1, 0]] ∧
        ∃ m2, iterate m1 = some (false, m2)) ∧
      (g = 10 → m1.grid = [[0, 2, 0], [2, 2, 2], [0, 2, 0]])) := by
  refine ⟨init_single x0 y0 g hx hy, fun h3 => ?_, fun h4 => ?_⟩
  · have hw : WellFormed (seedOf x0 y0 g) := by
      simp [WellFormed, Shaped, Typed, seedOf, hg]
    have hst : Stable (seedOf x0 y0 g).grid := by
      simp [Stable, seedOf, h3]
    exact ⟨_, iterate_stable hw hst, rfl, rfl, rfl⟩
  · obtain ⟨l0, l1, l2, l3, l4, l5, l6, l7, l8⟩ := crossOf_live x0 y0 g
    refine ⟨crossOf x0 y0 g, iterate_single_fire x0 y0 g hg h4, rfl, rfl, rfl, rfl, rfl, rfl,
      rfl, l0, l1, l2, l3, l4, l5, l6, l7, l8, fun e4 => ?_, fun e10 => ?_⟩
    · subst e4
      have hw : WellFormed (crossOf x0 y0 4) := by
        simp [WellFormed, Shaped, Typed, crossOf, U64]
      have hst : Stable (crossOf x0 y0 4).grid := by
        simp [Stable, crossOf]
      exact ⟨rfl, _, iterate_stable hw hst⟩
    · subst e10
      rfl

theorem C4_witness :
    (-32768 ≤ (0 : Int) ∧ (0 : Int) ≤ 32767) ∧ 4 < U64 ∧
    initializeModel construct [⟨0, 0, 4⟩] = some (seedOf 0 0 4) ∧
    ∃ m1, iterate (seedOf 0 0 4) = some (true, m1) ∧
      m1.width = 3 ∧ m1.height = 3 ∧ m1.min_x = -1 ∧ m1.min_y = -1 ∧
      m1.grid = [[0, 1, 0], [1, 0, 1], [0, 1, 0]] ∧
      ∃ m2, iterate m1 = some (false, m2) := by
  obtain ⟨h1, _, h3⟩ := C4_single_seeded_cell 0 0 4 (by decide) (by decide) (by decide)
  obtain ⟨m1, e, a, b, c, d, _, _, _, _, _, _, _, _, _, _, _, _, k, _⟩ := h3 (by decide)
  exact ⟨by decide, by decide, h1, m1, e, a, b, c, d, (k rfl).1, (k rfl).2⟩

/-- C5, as stated, fails: on the stable one-cell grid produced by `initialize`
from the line `0 0 3` the pass also overwrites the snapshot array (`[[0]]`
becomes `[[3]]`), so the counter is not the only field that changes. -/
theorem C5_counterexample :
    WellFormed seed3 ∧ Stable seed3.grid ∧
    iterate seed3 = some (false,
      { iteration := 1, grid := [[3]], temp_grid := [[3]],
        min_x := 0, max_x := 0, min_y := 0, max_y := 0, width := 1, height := 1 }) ∧
    iterate seed3 ≠ some (false, { seed3 with iteration := seed3.iteration + 1 }) := by
  decide

/-- C5 (amended). Stable grid is a fixed point: on a well-formed grid whose
cells all hold fewer than 4 grains, `iterate()` returns `false`, leaves the live
array, `width`, `height` and the four box corners unchanged, increases the
iteration counter by exactly 1, and makes the snapshot array a copy of the live
array; nothing else changes. -/
theorem C5_stable_grid_fixed_point (m : SandpileModel) (hm : WellFormed m)
    (hs : Stable m.grid) :
    iterate m = some (false, { m with iteration := m.iteration + 1, temp_grid := m.grid }) :=
  iterate_stable hm hs

theorem C5_witness :
    WellFormed seed3 ∧ Stable seed3.grid ∧
    iterate seed3 = some (false,
      { seed3 with iteration := seed3.iteration + 1, temp_grid := seed3.grid }) :=
  ⟨by decide, by decide, C5_stable_grid_fixed_point seed3 (by decide) (by decide)⟩

/-- C6. Idempotent stabilization: on a well-formed grid, if `iterate()` returns
`false` then the next call returns `false` too and leaves the live array and its
extents (`width`, `height`, the four box corners) as they were after the first. -/
theorem C6_idempotent_stabilization (m m1 : SandpileModel) (hm : WellFormed m)
    (h1 : iterate m = some (false, m1)) :
    ∃ m2, iterate m1 = some (false, m2) ∧ m2.grid = m1.grid ∧
      m2.width = m1.width ∧ m2.height = m1.height ∧
      m2.min_x = m1.min_x ∧ m2.max_x = m1.max_x ∧
      m2.min_y = m1.min_y ∧ m2.max_y = m1.max_y := by
  obtain ⟨ch, m1b, he, hiff⟩ := iterate_changed hm
  rw [h1] at he
  have hch : ch = false := (congrArg (fun r => r.1) (Option.some.inj he)).symm
  have hs : Stable m.grid := by
    rw [stable_iff_not_unstable, ← hiff, hch]; simp
  have h2 := iterate_stable hm hs
  rw [h1] at h2
  have h3 : m1 = { m with iteration := m.iteration + 1, temp_grid := m.grid } :=
    congrArg (fun r => r.2) (Option.some.inj h2)
  subst h3
  have hm1 := wellFormed_after_stable hm (m.iteration + 1)
  exact ⟨_, iterate_stable hm1 hs, rfl, rfl, rfl, rfl, rfl, rfl, rfl⟩

theorem C6_witness :
    WellFormed seed3 ∧ iterate seed3 = some (false, seed3Pass) ∧
    ∃ m2, iterate seed3Pass = some (false, m2) ∧ m2.grid = seed3Pass.grid ∧
      m2.width = seed3Pass.width ∧ m2.height = seed3Pass.height ∧
      m2.min_x = seed3Pass.min_x ∧ m2.max_x = seed3Pass.max_x ∧
      m2.min_y = seed3Pass.min_y ∧ m2.max_y = seed3Pass.max_y :=
  ⟨by decide, by decide,
    C6_idempotent_stabilization seed3 seed3Pass (by decide) (by decide)⟩

/-- C7. Monotone growth: on a well-formed grid `iterate()` never shrinks the
box (`min_x`, `min_y` do not increase; `max_x`, `max_y`, `width`, `height` do not
decrease), and each of the four expansions adds exactly 1 to one of `height`,
`width` and leaves the other extent unchanged. -/
theorem C7_monotone_growth (m : SandpileModel) (hm : WellFormed m) :
    (∃ ch m1, iterate m = some (ch, m1) ∧
      m1.min_x ≤ m.min_x ∧ m1.min_y ≤ m.min_y ∧ m.max_x ≤ m1.max_x ∧ m.max_y ≤ m1.max_y ∧
      m.width ≤ m1.width ∧ m.height ≤ m1.height) ∧
    ((expand_grid_up m).height = m.height + 1 ∧ (expand_grid_up m).width = m.width) ∧
    ((expand_grid_down m).height = m.height + 1 ∧ (expand_grid_down m).width = m.width) ∧
    ((expand_grid_left m).width = m.width + 1 ∧ (expand_grid_left m).height = m.height) ∧
    ((expand_grid_right m).width = m.width + 1 ∧ (expand_grid_right m).height = m.height) := by
  refine ⟨?_, ⟨rfl, rfl⟩, ⟨rfl, rfl⟩, ⟨rfl, rfl⟩, ⟨rfl, rfl⟩⟩
  obtain ⟨m1, ch, he, hc⟩ := iterate_core hm
  have t1 := hc.top.zeroOrOne; have t2 := hc.bottom.zeroOrOne
  have t3 := hc.left.zeroOrOne; have t4 := hc.right.zeroOrOne
  have t5 := hc.max_x; have t6 := hc.max_y
  refine ⟨ch, _, he, ?_, ?_, ?_, ?_, ?_, ?_⟩
  · show m1.min_x ≤ m.min_x; omega
  · show m1.min_y ≤ m.min_y; omega
  · show m.max_x ≤ m1.max_x; omega
  · show m.max_y ≤ m1.max_y; omega
  · show m.width ≤ m1.width; omega
  · show m.height ≤ m1.height; omega

theorem C7_witness :
    WellFormed sampleGrid ∧
    ((∃ ch m1, iterate sampleGrid = some (ch, m1) ∧
      m1.min_x ≤ sampleGrid.min_x ∧ m1.min_y ≤ sampleGrid.min_y ∧
      sampleGrid.max_x ≤ m1.max_x ∧ sampleGrid.max_y ≤ m1.max_y ∧
      sampleGrid.width ≤ m1.width ∧ sampleGrid.height ≤ m1.height) ∧
    ((expand_grid_up sampleGrid).height = sampleGrid.height + 1 ∧
      (expand_grid_up sampleGrid).width = sampleGrid.width) ∧
    ((expand_grid_down sampleGrid).height = sampleGrid.height + 1 ∧
      (expand_grid_down sampleGrid).width = sampleGrid.width) ∧
    ((expand_grid_left sampleGrid).width = sampleGrid.width + 1 ∧
      (expand_grid_left sampleGrid).height = sampleGrid.height) ∧
    ((expand_grid_right sampleGrid).width = sampleGrid.width + 1 ∧
      (expand_grid_right sampleGrid).height = sampleGrid.height)) :=
  ⟨by decide, C7_monotone_growth sampleGrid (by decide)⟩

/-- C8. Expansion keeps logical coordinates: on a well-formed grid each of the
four expansions keeps every old cell, in the live and in the snapshot array, at
its logical coordinate (array index shifted by one row for up, by one column for
left, unshifted for down and right; `min_y` resp. `min_x` decremented for up resp.
left), fills the new row or column with zeros in both arrays, and leaves both
arrays with `height` rows of `width` cells. -/
theorem C8_expansion_keeps_coordinates (m : SandpileModel) (hm : WellFormed m) :
    (KeepsCells m (expand_grid_up m) 0 1 ∧ RowZero (expand_grid_up m) 0 ∧
      BothShaped (expand_grid_up m)) ∧
    (KeepsCells m (expand_grid_down m) 0 0 ∧ RowZero (expand_grid_down m) m.height ∧
      BothShaped (expand_grid_down m)) ∧
    (KeepsCells m (expand_grid_left m) 1 0 ∧ ColZero (expand_grid_left m) 0 ∧
      BothShaped (expand_grid_left m)) ∧
    (KeepsCells m (expand_grid_right m) 0 0 ∧ ColZero (expand_grid_right m) m.width ∧
      BothShaped (expand_grid_right m)) := by
  obtain ⟨k1, s1, z1⟩ := moved_keeps hm (moved_expand_up hm)
  obtain ⟨k2, s2, z2⟩ := moved_keeps hm (moved_expand_down hm)
  obtain ⟨k3, s3, z3⟩ := moved_keeps hm (moved_expand_left hm)
  obtain ⟨k4, s4, z4⟩ := moved_keeps hm (moved_expand_right hm)
  have a1 := (moved_expand_up hm).height
  have a2 := (moved_expand_down hm).height
  have a3 := (moved_expand_left hm).width
  have a4 := (moved_expand_right hm).width
  refine ⟨⟨k1, fun ix hx => ?_, s1⟩, ⟨k2, fun ix hx => ?_, s2⟩, ⟨k3, fun iy hy => ?_, s3⟩,
    ⟨k4, fun iy hy => ?_, s4⟩⟩
  · refine z1 0 ix (by omega) hx (fun hcov => ?_)
    have := k1.2.1; have := hcov.2.2.1; omega
  · refine z2 m.height ix (by omega) hx (fun hcov => ?_)
    have := k2.2.1; have := hcov.2.2.2; omega
  · refine z3 iy 0 hy (by omega) (fun hcov => ?_)
    have := k3.1; have := hcov.1; omega
  · refine z4 iy m.width hy (by omega) (fun hcov => ?_)
    have := k4.1; have := hcov.2.1; omega

theorem C8_witness :
    WellFormed sampleGrid ∧
    ((KeepsCells sampleGrid (expand_grid_up sampleGrid) 0 1 ∧
      RowZero (expand_grid_up sampleGrid) 0 ∧ BothShaped (expand_grid_up sampleGrid)) ∧
    (KeepsCells sampleGrid (expand_grid_down sampleGrid) 0 0 ∧
      RowZero (expand_grid_down sampleGrid) sampleGrid.height ∧
      BothShaped (expand_grid_down sampleGrid)) ∧
    (KeepsCells sampleGrid (expand_grid_left sampleGrid) 1 0 ∧
      ColZero (expand_grid_left sampleGrid) 0 ∧ BothShaped (expand_grid_left sampleGrid)) ∧
    (KeepsCells sampleGrid (expand_grid_right sampleGrid) 0 0 ∧
      ColZero (expand_grid_right sampleGrid) sampleGrid.width ∧
      BothShaped (expand_grid_right sampleGrid))) :=
  ⟨by decide, C8_expansion_keeps_coordinates sampleGrid (by decide)⟩

/-- C9. `initialize`: for every non-empty list of cells with 16-bit signed
coordinates and 64-bit unsigned grain counts, `min_x`, `max_x`, `min_y`, `max_y`
are the minimum and maximum of the input coordinates, `width = max_x - min_x + 1`,
`height = max_y - min_y + 1`, the snapshot array is all zero, and the live slot of
every coordinate `(x, y)` of the box, at index `(x - min_x, y - min_y)`, holds the
grain count of the last list entry with these coordinates, or `0` when there is
none. -/
theorem C9_initialize (s : SandpileModel) (cells : List CellData) (hne : cells ≠ [])
    (hv : ∀ c ∈ cells, ValidCell c) :
    ∃ m, initializeModel s cells = some m ∧
      (∀ c ∈ cells, m.min_x ≤ c.x ∧ c.x ≤ m.max_x ∧ m.min_y ≤ c.y ∧ c.y ≤ m.max_y) ∧
      (∃ c ∈ cells, c.x = m.min_x) ∧ (∃ c ∈ cells, c.x = m.max_x) ∧
      (∃ c ∈ cells, c.y = m.min_y) ∧ (∃ c ∈ cells, c.y = m.max_y) ∧
      (m.width : Int) = m.max_x - m.min_x + 1 ∧ (m.height : Int) = m.max_y - m.min_y + 1 ∧
      m.temp_grid = List.replicate m.height (List.replicate m.width 0) ∧
      (∀ x y : Int, m.min_x ≤ x → x ≤ m.max_x → m.min_y ≤ y → y ≤ m.max_y →
        readCell m.grid (y - m.min_y).toNat (x - m.min_x).toNat
          = some (lastGrains cells x y)) := by
  obtain ⟨m, e, hw, _, hin, a, b, c, d, ew, eh, et, hl⟩ := initialize_spec s cells hne hv
  refine ⟨m, e, hin, a, b, c, d, ew, eh, et, fun x y h1 h2 h3 h4 => ?_⟩
  have h5 := cellAt_inside hw.2.2.1 m.min_x m.min_y (y - m.min_y).toNat (x - m.min_x).toNat
    (by omega) (by omega)
  have e1 : m.min_x + ((x - m.min_x).toNat : Int) = x := by omega
  have e2 : m.min_y + ((y - m.min_y).toNat : Int) = y := by omega
  rw [e1, e2] at h5
  rw [h5]
  exact congrArg some (hl x y)

theorem C9_witness :
    sampleCells ≠ [] ∧ (∀ c ∈ sampleCells, ValidCell c) ∧
    ∃ m, initializeModel construct sampleCells = some m ∧
      (∀ c ∈ sampleCells, m.min_x ≤ c.x ∧ c.x ≤ m.max_x ∧ m.min_y ≤ c.y ∧ c.y ≤ m.max_y) ∧
      (∃ c ∈ sampleCells, c.x = m.min_x) ∧ (∃ c ∈ sampleCells, c.x = m.max_x) ∧
      (∃ c ∈ sampleCells, c.y = m.min_y) ∧ (∃ c ∈ sampleCells, c.y = m.max_y) ∧
      (m.width : Int) = m.max_x - m.min_x + 1 ∧ (m.height : Int) = m.max_y - m.min_y + 1 ∧
      m.temp_grid = List.replicate m.height (List.replicate m.width 0) ∧
      (∀ x y : Int, m.min_x ≤ x → x ≤ m.max_x → m.min_y ≤ y → y ≤ m.max_y →
        readCell m.grid (y - m.min_y).toNat (x - m.min_x).toNat
          = some (lastGrains sampleCells x y)) :=
  ⟨by decide, by decide, C9_initialize construct sampleCells (by decide) (by decide)⟩

/-- C10, as stated, fails: after `initialize` on the lines `0 0 1` and `2 0 0`
the box reaches `max_x = 2`, yet no cell of the column `x = 2` has held grains:
the box is wider than the bounding box of the cells that were ever non-zero. -/
theorem C10_counterexample :
    initializeModel construct [⟨0, 0, 1⟩, ⟨2, 0, 0⟩] = some zeroEdgeSeed ∧
    zeroEdgeSeed.max_x = 2 ∧ zeroEdgeSeed.grid = [[1, 0, 0]] ∧
    ¬ ∃ cy, HeldNonzero zeroEdgeSeed 0 2 cy := by
  refine ⟨by decide, rfl, rfl, ?_⟩
  rintro ⟨cy, j, hj, m, e, hn⟩
  have hj0 : j = 0 := by omega
  subst hj0
  have em : zeroEdgeSeed = m := Option.some.inj e
  subst em
  apply hn
  simp only [SandpileModel.live, zeroEdgeSeed, cellAt]
  split
  · cases h : (cy - 0).toNat with
    | zero => simp [readCell]
    | succ n => simp [readCell]
  · rfl

/-- C10 (amended). Exact bounding box: after `initialize` on any non-empty input
and after any number `k` of subsequent calls of `iterate()`, the array covers
exactly `[min_x, max_x] x [min_y, max_y]`, and this box is the axis-aligned
bounding box of the coordinates of the input lines together with the lattice
cells that have held a non-zero grain count at the end of `initialize` or of one
of these passes: every such cell lies in the box and each of the four sides of
the box contains one. -/
theorem C10_bounding_box (s : SandpileModel) (cells : List CellData) (hne : cells ≠ [])
    (hv : ∀ c ∈ cells, ValidCell c) (k : Nat) :
    ∃ m0 m, initializeModel s cells = some m0 ∧ afterPasses m0 k = some m ∧
      BoxMatches m ∧
      (∀ cx cy, Source cells m0 k cx cy →
        m.min_x ≤ cx ∧ cx ≤ m.max_x ∧ m.min_y ≤ cy ∧ cy ≤ m.max_y) ∧
      (∃ cx cy, Source cells m0 k cx cy ∧ cx = m.min_x) ∧
      (∃ cx cy, Source cells m0 k cx cy ∧ cx = m.max_x) ∧
      (∃ cx cy, Source cells m0 k cx cy ∧ cy = m.min_y) ∧
      (∃ cx cy, Source cells m0 k cx cy ∧ cy = m.max_y) := by
  obtain ⟨m0, e, hw, _, hin, a, b, c, d, ew, eh, _, _⟩ := initialize_spec s cells hne hv
  obtain ⟨m, e1, _, hbm, h1, h2, h3, h4, h5⟩ := run_box cells m0 hw ⟨ew, eh⟩ hin a b c d k
  exact ⟨m0, m, e, e1, hbm, h1, h2, h3, h4, h5⟩

theorem C10_witness :
    sampleCells ≠ [] ∧ (∀ c ∈ sampleCells, ValidCell c) ∧
    ∃ m0 m, initializeModel construct sampleCells = some m0 ∧ afterPasses m0 2 = some m ∧
      BoxMatches m ∧
      (∀ cx cy, Source sampleCells m0 2 cx cy →
        m.min_x ≤ cx ∧ cx ≤ m.max_x ∧ m.min_y ≤ cy ∧ cy ≤ m.max_y) ∧
      (∃ cx cy, Source sampleCells m0 2 cx cy ∧ cx = m.min_x) ∧
      (∃ cx cy, Source sampleCells m0 2 cx cy ∧ cx = m.max_x) ∧
      (∃ cx cy, Source sampleCells m0 2 cx cy ∧ cy = m.min_y) ∧
      (∃ cx cy, Source sampleCells m0 2 cx cy ∧ cy = m.max_y) :=
  ⟨by decide, by decide, C10_bounding_box construct sampleCells (by decide) (by decide) 2⟩

/-- C11, as stated, fails: on a well-formed grid of 92682 x 92682 cells
`row_size` is 46344 and `row_size * height` is 4295254608, but `pixel_array_size`
is a `uint32_t` and the buffer gets 287312 bytes; the pixel array is not
`row_size * height` bytes long. -/
theorem C11_counterexample :
    WellFormed wideGrid ∧
    4 * ((wideGrid.width * 4 + 31) / 32) * wideGrid.height = 4295254608 ∧
    pixel_array_size wideGrid = 287312 ∧
    ¬ ∃ px, pixelData wideGrid = some px ∧ px.length = 4295254608 := by
  have hs : pixel_array_size wideGrid = 287312 := by decide
  refine ⟨wellFormed_wideGrid, by decide, hs, ?_⟩
  rintro ⟨px, h1, h2⟩
  have := pixelData_length h1
  omega

/-- C11 (amended). Pixel packing: for every well-formed grid whose pixel array
size `row_size * height` is below `2^32`, with `row_size = 4 * ceil(width * 4 / 32)`,
the pixel array of `write_bmp` has exactly `row_size * height` bytes; for every
array index `(x, y)` the byte `(height - 1 - y) * row_size + floor(x / 2)` holds
the colour index `min(grid[y][x], 4)`, in its high nibble when `x` is even and in
its low nibble when `x` is odd; every nibble of a row beyond the `width`-th pixel
is 0. -/
theorem C11_pixel_packing (m : SandpileModel) (hm : WellFormed m) (hf : PixelsFit m) :
    ∃ px, pixelData m = some px ∧
      px.length = 4 * ((m.width * 4 + 31) / 32) * m.height ∧
      (∀ y x, y < m.height → x < m.width →
        ∃ g b, readCell m.grid y x = some g ∧
          px[(m.height - 1 - y) * (4 * ((m.width * 4 + 31) / 32)) + x / 2]? = some b ∧
          (if x % 2 = 0 then b / 16 else b % 16) = min g 4) ∧
      (∀ y j, y < m.height → m.width ≤ j → j < 2 * (4 * ((m.width * 4 + 31) / 32)) →
        nibble px ((m.height - 1 - y) * (4 * ((m.width * 4 + 31) / 32))) j = 0) := by
  obtain ⟨e1, e2⟩ := fits_sizes hm hf
  have ers : 4 * ((m.width * 4 + 31) / 32) = row_size m := by rw [e1]; omega
  rw [ers]
  refine ⟨packed m m.height 0, pixelData_packed hm hf, by rw [packed_length, e2],
    fun y x hy hx => ?_, fun y j hy hw hj => ?_⟩
  · obtain ⟨g, hg⟩ := readCell_shaped hm.2.2.1 hy hx
    have hk : x / 2 < row_size m := by rw [e1]; omega
    have hidx : (m.height - 1 - y) * row_size m + x / 2 < pixel_array_size m := by
      rw [e2]; exact index_lt _ _ _ _ (by omega) hk
    have hn := packed_nibble hm hf hy (show x < 2 * row_size m by omega)
    rw [if_pos hx, hg] at hn
    refine ⟨g, _, hg, packed_getElem m _ _ _ hidx, ?_⟩
    unfold nibble at hn
    rw [List.getD_eq_getElem?_getD, packed_getElem m _ _ _ hidx] at hn
    exact hn
  · have hn := packed_nibble hm hf hy hj
    rw [if_neg (by omega)] at hn
    exact hn

theorem C11_witness :
    WellFormed tallGrid ∧ PixelsFit tallGrid ∧
    ∃ px, pixelData tallGrid = some px ∧
      px.length = 4 * ((tallGrid.width * 4 + 31) / 32) * tallGrid.height ∧
      (∀ y x, y < tallGrid.height → x < tallGrid.width →
        ∃ g b, readCell tallGrid.grid y x = some g ∧
          px[(tallGrid.height - 1 - y) * (4 * ((tallGrid.width * 4 + 31) / 32)) + x / 2]?
            = some b ∧
          (if x % 2 = 0 then b / 16 else b % 16) = min g 4) ∧
      (∀ y j, y < tallGrid.height → tallGrid.width ≤ j →
        j < 2 * (4 * ((tallGrid.width * 4 + 31) / 32)) →
        nibble px ((tallGrid.height - 1 - y) * (4 * ((tallGrid.width * 4 + 31) / 32))) j = 0) :=
  ⟨by decide, by decide, C11_pixel_packing tallGrid (by decide) (by decide)⟩

/-- C12. File size and fixed header fields: for every well-formed grid whose sizes
fit in 32 bits, with `row_size = 4 * ceil(width * 4 / 32)`, the byte stream of
`write_bmp` has `14 + 40 + 64 + row_size * height` bytes; it starts with `B`, `M`,
that total length, two zero reserved fields and the pixel-data offset 118; the info
header holds size 40, width, height, planes 1, bits per pixel 4, compression 0,
image size `row_size * height`, zero resolutions and 0 important colours (all
little-endian). For a 1 x 1 grid holding 2 grains the stream has 122 bytes and its
first pixel byte is `0x20`. -/
theorem C12_file_layout (m : SandpileModel) (hm : WellFormed m) (hf : FitsIn32 m) :
    ∃ bytes, write_bmp m = some bytes ∧
      bytes.length = 14 + 40 + 64 + 4 * ((m.width * 4 + 31) / 32) * m.height ∧
      field bytes 0 2 = [66, 77] ∧
      field bytes 2 4 = le32 (14 + 40 + 64 + 4 * ((m.width * 4 + 31) / 32) * m.height) ∧
      field bytes 6 2 = le16 0 ∧ field bytes 8 2 = le16 0 ∧
      field bytes 10 4 = le32 118 ∧
      field bytes 14 4 = le32 40 ∧
      field bytes 18 4 = le32 m.width ∧
      field bytes 22 4 = le32 m.height ∧
      field bytes 26 2 = le16 1 ∧
      field bytes 28 2 = le16 4 ∧
      field bytes 30 4 = le32 0 ∧
      field bytes 34 4 = le32 (4 * ((m.width * 4 + 31) / 32) * m.height) ∧
      field bytes 38 4 = le32 0 ∧ field bytes 42 4 = le32 0 ∧
      field bytes 50 4 = le32 0 ∧
      (m.width = 1 → m.height = 1 → m.grid = [[2]] →
        bytes.length = 122 ∧ bytes[118]? = some 32) := by
  have hp := pixelsFit_of_fits hf
  obtain ⟨e1, e2⟩ := fits_sizes hm hp
  obtain ⟨f1, f2, f3⟩ := hf
  have ers : 4 * ((m.width * 4 + 31) / 32) = row_size m := by rw [e1]; omega
  rw [ers]
  have ew : m.width % U32 = m.width := Nat.mod_eq_of_lt (by unfold U32; omega)
  have eh : m.height % U32 = m.height := Nat.mod_eq_of_lt (by unfold U32; omega)
  have efs : file_size m = 14 + 40 + 64 + row_size m * m.height := by
    unfold file_size pixel_data_offset
    rw [e2]
    have : 14 + 40 + 64 + row_size m * m.height < U32 := by rw [e1]; exact f3
    have e0 : (14 + 40 + 16 * 4) % U32 = 118 := by decide
    rw [e0]
    exact Nat.mod_eq_of_lt (by omega)
  have elen : (file_header m ++ dib_header m ++ color_table ++ packed m m.height 0).length
      = 14 + 40 + 64 + row_size m * m.height := by
    simp only [List.length_append, packed_length, e2]
    rfl
  have hfld : ∀ off len, off + len ≤ 118 →
      field (file_header m ++ dib_header m ++ color_table ++ packed m m.height 0) off len
        = field (file_header m ++ dib_header m ++ color_table) off len :=
    fun off len h => header_field m _ off len h
  refine ⟨_, write_bmp_eq hm hp, elen, ?_, ?_, ?_, ?_, ?_, ?_, ?_, ?_, ?_, ?_, ?_, ?_, ?_, ?_,
    ?_, fun h1 h2 h3 => ?_⟩
  · rw [hfld _ _ (by omega)]; rfl
  · rw [hfld _ _ (by omega), ← efs]; rfl
  · rw [hfld _ _ (by omega)]; rfl
  · rw [hfld _ _ (by omega)]; rfl
  · rw [hfld _ _ (by omega)]; rfl
  · rw [hfld _ _ (by omega)]; rfl
  · rw [hfld _ _ (by omega), ← ew]; rfl
  · rw [hfld _ _ (by omega), ← eh]; rfl
  · rw [hfld _ _ (by omega)]; rfl
  · rw [hfld _ _ (by omega)]; rfl
  · rw [hfld _ _ (by omega)]; rfl
  · rw [hfld _ _ (by omega), ← e2]; rfl
  · rw [hfld _ _ (by omega)]; rfl
  · rw [hfld _ _ (by omega)]; rfl
  · rw [hfld _ _ (by omega)]; rfl
  · have hrs : row_size m = 4 := by rw [e1, h1]
    have hn : pixel_array_size m = 4 := by rw [e2, hrs, h2]
    refine ⟨by rw [elen, hrs, h2], ?_⟩
    have hb : (packed m m.height 0)[0]? = some 32 := by
      rw [packed_getElem m _ _ 0 (by omega)]
      simp [byteAt, pix, hrs, h1, h2, h3, readCell, colorIndex]
    have hh := header_lengths m
    rw [List.getElem?_append_right (by simp only [List.length_append]; omega)]
    simp only [List.length_append, hh.1, hh.2.1, hh.2.2]
    exact hb

theorem C12_witness :
    WellFormed seed2 ∧ FitsIn32 seed2 ∧
    ∃ bytes, write_bmp seed2 = some bytes ∧ bytes.length = 122 ∧ bytes[118]? = some 32 ∧
      field bytes 0 2 = [66, 77] ∧ field bytes 2 4 = [122, 0, 0, 0] ∧
      field bytes 10 4 = [118, 0, 0, 0] := by
  obtain ⟨bytes, h1, _, h3, h4, _, _, h7, _, _, _, _, _, _, _, _, _, _, h18⟩ :=
    C12_file_layout seed2 (by decide) (by decide)
  exact ⟨by decide, by decide, bytes, h1, (h18 rfl rfl rfl).1, (h18 rfl rfl rfl).2, h3, h4, h7⟩

/-- C13, as stated, fails: for the grid one cell wide and two cells high with
1 grain at `y = 0` and 2 grains at `y = 1`, the first stored row of the pixel
array (the bottom row of the image) starts with colour index 2: it holds the grid
row with the largest `y`, not array row 0. -/
theorem C13_counterexample :
    pixelData tallGrid = some [32, 0, 0, 0, 16, 0, 0, 0] ∧
    nibble [32, 0, 0, 0, 16, 0, 0, 0] 0 0 = 2 ∧
    readCell tallGrid.grid 0 0 = some 1 ∧ readCell tallGrid.grid 1 0 = some 2 := by
  decide

/-- C13 (amended). Row orientation: for every well-formed grid whose pixel array
size is below `2^32`, the first row stored in the pixel array of `write_bmp` (the
bottom row of the bottom-up image) holds the grid row with the largest `y` (array
row `height - 1`), and the grid row with the smallest `y` (array row 0) is the
last stored row, the top row of the image; the two coincide only for height 1. -/
theorem C13_row_orientation (m : SandpileModel) (hm : WellFormed m) (hf : PixelsFit m) :
    ∃ px, pixelData m = some px ∧
      (∀ x, x < m.width →
        nibble px 0 x = min ((readCell m.grid (m.height - 1) x).getD 0) 4) ∧
      (∀ x, x < m.width →
        nibble px ((m.height - 1) * (4 * ((m.width * 4 + 31) / 32))) x
          = min ((readCell m.grid 0 x).getD 0) 4) := by
  obtain ⟨e1, e2⟩ := fits_sizes hm hf
  have ers : 4 * ((m.width * 4 + 31) / 32) = row_size m := by rw [e1]; omega
  rw [ers]
  have h1 := hm.1
  refine ⟨packed m m.height 0, pixelData_packed hm hf, fun x hx => ?_, fun x hx => ?_⟩
  · have hn := packed_nibble hm hf (show m.height - 1 < m.height by omega)
      (show x < 2 * row_size m by rw [e1]; omega)
    have e0 : (m.height - 1 - (m.height - 1)) * row_size m = 0 := by
      rw [Nat.sub_self, Nat.zero_mul]
    rw [e0, if_pos hx] at hn
    exact hn
  · have hn := packed_nibble hm hf (show 0 < m.height by omega)
      (show x < 2 * row_size m by rw [e1]; omega)
    rw [if_pos hx] at hn
    exact hn

theorem C13_witness :
    WellFormed tallGrid ∧ PixelsFit tallGrid ∧
    ∃ px, pixelData tallGrid = some px ∧
      (∀ x, x < tallGrid.width →
        nibble px 0 x = min ((readCell tallGrid.grid (tallGrid.height - 1) x).getD 0) 4) ∧
      (∀ x, x < tallGrid.width →
        nibble px ((tallGrid.height - 1) * (4 * ((tallGrid.width * 4 + 31) / 32))) x
          = min ((readCell tallGrid.grid 0 x).getD 0) 4) :=
  ⟨by decide, by decide, C13_row_orientation tallGrid (by decide) (by decide)⟩

/-- C14. Colours-used field: for the 1 x 1 grid holding 2 grains the 32-bit
little-endian field at offset 32 of the info header written by `write_bmp` (file
offset 46) holds 16, the number of palette entries written, and not the 5 of the
declaration of `BMPInfoHeader` (`biClrUsed = 5`). -/
theorem C14_colours_used_written :
    (write_bmp seed2).map (fun bytes => field bytes 46 4) = some (le32 16) ∧
    le32 16 = [16, 0, 0, 0] ∧ le32 5 = [5, 0, 0, 0] := by
  decide

/-- C15, as stated, fails: for the 1 x 1 grid holding 2 grains, entry 3 of the
colour table (file offsets 66 to 69, in the order blue, green, red, reserved) is
`0, 255, 255, 0`, that is yellow, and not cyan `255, 255, 0, 0`. -/
theorem C15_counterexample :
    (write_bmp seed2).map (fun bytes => field bytes 66 4) = some [0, 255, 255, 0] ∧
    ([0, 255, 255, 0] : List Nat) ≠ [255, 255, 0, 0] := by
  decide

/-- C15 (amended). Palette: for every well-formed grid whose pixel array size is
below `2^32`, the 64-byte colour table written by `write_bmp` (file offsets 54 to
117, four bytes per entry in the order blue, green, red, reserved) has entry
0 = white `(255, 255, 255, 0)`, entry 1 = green `(0, 255, 0, 0)`, entry
2 = magenta `(255, 0, 255, 0)`, entry 3 = yellow (blue 0, green 255, red 255,
reserved 0), entry 4 = black `(0, 0, 0, 0)`, and entries 5 to 15 all zero. -/
theorem C15_palette (m : SandpileModel) (hm : WellFormed m) (hf : PixelsFit m) :
    ∃ bytes, write_bmp m = some bytes ∧
      field bytes 54 4 = [255, 255, 255, 0] ∧
      field bytes 58 4 = [0, 255, 0, 0] ∧
      field bytes 62 4 = [255, 0, 255, 0] ∧
      field bytes 66 4 = [0, 255, 255, 0] ∧
      field bytes 70 4 = [0, 0, 0, 0] ∧
      field bytes 74 44 = List.replicate 44 0 :=
  ⟨_, write_bmp_eq hm hf,
    (header_field m _ 54 4 (by omega)).trans rfl, (header_field m _ 58 4 (by omega)).trans rfl,
    (header_field m _ 62 4 (by omega)).trans rfl, (header_field m _ 66 4 (by omega)).trans rfl,
    (header_field m _ 70 4 (by omega)).trans rfl, (header_field m _ 74 44 (by omega)).trans rfl⟩

theorem C15_witness :
    WellFormed seed2 ∧ PixelsFit seed2 ∧
    ∃ bytes, write_bmp seed2 = some bytes ∧
      field bytes 54 4 = [255, 255, 255, 0] ∧
      field bytes 58 4 = [0, 255, 0, 0] ∧
      field bytes 62 4 = [255, 0, 255, 0] ∧
      field bytes 66 4 = [0, 255, 255, 0] ∧
      field bytes 70 4 = [0, 0, 0, 0] ∧
      field bytes 74 44 = List.replicate 44 0 :=
  ⟨by decide, by decide, C15_palette seed2 (by decide) (by decide)⟩

/-- C16. Save schedule at `max_iter = 0`: with `max_iter = 0` and `freq = 1` on
the input line `0 0 2` the loop of `main` is not entered, the variable
`iteration` stays 0, and as `0 % freq = 0` the save after the loop is skipped:
the run ends with no file written, so the final state is not saved. -/
theorem C16_final_state_not_saved :
    (main 0 1 [⟨0, 0, 2⟩]).map (fun d => (d.model.grid, d.iteration, d.calls, d.saved))
      = some ([[2]], 0, [], []) := by
  decide

/-- C17. Iteration cap: for every `max_iter` (and `freq`) and every well-formed
initial grid whose counter is 0, every call of `iterate()` returns and the loop of
`main` terminates; the number `n` of calls it has made is at most `max_iter`; every call before the last
one returned `true` (no call follows one that returned `false`); when `n` is below
`max_iter` the last call returned `false`; so `n = min(max_iter, k)` when call
number `k` is the first to return `false`, and `n = max_iter` when no call does;
the state is the one after `n` passes, and the model's counter and the variable
`iteration` equal `n`. -/
theorem C17_iteration_cap (max_iter freq : Nat) (m0 : SandpileModel) (h0 : WellFormed m0)
    (hi : m0.iteration = 0) :
    ∃ d, mainFrom max_iter freq m0 = some d ∧
      d.calls.length ≤ max_iter ∧
      (∀ i, ∃ b, passResult m0 i = some b) ∧
      (∀ i, i < d.calls.length → passResult m0 i = d.calls[i]?) ∧
      (∀ i, i + 1 < d.calls.length → passResult m0 i = some true) ∧
      (d.calls.length < max_iter →
        0 < d.calls.length ∧ passResult m0 (d.calls.length - 1) = some false) ∧
      (∀ k, 1 ≤ k → passResult m0 (k - 1) = some false →
        (∀ i, i + 1 < k → passResult m0 i = some true) → d.calls.length = min max_iter k) ∧
      ((∀ i, passResult m0 i = some true) → d.calls.length = max_iter) ∧
      afterPasses m0 d.calls.length = some d.model ∧
      d.model.iteration = d.calls.length ∧ d.iteration = d.calls.length := by
  obtain ⟨d, he, hl, hle, hx⟩ := mainLoop_spec max_iter freq m0 (max_iter + 1) _
    (looping_start h0 hi) (Nat.zero_le _) (by show max_iter - 0 < max_iter + 1; omega)
  have hearly : ∀ i, i + 1 < d.calls.length → passResult m0 i = some true := by
    intro i h
    rw [hl.results i (by omega)]
    exact hl.earlier i h
  have hlast : d.calls.length < max_iter →
      0 < d.calls.length ∧ passResult m0 (d.calls.length - 1) = some false := by
    intro h
    have hch := hx h
    have hpos : 0 < d.calls.length := by
      by_contra hn
      have := hl.flag.1 (by omega)
      rw [hch] at this
      exact Bool.noConfusion this
    refine ⟨hpos, ?_⟩
    rw [hl.results _ (by omega), hl.flag.2 hpos, hch]
  have hfacts : d.calls.length ≤ max_iter ∧
      (∀ i, ∃ b, passResult m0 i = some b) ∧
      (∀ i, i < d.calls.length → passResult m0 i = d.calls[i]?) ∧
      (∀ i, i + 1 < d.calls.length → passResult m0 i = some true) ∧
      (d.calls.length < max_iter →
        0 < d.calls.length ∧ passResult m0 (d.calls.length - 1) = some false) ∧
      (∀ k, 1 ≤ k → passResult m0 (k - 1) = some false →
        (∀ i, i + 1 < k → passResult m0 i = some true) → d.calls.length = min max_iter k) ∧
      ((∀ i, passResult m0 i = some true) → d.calls.length = max_iter) ∧
      afterPasses m0 d.calls.length = some d.model ∧
      d.model.iteration = d.calls.length ∧ d.iteration = d.calls.length := by
    refine ⟨hle, passResult_total h0, hl.results, hearly, hlast, fun k hk hf ht => ?_, fun hall => ?_,
      hl.state, hl.counter, hl.copy⟩
    · by_cases hlt : d.calls.length < max_iter
      · obtain ⟨hpos, hlf⟩ := hlast hlt
        have hkn : k = d.calls.length := by
          rcases Nat.lt_trichotomy k d.calls.length with h | h | h
          · have := hearly (k - 1) (by omega)
            rw [hf] at this
            exact absurd this (by decide)
          · exact h
          · have := ht (d.calls.length - 1) (by omega)
            rw [hlf] at this
            exact absurd this (by decide)
        rw [← hkn] at hlt ⊢
        omega
      · have hkn : d.calls.length ≤ k := by
          by_contra h
          have := hearly (k - 1) (by omega)
          rw [hf] at this
          exact absurd this (by decide)
        omega
    · by_contra hne
      obtain ⟨_, hlf⟩ := hlast (by omega)
      rw [hall] at hlf
      exact absurd hlf (by decide)
  by_cases hs : freq = 0 ∨ d.iteration % freq ≠ 0
  · refine ⟨{ d with saved := d.saved ++ [d.iteration] }, ?_, hfacts⟩
    simp only [mainFrom, he, hs, if_true]
  · refine ⟨d, ?_, hfacts⟩
    simp only [mainFrom, he, hs, if_false]

theorem C17_witness :
    WellFormed seed4 ∧ seed4.iteration = 0 ∧
    ∃ d, mainFrom 5 2 seed4 = some d ∧
      d.calls.length ≤ 5 ∧
      (∀ i, ∃ b, passResult seed4 i = some b) ∧
      (∀ i, i < d.calls.length → passResult seed4 i = d.calls[i]?) ∧
      (∀ i, i + 1 < d.calls.length → passResult seed4 i = some true) ∧
      (d.calls.length < 5 →
        0 < d.calls.length ∧ passResult seed4 (d.calls.length - 1) = some false) ∧
      (∀ k, 1 ≤ k → passResult seed4 (k - 1) = some false →
        (∀ i, i + 1 < k → passResult seed4 i = some true) → d.calls.length = min 5 k) ∧
      ((∀ i, passResult seed4 i = some true) → d.calls.length = 5) ∧
      afterPasses seed4 d.calls.length = some d.model ∧
      d.model.iteration = d.calls.length ∧ d.iteration = d.calls.length :=
  ⟨by decide, rfl, C17_iteration_cap 5 2 seed4 (by decide) rfl⟩

/-- C18. Growth exactly at firing boundaries: on every well-formed grid one
`iterate()` returns, and there are `du, dd, dl, dr ≤ 1` with
`height' = height + du + dd`, `width' = width + dl + dr`, `min_y' = min_y - du`,
`max_y' = max_y + dd`, `min_x' = min_x - dl`, `max_x' = max_x + dr`, where a row
is added above (`du = 1`) if and only if some cell of pre-pass row 0 holds at
least 4 grains, a row below iff some cell of the pre-pass last row does, a column
on the left iff some cell of pre-pass column 0 does, and a column on the right
iff some cell of the pre-pass last column does; so `height' ≤ height + 2` and
`width' ≤ width + 2`. -/
theorem C18_growth_at_firing_boundaries (m : SandpileModel) (hm : WellFormed m) :
    ∃ ch m1, iterate m = some (ch, m1) ∧
      (∃ du dd dl dr : Nat, du ≤ 1 ∧ dd ≤ 1 ∧ dl ≤ 1 ∧ dr ≤ 1 ∧
        m1.height = m.height + du + dd ∧ m1.width = m.width + dl + dr ∧
        m1.min_y = m.min_y - du ∧ m1.max_y = m.max_y + dd ∧
        m1.min_x = m.min_x - dl ∧ m1.max_x = m.max_x + dr ∧
        (du = 1 ↔ ∃ x v, readCell m.grid 0 x = some v ∧ 4 ≤ v) ∧
        (dd = 1 ↔ ∃ x v, readCell m.grid (m.height - 1) x = some v ∧ 4 ≤ v) ∧
        (dl = 1 ↔ ∃ y v, readCell m.grid y 0 = some v ∧ 4 ≤ v) ∧
        (dr = 1 ↔ ∃ y v, readCell m.grid y (m.width - 1) = some v ∧ 4 ≤ v)) ∧
      m1.height ≤ m.height + 2 ∧ m1.width ≤ m.width + 2 := by
  obtain ⟨ch, m1, he, _, du, dd, dl, dr, b1, b2, b3, b4, e1, e2, e3, e4, e5, e6, f1, f2, f3, f4⟩ :=
    iterate_growth hm
  exact ⟨ch, m1, he, ⟨du, dd, dl, dr, b1, b2, b3, b4, e1, e2, e3, e4, e5, e6, f1, f2, f3, f4⟩,
    by omega, by omega⟩

theorem C18_witness :
    WellFormed sampleGrid ∧
    ∃ ch m1, iterate sampleGrid = some (ch, m1) ∧
      (∃ du dd dl dr : Nat, du ≤ 1 ∧ dd ≤ 1 ∧ dl ≤ 1 ∧ dr ≤ 1 ∧
        m1.height = sampleGrid.height + du + dd ∧ m1.width = sampleGrid.width + dl + dr ∧
        m1.min_y = sampleGrid.min_y - du ∧ m1.max_y = sampleGrid.max_y + dd ∧
        m1.min_x = sampleGrid.min_x - dl ∧ m1.max_x = sampleGrid.max_x + dr ∧
        (du = 1 ↔ ∃ x v, readCell sampleGrid.grid 0 x = some v ∧ 4 ≤ v) ∧
        (dd = 1 ↔ ∃ x v, readCell sampleGrid.grid (sampleGrid.height - 1) x = some v ∧ 4 ≤ v) ∧
        (dl = 1 ↔ ∃ y v, readCell sampleGrid.grid y 0 = some v ∧ 4 ≤ v) ∧
        (dr = 1 ↔ ∃ y v, readCell sampleGrid.grid y (sampleGrid.width - 1) = some v ∧ 4 ≤ v)) ∧
      m1.height ≤ sampleGrid.height + 2 ∧ m1.width ≤ sampleGrid.width + 2 :=
  ⟨by decide, C18_growth_at_firing_boundaries sampleGrid (by decide)⟩

/-- C19. In-bounds access: on every well-formed grid `iterate()` returns, and
so does the pass in which every read and write of `grid[..][..]` and
`temp_grid[..][..]` is checked to use a row index below the current `height` and
a column index below the current `width` (the current values, also after a
mid-pass expansion and the cursor shifts `y++`, `x++`), with the same result: no
access is out of range. With a total below `2^64` the same holds when the
subtraction `grid[y][x] -= overflow * 4` is checked as well: it never wraps. -/
theorem C19_in_bounds_access (m : SandpileModel) (hm : WellFormed m) :
    ∃ r, iterate m = some r ∧ iterateChecked false m = some r ∧
      (sumGrid m.grid < U64 → iterateChecked true m = some r) := by
  obtain ⟨ch, m1, he, _, _⟩ := iterate_wf hm
  refine ⟨(ch, m1), he, ?_, fun ht => ?_⟩
  · rw [iterateChecked_eq hm false (fun h => Bool.noConfusion h), he]
  · rw [iterateChecked_eq hm true (fun _ => ht), he]

theorem C19_witness :
    WellFormed sampleGrid ∧
    ∃ r, iterate sampleGrid = some r ∧ iterateChecked false sampleGrid = some r ∧
      (sumGrid sampleGrid.grid < U64 → iterateChecked true sampleGrid = some r) :=
  ⟨by decide, C19_in_bounds_access sampleGrid (by decide)⟩

/-- C20. Shape invariant: the predicate `width = max_x - min_x + 1`,
`height = max_y - min_y + 1`, `width ≥ 1`, `height ≥ 1`, live and snapshot array
both exactly `height` rows of exactly `width` cells, holds after `initialize` on
every non-empty input (of `int16_t` coordinates and `uint64_t` grains), and on
every grid of `uint64_t` cells it is preserved by `expand_grid_up`,
`expand_grid_down`, `expand_grid_left`, `expand_grid_right` and by `iterate()`,
which returns. -/
theorem C20_shape_invariant (s : SandpileModel) (cells : List CellData) (m : SandpileModel)
    (hne : cells ≠ []) (hv : ∀ c ∈ cells, ValidCell c) (hs : ShapeInv m) (ht : Typed m.grid) :
    (∃ m0, initializeModel s cells = some m0 ∧ ShapeInv m0) ∧
    ShapeInv (expand_grid_up m) ∧ ShapeInv (expand_grid_down m) ∧
    ShapeInv (expand_grid_left m) ∧ ShapeInv (expand_grid_right m) ∧
    ∃ ch m1, iterate m = some (ch, m1) ∧ ShapeInv m1 := by
  obtain ⟨hm, hb⟩ := (shapeInv_iff m ht).mp hs
  refine ⟨?_, shapeInv_moved hb (moved_expand_up hm), shapeInv_moved hb (moved_expand_down hm),
    shapeInv_moved hb (moved_expand_left hm), shapeInv_moved hb (moved_expand_right hm), ?_⟩
  · obtain ⟨m0, he, hw, _, _, _, _, _, _, b1, b2, _⟩ := initialize_spec s cells hne hv
    exact ⟨m0, he, (shapeInv_iff m0 hw.2.2.2.2).mpr ⟨hw, b1, b2⟩⟩
  · obtain ⟨ch, m1, he, hw, hb1, _⟩ := pass_box hm hb
    exact ⟨ch, m1, he, (shapeInv_iff m1 hw.2.2.2.2).mpr ⟨hw, hb1⟩⟩

theorem C20_witness :
    sampleCells ≠ [] ∧ (∀ c ∈ sampleCells, ValidCell c) ∧ ShapeInv sampleGrid ∧
    Typed sampleGrid.grid ∧
    (∃ m0, initializeModel construct sampleCells = some m0 ∧ ShapeInv m0) ∧
    ShapeInv (expand_grid_up sampleGrid) ∧ ShapeInv (expand_grid_down sampleGrid) ∧
    ShapeInv (expand_grid_left sampleGrid) ∧ ShapeInv (expand_grid_right sampleGrid) ∧
    ∃ ch m1, iterate sampleGrid = some (ch, m1) ∧ ShapeInv m1 :=
  ⟨by decide, by decide, by decide, by decide,
    C20_shape_invariant construct sampleCells sampleGrid (by decide) (by decide) (by decide)
      (by decide)⟩

end Sandpile
